import Mathlib

/-!
# MathAnimation: the animation timeline and object registry

A shallow embedding of `Animations/src/animation/Animation.cpp` (namespace
`MathAnim`, `AnimationManagerEx`, `AnimObject`, `AnimationEx`) together with
the properties of its specification.

Conventions of the embedding.

* `std::vector` is `List`; the global `mObjects` and the two uid counters are
  passed explicitly.
* `int`/`int32` fields are `Int`; where the source does arithmetic on them the
  model wraps to 32 bits (`wrapInt32`).
* `float` values that hold integers are `Int` after `roundToF32`
  (round-to-nearest-even on a 24 bit significand); the one `float` division is
  `f32Div`.
* `g_logger_assert` terminates the program; a call that reaches a failing
  assertion yields `Fault.assertion` instead of a result.
-/

namespace MathAnim

/-! ## Machine arithmetic -/

/-- Two's complement wrap-around of a 32 bit signed integer operation. -/
def wrapInt32 (n : Int) : Int :=
  (n + 2 ^ 31) % 2 ^ 32 - 2 ^ 31

/-- Range of `int32`. -/
def isInt32 (n : Int) : Prop :=
  -2 ^ 31 ≤ n ∧ n < 2 ^ 31

instance (n : Int) : Decidable (isInt32 n) := by
  unfold isInt32; infer_instance

/-- Number of low-order bits of `a` that do not fit in a 24 bit significand. -/
def excessBits : Nat → Nat → Nat
  | 0, _ => 0
  | fuel + 1, a => if a < 2 ^ 24 then 0 else excessBits fuel (a / 2) + 1

/-- Conversion `int -> float` and every `float` operation whose exact result is
the integer `n`: the nearest binary32 value, ties to the even significand.
Magnitudes below `2^24` are exact. -/
def roundToF32 (n : Int) : Int :=
  let a := n.natAbs
  if a < 2 ^ 24 then n
  else
    let s := excessBits 128 a
    let q := a / 2 ^ s
    let r := a % 2 ^ s
    let h := 2 ^ (s - 1)
    let q' := if r < h then q else if h < r then q + 1 else if q % 2 = 0 then q else q + 1
    Int.sign n * ((q' * 2 ^ s : Nat) : Int)

/-- Conversion `float -> int` of an integer-valued float: exact inside the
`int` range, the x86 "integer indefinite" value `-2^31` outside of it. -/
def f32ToInt32 (x : Int) : Int :=
  if -2 ^ 31 ≤ x ∧ x < 2 ^ 31 then x else -2 ^ 31

/-- Result of a binary32 division: `finite neg m e` is `± m * 2^e`. -/
inductive F32 where
  | nan
  | inf (negative : Bool)
  | finite (negative : Bool) (significand : Nat) (exponent : Int)
  deriving DecidableEq, Repr

/-- Left shifts needed to bring the quotient `n / d` up to `2^23`. -/
def upShift (d : Nat) : Nat → Nat → Nat
  | 0, _ => 0
  | fuel + 1, n => if 2 ^ 23 * d ≤ n then 0 else upShift d fuel (2 * n) + 1

/-- Right shifts needed to bring the quotient `n / d` below `2^24`. -/
def downShift (n : Nat) : Nat → Nat → Nat
  | 0, _ => 0
  | fuel + 1, d => if n < 2 ^ 24 * d then 0 else downShift n fuel (2 * d) + 1

/-- Round-half-to-even of the quotient `n / d`. -/
def divRoundEven (n d : Nat) : Nat :=
  let q := n / d
  let r := n % d
  if 2 * r < d then q else if d < 2 * r then q + 1 else if q % 2 = 0 then q else q + 1

/-- Binary32 division of two integer-valued floats `n / d`, as IEEE 754
defines it: `0/0` is NaN, `x/0` is an infinity, otherwise the quotient is
rounded to a 24 bit significand (operands come from `int` values, so the
quotient is never subnormal and never overflows). -/
def f32Div (n d : Int) : F32 :=
  if d = 0 then
    if n = 0 then F32.nan else F32.inf (decide (n < 0))
  else if n = 0 then F32.finite (decide (d < 0)) 0 0
  else
    let a := n.natAbs
    let b := d.natAbs
    let k := upShift b 256 a
    let j := downShift a 256 b
    let m := divRoundEven (a * 2 ^ k) (b * 2 ^ j)
    let neg := decide ((n < 0) ≠ (d < 0))
    if m = 2 ^ 24 then F32.finite neg (2 ^ 23) ((j : Int) - k + 1)
    else F32.finite neg m ((j : Int) - k)

/-- Value of a finite binary32 quotient as a rational number. -/
def F32.toRat : F32 → Option ℚ
  | F32.finite neg m e => some ((if neg then -1 else 1) * (m : ℚ) * (2 : ℚ) ^ e)
  | _ => none

/-! ## Data model -/

/-- Enumerators of `AnimObjectType`, in the order of `animationObjectTypeNames`. -/
inductive AnimObjectType where
  | None
  | TextObject
  | LaTexObject
  | Length
  deriving DecidableEq, Repr

/-- Enumerators of `AnimTypeEx`, in the order of `animationTypeNames`. -/
inductive AnimTypeEx where
  | None
  | WriteInText
  | Length
  deriving DecidableEq, Repr

/-- Numeric value of an `AnimObjectType` enumerator. -/
def AnimObjectType.toNat : AnimObjectType → Nat
  | AnimObjectType.None => 0
  | AnimObjectType.TextObject => 1
  | AnimObjectType.LaTexObject => 2
  | AnimObjectType.Length => 3

/-- Numeric value of an `AnimTypeEx` enumerator. -/
def AnimTypeEx.toNat : AnimTypeEx → Nat
  | AnimTypeEx.None => 0
  | AnimTypeEx.WriteInText => 1
  | AnimTypeEx.Length => 2

/-- A 2D vector of `float`s, each kept as its binary32 bit pattern. -/
structure Vec2 where
  x : Nat
  y : Nat
  deriving DecidableEq, Repr

/-- The struct `AnimationEx`. -/
structure AnimationEx where
  type : AnimTypeEx
  objectId : Int
  frameStart : Int
  duration : Int
  id : Int
  deriving DecidableEq, Repr

/-- The union `AnimObject::as`: the member that is live, or no initialised
member. `T` and `L` stand for the structs `TextObject` and `LaTexObject`. -/
inductive ObjectData (T L : Type) where
  | uninit
  | textObject (t : T)
  | laTexObject (l : L)
  deriving DecidableEq, Repr

/-- The struct `AnimObject`. -/
structure AnimObject (T L : Type) where
  objectType : AnimObjectType
  position : Vec2
  id : Int
  frameStart : Int
  duration : Int
  timelineTrack : Int
  isAnimating : Bool
  as : ObjectData T L
  animations : List AnimationEx
  deriving DecidableEq, Repr

/-- Ways in which a call fails to return. Modelled from the spec for the macro
`g_logger_assert`, which is not in this file: a failed assertion ends the
program (section 7, "crash-on-invariant-violation"; section 9,
"assertion-based fatal checks"), here `assertion`. An index past the end of a
vector (`outOfBounds`) and a read past the end of a buffer (`readPastEnd`)
have no defined result. -/
inductive Fault where
  | assertion
  | outOfBounds
  | readPastEnd
  deriving DecidableEq, Repr

section Registry

variable {T L : Type}

/-! ## AnimationManagerEx: the registry operations -/

/-- The function `AnimationManagerEx::addAnimObject`: scan from the front,
insert before the first element that starts strictly earlier, else append. -/
def addAnimObject (object : AnimObject T L) : List (AnimObject T L) → List (AnimObject T L)
  | [] => [object]
  | x :: rest =>
    if object.frameStart > x.frameStart then object :: x :: rest
    else x :: addAnimObject object rest

/-- The insertion loop of `addAnimationTo` on an animation vector. -/
def insertAnimation (animation : AnimationEx) : List AnimationEx → List AnimationEx
  | [] => [animation]
  | x :: rest =>
    if animation.frameStart > x.frameStart then animation :: x :: rest
    else x :: insertAnimation animation rest

/-- The overload `addAnimationTo(AnimationEx, AnimObject&)`. -/
def addAnimationTo (animation : AnimationEx) (animObject : AnimObject T L) : AnimObject T L :=
  { animObject with animations := insertAnimation animation animObject.animations }

/-- The overload `addAnimationTo(AnimationEx, int animObjectId)`: the first
object with that id receives the animation; no object, no change. -/
def addAnimationToId (animation : AnimationEx) (animObjectId : Int) :
    List (AnimObject T L) → List (AnimObject T L)
  | [] => []
  | x :: rest =>
    if x.id ≠ animObjectId then x :: addAnimationToId animation animObjectId rest
    else { x with animations := insertAnimation animation x.animations } :: rest

/-- The function `AnimationManagerEx::removeAnimObject`. The inner loop asserts
that every animation of the object points back to it before the erase. -/
def removeAnimObject (animObjectId : Int) :
    List (AnimObject T L) → Except Fault (Bool × List (AnimObject T L))
  | [] => Except.ok (false, [])
  | x :: rest =>
    if x.id = animObjectId then
      if x.animations.all (fun a => decide (a.objectId = animObjectId)) then Except.ok (true, rest)
      else Except.error Fault.assertion
    else
      match removeAnimObject animObjectId rest with
      | Except.ok (found, rest') => Except.ok (found, x :: rest')
      | Except.error f => Except.error f

/-- Index and value of the first animation with the given id. -/
def findAnimation (animationId : Int) : List AnimationEx → Option (Nat × AnimationEx)
  | [] => none
  | a :: rest =>
    if a.id = animationId then some (0, a)
    else (findAnimation animationId rest).map (fun r => (r.1 + 1, r.2))

/-- The loop of `AnimationManagerEx::removeAnimation` from object index `i` on.
The assertion reads `animations[i]` with the object index `i`. -/
def removeAnimationFrom (animObjectId animationId : Int) :
    Nat → List (AnimObject T L) → Except Fault (Bool × List (AnimObject T L))
  | _, [] => Except.ok (false, [])
  | i, x :: rest =>
    let scanRest : Except Fault (Bool × List (AnimObject T L)) :=
      match removeAnimationFrom animObjectId animationId (i + 1) rest with
      | Except.ok (found, rest') => Except.ok (found, x :: rest')
      | Except.error f => Except.error f
    if x.id = animObjectId then
      match findAnimation animationId x.animations with
      | some (j, _) =>
        match x.animations[i]? with
        | none => Except.error Fault.outOfBounds
        | some checked =>
          if checked.objectId = animObjectId then
            Except.ok (true, { x with animations := x.animations.eraseIdx j } :: rest)
          else Except.error Fault.assertion
      | none => scanRest
    else scanRest

/-- The function `AnimationManagerEx::removeAnimation`. -/
def removeAnimation (animObjectId animationId : Int) (mObjects : List (AnimObject T L)) :
    Except Fault (Bool × List (AnimObject T L)) :=
  removeAnimationFrom animObjectId animationId 0 mObjects

/-- Index and value of the first object with the given id. -/
def findObject (animObjectId : Int) : List (AnimObject T L) → Option (Nat × AnimObject T L)
  | [] => none
  | x :: rest =>
    if x.id = animObjectId then some (0, x)
    else (findObject animObjectId rest).map (fun r => (r.1 + 1, r.2))

/-- The function `AnimationManagerEx::setAnimObjectTime`. -/
def setAnimObjectTime (animObjectId frameStart duration : Int) (mObjects : List (AnimObject T L)) :
    Bool × List (AnimObject T L) :=
  match findObject animObjectId mObjects with
  | none => (false, mObjects)
  | some (objectIndex, animObject) =>
    if animObject.frameStart = frameStart ∧ animObject.duration = duration then (true, mObjects)
    else
      (true, addAnimObject { animObject with frameStart := frameStart, duration := duration }
        (mObjects.eraseIdx objectIndex))

/-- The function `AnimationManagerEx::setAnimationTime`. -/
def setAnimationTime (animObjectId animationId frameStart duration : Int) :
    List (AnimObject T L) → Bool × List (AnimObject T L)
  | [] => (false, [])
  | x :: rest =>
    let scanRest : Bool × List (AnimObject T L) :=
      ((setAnimationTime animObjectId animationId frameStart duration rest).1,
        x :: (setAnimationTime animObjectId animationId frameStart duration rest).2)
    if x.id = animObjectId then
      match findAnimation animationId x.animations with
      | some (animationIndex, animation) =>
        if animation.frameStart = frameStart ∧ animation.duration = duration then (true, x :: rest)
        else
          (true, addAnimationTo { animation with frameStart := frameStart, duration := duration }
            { x with animations := x.animations.eraseIdx animationIndex } :: rest)
      | none => scanRest
    else scanRest

/-- The function `AnimationManagerEx::setAnimObjectTrack`. -/
def setAnimObjectTrack (animObjectId track : Int) : List (AnimObject T L) → List (AnimObject T L)
  | [] => []
  | x :: rest =>
    if x.id = animObjectId then { x with timelineTrack := track } :: rest
    else x :: setAnimObjectTrack animObjectId track rest

/-- The function `AnimationManagerEx::getMutableObject` (and `getObject`). -/
def getMutableObject (animObjectId : Int) : List (AnimObject T L) → Option (AnimObject T L)
  | [] => none
  | x :: rest => if x.id = animObjectId then some x else getMutableObject animObjectId rest


/-! ## Sortedness and the operation alphabet -/

/-- Non-increasing order by `key` (the start frame). -/
def SortedDesc {α : Type} (key : α → Int) (l : List α) : Prop :=
  l.Pairwise (fun a b => key b ≤ key a)

instance {α : Type} (key : α → Int) (l : List α) : Decidable (SortedDesc key l) := by
  unfold SortedDesc; infer_instance

/-- Both levels of the registry are sorted by start frame, non-increasing. -/
def RegistrySorted (mObjects : List (AnimObject T L)) : Prop :=
  SortedDesc AnimObject.frameStart mObjects ∧
    ∀ o ∈ mObjects, SortedDesc AnimationEx.frameStart o.animations

instance (mObjects : List (AnimObject T L)) : Decidable (RegistrySorted mObjects) := by
  unfold RegistrySorted; infer_instance

/-- One call of a public mutation operation. `addAnimationToRef` is the
overload taking `AnimObject&`, the reference being to the registry element at
`index` (a reference to an object outside the registry leaves it unchanged). -/
inductive Op (T L : Type) where
  | addAnimObject (object : AnimObject T L)
  | addAnimationToRef (animation : AnimationEx) (index : Nat)
  | addAnimationTo (animation : AnimationEx) (animObjectId : Int)
  | removeAnimObject (animObjectId : Int)
  | removeAnimation (animObjectId animationId : Int)
  | setAnimObjectTime (animObjectId frameStart duration : Int)
  | setAnimationTime (animObjectId animationId frameStart duration : Int)
  | setAnimObjectTrack (animObjectId track : Int)

/-- Registry after one call, or the fault that ends the program. -/
def Op.apply : Op T L → List (AnimObject T L) → Except Fault (List (AnimObject T L))
  | Op.addAnimObject object, s => Except.ok (MathAnim.addAnimObject object s)
  | Op.addAnimationToRef animation index, s =>
    match s[index]? with
    | some o => Except.ok (s.set index (MathAnim.addAnimationTo animation o))
    | none => Except.ok s
  | Op.addAnimationTo animation animObjectId, s =>
    Except.ok (addAnimationToId animation animObjectId s)
  | Op.removeAnimObject animObjectId, s => (MathAnim.removeAnimObject animObjectId s).map Prod.snd
  | Op.removeAnimation animObjectId animationId, s =>
    (MathAnim.removeAnimation animObjectId animationId s).map Prod.snd
  | Op.setAnimObjectTime animObjectId frameStart duration, s =>
    Except.ok (MathAnim.setAnimObjectTime animObjectId frameStart duration s).2
  | Op.setAnimationTime animObjectId animationId frameStart duration, s =>
    Except.ok (MathAnim.setAnimationTime animObjectId animationId frameStart duration s).2
  | Op.setAnimObjectTrack animObjectId track, s =>
    Except.ok (MathAnim.setAnimObjectTrack animObjectId track s)

/-- The two removals, the operations that carry an assertion. -/
def Op.isRemoval : Op T L → Bool
  | Op.removeAnimObject _ => true
  | Op.removeAnimation _ _ => true
  | _ => false

/-- An inserted object brings a sorted animation list of its own. -/
def Op.Admissible : Op T L → Prop
  | Op.addAnimObject object => SortedDesc AnimationEx.frameStart object.animations
  | _ => True

/-- Registry states reachable from the empty registry. -/
inductive Reachable : List (AnimObject T L) → Prop where
  | empty : Reachable []
  | step {s s' : List (AnimObject T L)} (op : Op T L) :
      Reachable s → op.Admissible → op.apply s = Except.ok s' → Reachable s'

/-- Every object of the list has a sorted animation vector. -/
def AnimsSorted (l : List (AnimObject T L)) : Prop :=
  ∀ o ∈ l, SortedDesc AnimationEx.frameStart o.animations

end Registry

section Playback

variable {T L : Type}

/-! ## AnimationManagerEx::render -/

/-- A call made by `render`: `animIter->render(vg, t)` for the animation at
`animIndex` of the object at `objectIndex`, or `objectIter->render(vg)`. -/
inductive Dispatch where
  | animation (objectIndex animIndex : Nat) (t : F32)
  | object (objectIndex : Nat)
  deriving DecidableEq, Repr

/-- Body of the inner loop of `render` once the parent is known: the
activation test, and the interpolation value handed to the animation when the
test passes. -/
def animationStep (frame parentStart : Int) (a : AnimationEx) : Option F32 :=
  let parentFrameStart := roundToF32 parentStart
  let absoluteFrameStart := roundToF32 (roundToF32 a.frameStart + parentFrameStart)
  let animDeathTime := f32ToInt32 (roundToF32 (absoluteFrameStart + roundToF32 a.duration))
  if absoluteFrameStart ≤ roundToF32 frame ∧ frame ≤ animDeathTime then
    some (f32Div (roundToF32 (roundToF32 frame - absoluteFrameStart)) (roundToF32 a.duration))
  else none

/-- Inner loop of `render` over the animations of the object `cur` at position
`objectIndex`, from `animIndex` on; `before` and `after` are the registry
elements around it, which `getParent` searches. The result is the object with
its flag, the calls made and the fault of a failed `getParent` assertion. -/
def renderAnimations (frame : Int) (before after : List (AnimObject T L)) (objectIndex : Nat) :
    Nat → AnimObject T L → List AnimationEx → AnimObject T L × List Dispatch × Option Fault
  | _, cur, [] => (cur, [], none)
  | animIndex, cur, a :: rest =>
    match getMutableObject a.objectId (before ++ cur :: after) with
    | none => (cur, [], some Fault.assertion)
    | some parent =>
      match animationStep frame parent.frameStart a with
      | some interpolatedT =>
        let r := renderAnimations frame before after objectIndex (animIndex + 1)
          { cur with isAnimating := true } rest
        (r.1, Dispatch.animation objectIndex animIndex interpolatedT :: r.2.1, r.2.2)
      | none => renderAnimations frame before after objectIndex (animIndex + 1) cur rest

/-- State of the program after `render`: the registry, the calls made in
order, and the fault that stopped it, if any. -/
structure RenderResult (T L : Type) where
  mObjects : List (AnimObject T L)
  dispatches : List Dispatch
  fault : Option Fault

/-- Outer loop of `render`: `before` holds the objects already visited. -/
def renderObjects (frame : Int) :
    List (AnimObject T L) → List (AnimObject T L) → RenderResult T L
  | before, [] => { mObjects := before, dispatches := [], fault := none }
  | before, o :: after =>
    let r := renderAnimations frame before after before.length 0
      { o with isAnimating := false } o.animations
    match r.2.2 with
    | some f => { mObjects := before ++ r.1 :: after, dispatches := r.2.1, fault := some f }
    | none =>
      let objectDeathTime := wrapInt32 (r.1.frameStart + r.1.duration)
      let own :=
        if r.1.isAnimating = false ∧ r.1.frameStart ≤ frame ∧ frame ≤ objectDeathTime then
          [Dispatch.object before.length]
        else []
      let tail := renderObjects frame (before ++ [r.1]) after
      { mObjects := tail.mObjects, dispatches := r.2.1 ++ own ++ tail.dispatches,
        fault := tail.fault }

/-- The function `AnimationManagerEx::render`. -/
def render (frame : Int) (mObjects : List (AnimObject T L)) : RenderResult T L :=
  renderObjects frame [] mObjects

/-- Integers that `float` holds exactly without rounding. -/
def fitsF32 (n : Int) : Prop :=
  n.natAbs < 2 ^ 24

instance (n : Int) : Decidable (fitsF32 n) := by
  unfold fitsF32; infer_instance

/-- The id and start frame of every object: all that `getParent` and the
activation test read from the registry. -/
def objectKeys (l : List (AnimObject T L)) : List (Int × Int) :=
  l.map (fun o => (o.id, o.frameStart))

/-- Start frame of the first entry with the given id. -/
def lookupStart (id : Int) : List (Int × Int) → Option Int
  | [] => none
  | k :: rest => if k.1 = id then some k.2 else lookupStart id rest

/-- Outcome of the activation test for `a` when the parent is looked up by id. -/
def animResult (keys : List (Int × Int)) (frame : Int) (a : AnimationEx) : Option F32 :=
  match lookupStart a.objectId keys with
  | none => none
  | some parentStart => animationStep frame parentStart a

/-- Calls for the animations of object `i`, numbered from `j`, when every
parent lookup succeeds. -/
def animDispatches (keys : List (Int × Int)) (frame : Int) (i : Nat) :
    Nat → List AnimationEx → List Dispatch
  | _, [] => []
  | j, a :: rest =>
    match animResult keys frame a with
    | some t => Dispatch.animation i j t :: animDispatches keys frame i (j + 1) rest
    | none => animDispatches keys frame i (j + 1) rest

/-- Calls for the objects of `l`, numbered from `i`, when every parent lookup
succeeds. -/
def objectDispatches (keys : List (Int × Int)) (frame : Int) :
    Nat → List (AnimObject T L) → List Dispatch
  | _, [] => []
  | i, o :: rest =>
    animDispatches keys frame i 0 o.animations ++
      (if (o.animations.any fun a => (animResult keys frame a).isSome) = false ∧
          o.frameStart ≤ frame ∧ frame ≤ wrapInt32 (o.frameStart + o.duration) then
        [Dispatch.object i]
      else []) ++ objectDispatches keys frame (i + 1) rest

/-- Unique object ids. -/
def UniqueObjectIds (l : List (AnimObject T L)) : Prop :=
  (l.map AnimObject.id).Nodup

instance (l : List (AnimObject T L)) : Decidable (UniqueObjectIds l) := by
  unfold UniqueObjectIds; infer_instance

/-- Every animation's `objectId` is the id of the object that contains it. -/
def BackReferences (l : List (AnimObject T L)) : Prop :=
  ∀ o ∈ l, ∀ a ∈ o.animations, a.objectId = o.id

instance (l : List (AnimObject T L)) : Decidable (BackReferences l) := by
  unfold BackReferences; infer_instance

/-- Every animation's `objectId` is the id of some object of the registry. -/
def ParentsResolve (l : List (AnimObject T L)) : Prop :=
  ∀ o ∈ l, ∀ a ∈ o.animations, ∃ p, getMutableObject a.objectId l = some p

/-- The object as `render` leaves it: only the flag changes. -/
def renderedObject (keys : List (Int × Int)) (frame : Int) (o : AnimObject T L) : AnimObject T L :=
  { o with isAnimating := o.animations.any fun a => (animResult keys frame a).isSome }

end Playback

section Codec

variable {T L : Type}

/-! ## UID allocator -/

/-- The function `AnimationEx::createDefault`, with `animationUidCounter` passed
in and its new value returned: the id is the counter, the counter is
post-incremented in 32 bit arithmetic. -/
def AnimationEx.createDefault (animationUidCounter : Int) (type : AnimTypeEx)
    (frameStart duration animObjectId : Int) : AnimationEx × Int :=
  ({ type := type, objectId := animObjectId, frameStart := frameStart, duration := duration,
      id := animationUidCounter },
    wrapInt32 (animationUidCounter + 1))

/-- What `AnimObject::createDefault` takes from outside this file: the results
of `TextObject::createDefault()` and `LaTexObject::createDefault()`, and the
value of the field `timelineTrack`, which the function does not assign. -/
structure ObjectDefaults (T L : Type) where
  textObject : T
  laTexObject : L
  timelineTrack : Int

/-- The function `AnimObject::createDefault`, with `animObjectUidCounter`
passed in and its new value returned. -/
def AnimObject.createDefault (defaults : ObjectDefaults T L) (animObjectUidCounter : Int)
    (type : AnimObjectType) (frameStart duration : Int) : AnimObject T L × Int :=
  ({ objectType := type, position := { x := 0, y := 0 }, id := animObjectUidCounter,
      frameStart := frameStart, duration := duration,
      timelineTrack := defaults.timelineTrack, isAnimating := false,
      as := match type with
        | AnimObjectType.TextObject => ObjectData.textObject defaults.textObject
        | AnimObjectType.LaTexObject => ObjectData.laTexObject defaults.laTexObject
        | _ => ObjectData.uninit,
      animations := [] },
    wrapInt32 (animObjectUidCounter + 1))

/-! ## Serialization -/

/-- A byte of a `RawMemory` buffer. -/
abbrev Byte := Fin 256

/-- The low byte of a number. -/
def byteOf (v : Nat) : Byte :=
  ⟨v % 256, Nat.mod_lt _ (by decide)⟩

/-- The constant `SERIALIZER_VERSION`. -/
def SERIALIZER_VERSION : Nat := 1

/-- The constant `MAGIC_NUMBER`. -/
def MAGIC_NUMBER : Nat := 0xDEADBEEF

/-- The four bytes of a 32 bit pattern, low byte first. -/
def u32Bytes (v : Nat) : List Byte :=
  [byteOf v, byteOf (v / 256), byteOf (v / 65536), byteOf (v / 16777216)]

/-- Modelled from the spec: `RawMemory::write<uint32>` (and `write<float>` on
a bit pattern), which is not in this file. Section 4.5 gives every such field
"4 bytes"; the write appends them to the buffer. -/
def writeU32 (memory : List Byte) (v : Nat) : List Byte :=
  memory ++ u32Bytes v

/-- Bit pattern of an `int32` (two's complement). -/
def int32Bits (n : Int) : Nat :=
  (n % 2 ^ 32).toNat

/-- The `int32` with the given bit pattern. -/
def bitsToInt32 (v : Nat) : Int :=
  if v < 2 ^ 31 then (v : Int) else (v : Int) - 2 ^ 32

/-- Modelled from the spec: `RawMemory::write<int32>`, 4 bytes per section 4.5. -/
def writeI32 (memory : List Byte) (n : Int) : List Byte :=
  writeU32 memory (int32Bits n)

/-- Modelled from the spec: `RawMemory::read<uint32>` (and `read<float>` as a
bit pattern), which is not in this file: the next 4 bytes at the read cursor,
low byte first, and the buffer behind them. A read past the end of the buffer
delivers no value; the callers here do not test for that, so the model stops
with `Fault.readPastEnd`. -/
def readU32 : List Byte → Except Fault (Nat × List Byte)
  | b0 :: b1 :: b2 :: b3 :: rest =>
    Except.ok (b0.val + 256 * b1.val + 65536 * b2.val + 16777216 * b3.val, rest)
  | _ => Except.error Fault.readPastEnd

/-- Modelled from the spec: `RawMemory::read<int32>`, 4 bytes per section 4.5. -/
def readI32 (memory : List Byte) : Except Fault (Int × List Byte) :=
  match readU32 memory with
  | Except.ok (v, rest) => Except.ok (bitsToInt32 v, rest)
  | Except.error f => Except.error f

/-- The methods `serialize(RawMemory&)` and `deserialize(RawMemory&, version)`
of a payload struct (`TextObject`, `LaTexObject`), which are not in this file:
the bytes written, and the value read together with the rest of the buffer. -/
structure PayloadCodec (P : Type) where
  serialize : P → List Byte
  deserialize : List Byte → Except Fault (P × List Byte)

/-- The two payload codecs. -/
structure Codecs (T L : Type) where
  textObject : PayloadCodec T
  laTexObject : PayloadCodec L

/-- A payload codec reads back what it wrote, whatever follows in the buffer. -/
def PayloadCodec.RoundTrips {P : Type} (c : PayloadCodec P) : Prop :=
  ∀ (p : P) (rest : List Byte), c.deserialize (c.serialize p ++ rest) = Except.ok (p, rest)

/-- The cast `(AnimTypeEx)animType` of a value that passed the range assertion. -/
def AnimTypeEx.fromTag : Nat → AnimTypeEx
  | 0 => AnimTypeEx.None
  | 1 => AnimTypeEx.WriteInText
  | _ => AnimTypeEx.Length

/-- The cast `(AnimObjectType)animObjectType` of a value that passed the range
assertion. -/
def AnimObjectType.fromTag : Nat → AnimObjectType
  | 0 => AnimObjectType.None
  | 1 => AnimObjectType.TextObject
  | 2 => AnimObjectType.LaTexObject
  | _ => AnimObjectType.Length

/-- The method `AnimationEx::serialize`. -/
def AnimationEx.serialize (memory : List Byte) (a : AnimationEx) : List Byte :=
  writeI32 (writeI32 (writeI32 (writeI32 (writeU32 memory a.type.toNat) a.objectId)
    a.frameStart) a.duration) a.id

/-- The function `deserializeAnimationExV1`. -/
def deserializeAnimationExV1 (memory : List Byte) : Except Fault (AnimationEx × List Byte) := do
  let (animType, m1) ← readU32 memory
  if animType < AnimTypeEx.Length.toNat then
    let (objectId, m2) ← readI32 m1
    let (frameStart, m3) ← readI32 m2
    let (duration, m4) ← readI32 m3
    let (id, m5) ← readI32 m4
    pure ({ type := AnimTypeEx.fromTag animType, objectId := objectId, frameStart := frameStart,
            duration := duration, id := id }, m5)
  else throw Fault.assertion

/-- The method `AnimationEx::deserialize`: version 1 goes to the V1 decoder,
any other version logs an error and returns a placeholder. -/
def AnimationEx.deserialize (memory : List Byte) (version : Nat) :
    Except Fault (AnimationEx × List Byte) :=
  if version = 1 then deserializeAnimationExV1 memory
  else
    pure ({ type := AnimTypeEx.None, objectId := -1, frameStart := 0, duration := 0, id := -1 },
      memory)

/-- The loop of `AnimObject::serialize` over the first `n` animations. -/
def serializeAnimations (memory : List Byte) : List AnimationEx → List Byte
  | [] => memory
  | a :: rest => serializeAnimations (a.serialize memory) rest

/-- The method `AnimObject::serialize`. The switch writes the payload of the
kinds `TextObject` and `LaTexObject` from the union member of that name (the
model writes nothing when another member is live, a case the source leaves
undefined); the count is the vector size cast to `uint32`. -/
def AnimObject.serialize (codecs : Codecs T L) (memory : List Byte) (o : AnimObject T L) :
    List Byte :=
  let m1 := writeI32 (writeI32 (writeI32 (writeI32 (writeU32 (writeU32
    (writeU32 memory o.objectType.toNat) o.position.x) o.position.y) o.id) o.frameStart)
    o.duration) o.timelineTrack
  let m2 :=
    match o.objectType, o.as with
    | AnimObjectType.TextObject, ObjectData.textObject t => m1 ++ codecs.textObject.serialize t
    | AnimObjectType.LaTexObject, ObjectData.laTexObject l => m1 ++ codecs.laTexObject.serialize l
    | _, _ => m1
  let numAnimations := o.animations.length % 2 ^ 32
  serializeAnimations (writeU32 m2 numAnimations) (o.animations.take numAnimations)

/-- The loop of `deserializeAnimObjectV1` that reads `n` animations, advancing
`animationUidCounter` past every id read. -/
def deserializeAnimations :
    Nat → List Byte → Int → List AnimationEx → Except Fault (List AnimationEx × List Byte × Int)
  | 0, memory, counter, acc => pure (acc, memory, counter)
  | n + 1, memory, counter, acc => do
    let (animation, m1) ← AnimationEx.deserialize memory SERIALIZER_VERSION
    deserializeAnimations n m1 (max counter (wrapInt32 (animation.id + 1))) (acc ++ [animation])

/-- The function `deserializeAnimObjectV1`, with the two uid counters passed in
and returned. The flag `isAnimating`, which the function does not assign, is
`false` in the model. -/
def deserializeAnimObjectV1 (codecs : Codecs T L) (memory : List Byte)
    (animObjectUidCounter animationUidCounter : Int) :
    Except Fault (AnimObject T L × List Byte × Int × Int) := do
  let (animObjectType, m1) ← readU32 memory
  if animObjectType < AnimObjectType.Length.toNat then
    let objectType := AnimObjectType.fromTag animObjectType
    let (x, m2) ← readU32 m1
    let (y, m3) ← readU32 m2
    let (id, m4) ← readI32 m3
    let (frameStart, m5) ← readI32 m4
    let (duration, m6) ← readI32 m5
    let (timelineTrack, m7) ← readI32 m6
    let objectCounter := max animObjectUidCounter (wrapInt32 (id + 1))
    let (as, m8) ←
      match objectType with
      | AnimObjectType.TextObject => do
        let (t, m) ← codecs.textObject.deserialize m7
        pure (ObjectData.textObject t, m)
      | AnimObjectType.LaTexObject => do
        let (l, m) ← codecs.laTexObject.deserialize m7
        pure (ObjectData.laTexObject l, m)
      | _ => pure (ObjectData.uninit, m7)
    let (numAnimations, m9) ← readU32 m8
    let (animations, m10, animationCounter) ←
      deserializeAnimations numAnimations m9 animationUidCounter []
    pure ({ objectType := objectType, position := { x := x, y := y }, id := id,
            frameStart := frameStart, duration := duration, timelineTrack := timelineTrack,
            isAnimating := false, as := as, animations := animations },
          m10, objectCounter, animationCounter)
  else throw Fault.assertion

/-- The method `AnimObject::deserialize`: version 1 goes to the V1 decoder, any
other version logs an error and returns a placeholder. -/
def AnimObject.deserialize (codecs : Codecs T L) (memory : List Byte) (version : Nat)
    (animObjectUidCounter animationUidCounter : Int) :
    Except Fault (AnimObject T L × List Byte × Int × Int) :=
  if version = 1 then
    deserializeAnimObjectV1 codecs memory animObjectUidCounter animationUidCounter
  else
    pure ({ objectType := AnimObjectType.None, position := { x := 0, y := 0 }, id := -1,
            frameStart := 0, duration := 0, timelineTrack := -1, isAnimating := false,
            as := ObjectData.uninit, animations := [] },
          memory, animObjectUidCounter, animationUidCounter)

/-- The global state of the file: the registry and the two uid counters. -/
structure Manager (T L : Type) where
  mObjects : List (AnimObject T L)
  animObjectUidCounter : Int
  animationUidCounter : Int

/-- State in which a load ends, and the fault that ended it, if any. -/
structure LoadResult (T L : Type) where
  state : Manager T L
  fault : Option Fault

/-- The loop of `AnimationManagerEx::serialize`: each object, then the magic
number. -/
def serializeObjects (codecs : Codecs T L) (memory : List Byte) :
    List (AnimObject T L) → List Byte
  | [] => memory
  | o :: rest => serializeObjects codecs (writeU32 (o.serialize codecs memory) MAGIC_NUMBER) rest

/-- The function `AnimationManagerEx::serialize`: the bytes written to the
file. -/
def serialize (codecs : Codecs T L) (mObjects : List (AnimObject T L)) : List Byte :=
  serializeObjects codecs
    (writeU32 (writeU32 (writeU32 [] MAGIC_NUMBER) SERIALIZER_VERSION)
      (mObjects.length % 2 ^ 32))
    mObjects

/-- The loop of `deserializeAnimationManagerExV1` over `n` records: decode the
object, `push_back` it, then read and assert the trailing magic number. When
a record fails inside `AnimObject::deserialize` the model keeps the counters
of the record's start. -/
def deserializeObjects (codecs : Codecs T L) :
    Nat → List Byte → Manager T L → LoadResult T L
  | 0, _, s => { state := s, fault := none }
  | n + 1, memory, s =>
    match AnimObject.deserialize codecs memory 1 s.animObjectUidCounter s.animationUidCounter with
    | Except.error f => { state := s, fault := some f }
    | Except.ok (animObject, m1, objectCounter, animationCounter) =>
      let s1 : Manager T L :=
        { mObjects := s.mObjects ++ [animObject], animObjectUidCounter := objectCounter,
          animationUidCounter := animationCounter }
      match readU32 m1 with
      | Except.error f => { state := s1, fault := some f }
      | Except.ok (magicNumber, m2) =>
        if magicNumber = MAGIC_NUMBER then deserializeObjects codecs n m2 s1
        else { state := s1, fault := some Fault.assertion }

/-- The function `deserializeAnimationManagerExV1`. -/
def deserializeAnimationManagerExV1 (codecs : Codecs T L) (memory : List Byte)
    (s : Manager T L) : LoadResult T L :=
  match readU32 memory with
  | Except.error f => { state := s, fault := some f }
  | Except.ok (numAnimations, m1) => deserializeObjects codecs numAnimations m1 s

/-- The function `AnimationManagerEx::deserialize` on the contents of the file
at `loadPath` (`none` when the file cannot be opened). -/
def deserialize (codecs : Codecs T L) (file : Option (List Byte)) (s : Manager T L) :
    LoadResult T L :=
  match file with
  | none => { state := s, fault := none }
  | some memory =>
    match readU32 memory with
    | Except.error f => { state := s, fault := some f }
    | Except.ok (magicNumber, m1) =>
      match readU32 m1 with
      | Except.error f => { state := s, fault := some f }
      | Except.ok (serializerVersion, m2) =>
        if magicNumber ≠ MAGIC_NUMBER then { state := s, fault := some Fault.assertion }
        else if ¬ (serializerVersion ≠ 0 ∧ serializerVersion ≤ SERIALIZER_VERSION) then
          { state := s, fault := some Fault.assertion }
        else if serializerVersion = 1 then deserializeAnimationManagerExV1 codecs m2 s
        else { state := s, fault := none }

/-! ## Values that the 32 bit fields of the container can hold -/

/-- The `int` fields of an animation are 32 bit values. -/
def AnimationEx.InRange (a : AnimationEx) : Prop :=
  isInt32 a.objectId ∧ isInt32 a.frameStart ∧ isInt32 a.duration ∧ isInt32 a.id

instance (a : AnimationEx) : Decidable a.InRange := by
  unfold AnimationEx.InRange; infer_instance

/-- The `int` fields of an object and of its animations are 32 bit values, the
position holds two 32 bit patterns, and the animation count is one that the
`int` loop index reaches. -/
def AnimObject.InRange (o : AnimObject T L) : Prop :=
  o.position.x < 2 ^ 32 ∧ o.position.y < 2 ^ 32 ∧ isInt32 o.id ∧ isInt32 o.frameStart ∧
    isInt32 o.duration ∧ isInt32 o.timelineTrack ∧ o.animations.length < 2 ^ 31 ∧
    ∀ a ∈ o.animations, a.InRange

instance (o : AnimObject T L) : Decidable o.InRange := by
  unfold AnimObject.InRange; infer_instance

/-- The live member of the union `as` is the one the kind names. -/
def AnimObject.WellTagged (o : AnimObject T L) : Prop :=
  match o.objectType, o.as with
  | AnimObjectType.TextObject, ObjectData.textObject _ => True
  | AnimObjectType.LaTexObject, ObjectData.laTexObject _ => True
  | AnimObjectType.None, ObjectData.uninit => True
  | AnimObjectType.Length, ObjectData.uninit => True
  | _, _ => False

/-- The kinds of the object and of its animations are below `Length`. -/
def AnimObject.ProperKinds (o : AnimObject T L) : Prop :=
  o.objectType ≠ AnimObjectType.Length ∧ ∀ a ∈ o.animations, a.type ≠ AnimTypeEx.Length

instance (o : AnimObject T L) : Decidable o.ProperKinds := by
  unfold AnimObject.ProperKinds; infer_instance

/-- A registry whose objects the container can hold. -/
def Storable (mObjects : List (AnimObject T L)) : Prop :=
  mObjects.length < 2 ^ 31 ∧ ∀ o ∈ mObjects, o.InRange ∧ o.WellTagged

/-- The animations of all objects, in registry order. -/
def allAnimations : List (AnimObject T L) → List AnimationEx
  | [] => []
  | o :: rest => o.animations ++ allAnimations rest

/-- The counter after `counter = max(counter, id + 1)` for every id of the
list in turn, the sum taken in 32 bit arithmetic. -/
def advance (counter : Int) (ids : List Int) : Int :=
  ids.foldl (fun c id => max c (wrapInt32 (id + 1))) counter

/-- The value `m` is the larger of `c` and the largest element of `l`. -/
def IsMaxWith (c : Int) (l : List Int) (m : Int) : Prop :=
  c ≤ m ∧ (∀ x ∈ l, x ≤ m) ∧ (m = c ∨ m ∈ l)

end Codec

section Sessions

variable {T L : Type}

/-! ## Clients of the allocator and the registry -/

/-- The program state as a client drives it: the manager, the objects and
animations that `createDefault` has returned and the client has not yet
added, and the ids handed out so far. -/
structure Session (T L : Type) where
  manager : Manager T L
  newObjects : List (AnimObject T L)
  newAnimations : List AnimationEx
  issuedObjectIds : List Int
  issuedAnimationIds : List Int

/-- The state at program start: empty registry, both counters 0. -/
def Session.initial : Session T L :=
  { manager := { mObjects := [], animObjectUidCounter := 0, animationUidCounter := 0 },
    newObjects := [], newAnimations := [], issuedObjectIds := [], issuedAnimationIds := [] }

/-- A client call. Objects and animations are added from the pool of values
that `createDefault` returned (position `k`), each at most once. -/
inductive SessionOp (T L : Type) where
  | createObject (defaults : ObjectDefaults T L) (type : AnimObjectType)
      (frameStart duration : Int)
  | createAnimation (type : AnimTypeEx) (frameStart duration animObjectId : Int)
  | addAnimObject (k : Nat)
  | addAnimationTo (k : Nat) (animObjectId : Int)
  | addAnimationToRef (k : Nat) (index : Nat)
  | removeAnimObject (animObjectId : Int)
  | removeAnimation (animObjectId animationId : Int)
  | setAnimObjectTime (animObjectId frameStart duration : Int)
  | setAnimationTime (animObjectId animationId frameStart duration : Int)
  | setAnimObjectTrack (animObjectId track : Int)

/-- The session after a registry-only call that yields the new object list. -/
def Session.withObjects (s : Session T L) (mObjects : List (AnimObject T L)) : Session T L :=
  { s with manager := { s.manager with mObjects := mObjects } }

/-- State after one client call, or the fault that ends the program. -/
def SessionOp.apply : SessionOp T L → Session T L → Except Fault (Session T L)
  | SessionOp.createObject defaults type frameStart duration, s =>
    let r := AnimObject.createDefault defaults s.manager.animObjectUidCounter type frameStart
      duration
    Except.ok { s with
      manager := { s.manager with animObjectUidCounter := r.2 }
      newObjects := s.newObjects ++ [r.1]
      issuedObjectIds := r.1.id :: s.issuedObjectIds }
  | SessionOp.createAnimation type frameStart duration animObjectId, s =>
    let r := AnimationEx.createDefault s.manager.animationUidCounter type frameStart duration
      animObjectId
    Except.ok { s with
      manager := { s.manager with animationUidCounter := r.2 }
      newAnimations := s.newAnimations ++ [r.1]
      issuedAnimationIds := r.1.id :: s.issuedAnimationIds }
  | SessionOp.addAnimObject k, s =>
    match s.newObjects[k]? with
    | some o =>
      Except.ok { s with
        manager := { s.manager with mObjects := MathAnim.addAnimObject o s.manager.mObjects }
        newObjects := s.newObjects.eraseIdx k }
    | none => Except.ok s
  | SessionOp.addAnimationTo k animObjectId, s =>
    match s.newAnimations[k]? with
    | some a =>
      Except.ok { s with
        manager := { s.manager with
          mObjects := MathAnim.addAnimationToId a animObjectId s.manager.mObjects }
        newAnimations := s.newAnimations.eraseIdx k }
    | none => Except.ok s
  | SessionOp.addAnimationToRef k index, s =>
    match s.newAnimations[k]?, s.manager.mObjects[index]? with
    | some a, some o =>
      Except.ok { s with
        manager := { s.manager with
          mObjects := s.manager.mObjects.set index (MathAnim.addAnimationTo a o) }
        newAnimations := s.newAnimations.eraseIdx k }
    | _, _ => Except.ok s
  | SessionOp.removeAnimObject animObjectId, s =>
    (MathAnim.removeAnimObject animObjectId s.manager.mObjects).map
      (fun r => s.withObjects r.2)
  | SessionOp.removeAnimation animObjectId animationId, s =>
    (MathAnim.removeAnimation animObjectId animationId s.manager.mObjects).map
      (fun r => s.withObjects r.2)
  | SessionOp.setAnimObjectTime animObjectId frameStart duration, s =>
    Except.ok (s.withObjects
      (MathAnim.setAnimObjectTime animObjectId frameStart duration s.manager.mObjects).2)
  | SessionOp.setAnimationTime animObjectId animationId frameStart duration, s =>
    Except.ok (s.withObjects
      (MathAnim.setAnimationTime animObjectId animationId frameStart duration
        s.manager.mObjects).2)
  | SessionOp.setAnimObjectTrack animObjectId track, s =>
    Except.ok (s.withObjects (MathAnim.setAnimObjectTrack animObjectId track s.manager.mObjects))

/-- The call does not run a counter over the top of the `int` range. -/
def SessionOp.NoOverflow : SessionOp T L → Session T L → Prop
  | SessionOp.createObject _ _ _ _, s => s.manager.animObjectUidCounter < 2 ^ 31 - 1
  | SessionOp.createAnimation _ _ _ _, s => s.manager.animationUidCounter < 2 ^ 31 - 1
  | _, _ => True

instance (op : SessionOp T L) (s : Session T L) : Decidable (op.NoOverflow s) := by
  cases op <;> unfold SessionOp.NoOverflow <;> infer_instance

/-- The calls that allocate an id. -/
def SessionOp.isCreate : SessionOp T L → Bool
  | SessionOp.createObject _ _ _ _ => true
  | SessionOp.createAnimation _ _ _ _ => true
  | _ => false

/-- States a client reaches from program start without counter overflow. -/
inductive SessionReachable : Session T L → Prop where
  | initial : SessionReachable Session.initial
  | step {s s' : Session T L} (op : SessionOp T L) :
      SessionReachable s → op.NoOverflow s → op.apply s = Except.ok s' → SessionReachable s'

/-- A sequence of client calls, run while no call faults or overflows a
counter. -/
def runOps : List (SessionOp T L) → Session T L → Option (Session T L)
  | [], s => some s
  | op :: rest, s =>
    if op.NoOverflow s then
      match op.apply s with
      | Except.ok s' => runOps rest s'
      | Except.error _ => none
    else none

/-- The ids of the objects of a list. -/
def objectIds (l : List (AnimObject T L)) : List Int :=
  l.map AnimObject.id

/-- The ids of the animations of all objects of a list. -/
def animationIds (l : List (AnimObject T L)) : List Int :=
  (allAnimations l).map AnimationEx.id

/-- Id bookkeeping of one registry call: no object id and no animation id
occurs more often afterwards than before, `extra` counting the animation ids
the call brought in. -/
def IdsWithin (extra : List Int) (l l' : List (AnimObject T L)) : Prop :=
  (∀ x, (objectIds l').count x ≤ (objectIds l).count x) ∧
    ∀ x, (animationIds l').count x ≤ extra.count x + (animationIds l).count x

/-- The allocator invariant of a session: the counters are past every id
handed out, no id was handed out twice, and every id in the registry or in
the pool of not yet added values was handed out, each at most as often. -/
def SessionInv (s : Session T L) : Prop :=
  0 ≤ s.manager.animObjectUidCounter ∧ 0 ≤ s.manager.animationUidCounter ∧
    s.issuedObjectIds.Nodup ∧ s.issuedAnimationIds.Nodup ∧
    (∀ i ∈ s.issuedObjectIds, i < s.manager.animObjectUidCounter) ∧
    (∀ i ∈ s.issuedAnimationIds, i < s.manager.animationUidCounter) ∧
    (∀ x, (objectIds (s.manager.mObjects ++ s.newObjects)).count x
      ≤ s.issuedObjectIds.count x) ∧
    (∀ x, (animationIds (s.manager.mObjects ++ s.newObjects)
        ++ s.newAnimations.map AnimationEx.id).count x ≤ s.issuedAnimationIds.count x) ∧
    ∀ o ∈ s.newObjects, o.animations = []

end Sessions

/-! ## Calls with consistent back references -/

section Consistency

variable {T L : Type}

/-- The arguments of a call agree with the back-reference rule: an inserted
object owns the animations it brings, and an animation handed to either
`addAnimationTo` overload names the object that receives it. The other
operations carry no animation. -/
def Op.Consistent : Op T L → List (AnimObject T L) → Prop
  | Op.addAnimObject object, _ => ∀ a ∈ object.animations, a.objectId = object.id
  | Op.addAnimationToRef animation index, s => ∀ o, s[index]? = some o → animation.objectId = o.id
  | Op.addAnimationTo animation animObjectId, _ => animation.objectId = animObjectId
  | _, _ => True

/-- Registry states reachable from the empty registry through calls with
consistent arguments. -/
inductive ConsistentReachable : List (AnimObject T L) → Prop where
  | empty : ConsistentReachable []
  | step {s s' : List (AnimObject T L)} (op : Op T L) :
      ConsistentReachable s → op.Consistent s → op.apply s = Except.ok s' →
      ConsistentReachable s'

end Consistency

/-! ## Positions in the container and the persistent part of the registry -/

section Corruption

variable {T L : Type}

/-- Offset, in the container written for `mObjects`, of the magic number that
trails record `k`: the container of the first `k + 1` objects ends with it. -/
def trailerOffset (codecs : Codecs T L) (mObjects : List (AnimObject T L)) (k : Nat) : Nat :=
  (serialize codecs (mObjects.take (k + 1))).length - 4

/-- The registry with the transient flag `isAnimating` of every object reset:
what is left are the persistent fields. -/
def persistentFields (mObjects : List (AnimObject T L)) : List (AnimObject T L) :=
  mObjects.map fun o => { o with isAnimating := false }

end Corruption

/-! ## What a dispatched animation call does -/

section Effects

/-- What one call `animIter->render(vg, t)` does: draw the write-in effect on
the parent's text object with the value `t`, or log the kind as unknown. -/
inductive AnimationEffect where
  | renderWriteInAnimation (t : F32)
  | logUnknown (type : AnimTypeEx)
  deriving DecidableEq, Repr

/-- The method `AnimationEx::render`: the switch over the kind. Only
`WriteInText` has a case; the `default` branch calls `g_logger_info` and
draws nothing. The parent lookups of the `WriteInText` case repeat the one
that `AnimationManagerEx::render` has made for the same animation. -/
def AnimationEx.render (a : AnimationEx) (t : F32) : AnimationEffect :=
  match a.type with
  | AnimTypeEx.WriteInText => AnimationEffect.renderWriteInAnimation t
  | _ => AnimationEffect.logUnknown a.type

/-- The same call for the animation one position further down the vector of
its object: used to compare the calls before and after an erase. -/
def Dispatch.bump : Dispatch → Dispatch
  | Dispatch.animation objectIndex animIndex t => Dispatch.animation objectIndex (animIndex + 1) t
  | Dispatch.object objectIndex => Dispatch.object objectIndex

end Effects

/-! ## Sample values used by the concrete checks -/

/-- An object without payload (kind `None`), with the given id, window and animations. -/
def sampleObject (id frameStart duration : Int) (animations : List AnimationEx) :
    AnimObject Unit Unit :=
  { objectType := AnimObjectType.None, position := { x := 0, y := 0 }, id := id,
    frameStart := frameStart, duration := duration, timelineTrack := 0,
    isAnimating := false, as := ObjectData.uninit, animations := animations }

/-- An animation of kind `WriteInText`. -/
def sampleAnimation (id objectId frameStart duration : Int) : AnimationEx :=
  { type := AnimTypeEx.WriteInText, objectId := objectId, frameStart := frameStart,
    duration := duration, id := id }

/-- Codecs for payload structs without fields: nothing is written or read. -/
def unitCodecs : Codecs Unit Unit :=
  { textObject := { serialize := fun _ => [], deserialize := fun m => Except.ok ((), m) },
    laTexObject := { serialize := fun _ => [], deserialize := fun m => Except.ok ((), m) } }

/-- An object of kind `TextObject`. -/
def sampleTextObject (id frameStart duration : Int) (animations : List AnimationEx) :
    AnimObject Unit Unit :=
  { objectType := AnimObjectType.TextObject, position := { x := 1065353216, y := 0 }, id := id,
    frameStart := frameStart, duration := duration, timelineTrack := 2,
    isAnimating := false, as := ObjectData.textObject (), animations := animations }

/-- An object of kind `LaTexObject`. -/
def sampleLaTexObject (id frameStart duration : Int) (animations : List AnimationEx) :
    AnimObject Unit Unit :=
  { objectType := AnimObjectType.LaTexObject, position := { x := 0, y := 1065353216 }, id := id,
    frameStart := frameStart, duration := duration, timelineTrack := 1,
    isAnimating := false, as := ObjectData.laTexObject (), animations := animations }

/-- An object whose kind is the enumerator `Length`. -/
def sampleLengthObject : AnimObject Unit Unit :=
  { objectType := AnimObjectType.Length, position := { x := 0, y := 0 }, id := 0,
    frameStart := 0, duration := 0, timelineTrack := 0,
    isAnimating := false, as := ObjectData.uninit, animations := [] }

/-- Defaults for payload structs without fields. -/
def unitDefaults : ObjectDefaults Unit Unit :=
  { textObject := (), laTexObject := (), timelineTrack := 0 }

/-- A client run: create and add an object, remove it, create and add another
one, then create an animation and attach it to the second object. -/
def sampleOps : List (SessionOp Unit Unit) :=
  [SessionOp.createObject unitDefaults AnimObjectType.None 0 10, SessionOp.addAnimObject 0,
    SessionOp.removeAnimObject 0,
    SessionOp.createObject unitDefaults AnimObjectType.None 3 10, SessionOp.addAnimObject 0,
    SessionOp.createAnimation AnimTypeEx.WriteInText 0 5 1, SessionOp.addAnimationTo 0 1]

/-- The state in which `sampleOps` ends. -/
def sampleSession : Session Unit Unit :=
  { manager :=
      { mObjects := [sampleObject 1 3 10 [sampleAnimation 0 1 0 5]],
        animObjectUidCounter := 2, animationUidCounter := 1 },
    newObjects := [], newAnimations := [], issuedObjectIds := [1, 0],
    issuedAnimationIds := [0] }

/-! # Theorems -/

section RegistryTheorems

variable {T L : Type}

theorem mem_addAnimObject (x y : AnimObject T L) (l : List (AnimObject T L)) :
    y ∈ addAnimObject x l ↔ y = x ∨ y ∈ l := by
  induction l with
  | nil => simp [addAnimObject]
  | cons z rest ih =>
    unfold addAnimObject
    split
    · simp
    · simp only [List.mem_cons, ih]; tauto

theorem mem_insertAnimation (x y : AnimationEx) (l : List AnimationEx) :
    y ∈ insertAnimation x l ↔ y = x ∨ y ∈ l := by
  induction l with
  | nil => simp [insertAnimation]
  | cons z rest ih =>
    unfold insertAnimation
    split
    · simp
    · simp only [List.mem_cons, ih]; tauto

theorem addAnimObject_sorted (x : AnimObject T L) (l : List (AnimObject T L))
    (h : SortedDesc AnimObject.frameStart l) :
    SortedDesc AnimObject.frameStart (addAnimObject x l) := by
  induction l with
  | nil => simp [addAnimObject, SortedDesc]
  | cons z rest ih =>
    unfold SortedDesc at h ih ⊢
    rw [List.pairwise_cons] at h
    unfold addAnimObject
    split
    · rename_i hgt
      refine List.pairwise_cons.2 ⟨?_, List.pairwise_cons.2 h⟩
      intro y hy
      rcases List.mem_cons.1 hy with rfl | hy
      · omega
      · have := h.1 y hy; omega
    · rename_i hgt
      refine List.pairwise_cons.2 ⟨?_, ih h.2⟩
      intro y hy
      rcases (mem_addAnimObject x y rest).1 hy with rfl | hy
      · omega
      · exact h.1 y hy

theorem insertAnimation_sorted (x : AnimationEx) (l : List AnimationEx)
    (h : SortedDesc AnimationEx.frameStart l) :
    SortedDesc AnimationEx.frameStart (insertAnimation x l) := by
  induction l with
  | nil => simp [insertAnimation, SortedDesc]
  | cons z rest ih =>
    unfold SortedDesc at h ih ⊢
    rw [List.pairwise_cons] at h
    unfold insertAnimation
    split
    · rename_i hgt
      refine List.pairwise_cons.2 ⟨?_, List.pairwise_cons.2 h⟩
      intro y hy
      rcases List.mem_cons.1 hy with rfl | hy
      · omega
      · have := h.1 y hy; omega
    · rename_i hgt
      refine List.pairwise_cons.2 ⟨?_, ih h.2⟩
      intro y hy
      rcases (mem_insertAnimation x y rest).1 hy with rfl | hy
      · omega
      · exact h.1 y hy

theorem sortedDesc_eraseIdx {α : Type} (key : α → Int) (l : List α) (i : Nat)
    (h : SortedDesc key l) : SortedDesc key (l.eraseIdx i) :=
  List.Pairwise.sublist (List.eraseIdx_sublist l i) h

theorem findObject_some (animObjectId : Int) (l : List (AnimObject T L)) (i : Nat)
    (o : AnimObject T L) (h : findObject animObjectId l = some (i, o)) :
    l[i]? = some o ∧ o.id = animObjectId := by
  induction l generalizing i with
  | nil => simp [findObject] at h
  | cons z rest ih =>
    unfold findObject at h
    split at h
    · rename_i hid
      simp only [Option.some.injEq, Prod.mk.injEq] at h
      obtain ⟨rfl, rfl⟩ := h
      exact ⟨by simp, hid⟩
    · cases hr : findObject animObjectId rest with
      | none => simp [hr] at h
      | some r =>
        obtain ⟨k, o'⟩ := r
        simp only [hr, Option.map_some', Option.some.injEq, Prod.mk.injEq] at h
        obtain ⟨rfl, rfl⟩ := h
        have := ih k hr
        simpa using this

theorem findAnimation_some (animationId : Int) (l : List AnimationEx) (i : Nat)
    (a : AnimationEx) (h : findAnimation animationId l = some (i, a)) :
    l[i]? = some a ∧ a.id = animationId := by
  induction l generalizing i with
  | nil => simp [findAnimation] at h
  | cons z rest ih =>
    unfold findAnimation at h
    split at h
    · rename_i hid
      simp only [Option.some.injEq, Prod.mk.injEq] at h
      obtain ⟨rfl, rfl⟩ := h
      exact ⟨by simp, hid⟩
    · cases hr : findAnimation animationId rest with
      | none => simp [hr] at h
      | some r =>
        obtain ⟨k, o'⟩ := r
        simp only [hr, Option.map_some', Option.some.injEq, Prod.mk.injEq] at h
        obtain ⟨rfl, rfl⟩ := h
        have := ih k hr
        simpa using this


theorem sortedDesc_congr {α : Type} (key : α → Int) (l l' : List α)
    (h : l'.map key = l.map key) (hs : SortedDesc key l) : SortedDesc key l' := by
  unfold SortedDesc at *
  have h1 : (l.map key).Pairwise (fun a b => b ≤ a) := List.pairwise_map.2 hs
  rw [← h] at h1
  exact List.pairwise_map.1 h1

theorem map_set_of_key_eq {α : Type} (key : α → Int) (l : List α) (i : Nat) (o x : α)
    (h : l[i]? = some o) (hk : key x = key o) : (l.set i x).map key = l.map key := by
  induction l generalizing i with
  | nil => simp
  | cons z rest ih =>
    cases i with
    | zero =>
      simp only [List.getElem?_cons_zero, Option.some.injEq] at h
      subst h
      simp [hk]
    | succ k =>
      simp only [List.getElem?_cons_succ] at h
      simp [ih k h]

theorem addAnimationToId_map (animation : AnimationEx) (animObjectId : Int)
    (l : List (AnimObject T L)) :
    (addAnimationToId animation animObjectId l).map AnimObject.frameStart
      = l.map AnimObject.frameStart := by
  induction l with
  | nil => rfl
  | cons z rest ih =>
    unfold addAnimationToId
    split
    · simp [ih]
    · simp

theorem addAnimationToId_anims (animation : AnimationEx) (animObjectId : Int)
    (l : List (AnimObject T L)) (h : AnimsSorted l) :
    AnimsSorted (addAnimationToId animation animObjectId l) := by
  induction l with
  | nil => exact h
  | cons z rest ih =>
    have hz := h z (List.mem_cons_self _ _)
    have hrest : AnimsSorted rest := fun o ho => h o (List.mem_cons_of_mem _ ho)
    unfold addAnimationToId
    intro o ho
    split at ho
    · rcases List.mem_cons.1 ho with rfl | ho
      · exact hz
      · exact ih hrest o ho
    · rcases List.mem_cons.1 ho with rfl | ho
      · exact insertAnimation_sorted _ _ hz
      · exact hrest o ho

theorem removeAnimObject_sublist (animObjectId : Int) (l l' : List (AnimObject T L)) (b : Bool)
    (h : removeAnimObject animObjectId l = Except.ok (b, l')) : l'.Sublist l := by
  induction l generalizing l' b with
  | nil =>
    simp only [removeAnimObject, Except.ok.injEq, Prod.mk.injEq] at h
    rw [← h.2]
  | cons z rest ih =>
    unfold removeAnimObject at h
    split at h
    · split at h
      · simp only [Except.ok.injEq, Prod.mk.injEq] at h
        rw [← h.2]; exact List.sublist_cons_self _ _
      · cases h
    · split at h
      · rename_i found rest' hr
        simp only [Except.ok.injEq, Prod.mk.injEq] at h
        rw [← h.2]
        exact (ih rest' found hr).cons₂ z
      · cases h

theorem removeAnimationFrom_spec (animObjectId animationId : Int) (i : Nat)
    (l l' : List (AnimObject T L)) (b : Bool)
    (h : removeAnimationFrom animObjectId animationId i l = Except.ok (b, l')) :
    l'.map AnimObject.frameStart = l.map AnimObject.frameStart ∧
      (AnimsSorted l → AnimsSorted l') := by
  induction l generalizing l' b i with
  | nil =>
    simp only [removeAnimationFrom, Except.ok.injEq, Prod.mk.injEq] at h
    rw [← h.2]; exact ⟨rfl, id⟩
  | cons z rest ih =>
    have hcont : ∀ l' b, (match removeAnimationFrom animObjectId animationId (i + 1) rest with
        | Except.ok (found, rest') => Except.ok (found, z :: rest')
        | Except.error f => Except.error f) = Except.ok (b, l') →
        l'.map AnimObject.frameStart = (z :: rest).map AnimObject.frameStart ∧
          (AnimsSorted (z :: rest) → AnimsSorted l') := by
      intro l' b h
      split at h
      · rename_i found rest' hr
        simp only [Except.ok.injEq, Prod.mk.injEq] at h
        rw [← h.2]
        obtain ⟨h1, h2⟩ := ih (i + 1) rest' found hr
        refine ⟨by simp [h1], ?_⟩
        intro hs o ho
        rcases List.mem_cons.1 ho with rfl | ho
        · exact hs _ (List.mem_cons_self _ _)
        · exact h2 (fun o ho => hs o (List.mem_cons_of_mem _ ho)) o ho
      · cases h
    unfold removeAnimationFrom at h
    simp only at h
    split at h
    · split at h
      · split at h
        · cases h
        · split at h
          · simp only [Except.ok.injEq, Prod.mk.injEq] at h
            rw [← h.2]
            refine ⟨by simp, ?_⟩
            intro hs o ho
            rcases List.mem_cons.1 ho with rfl | ho
            · exact sortedDesc_eraseIdx _ _ _ (hs _ (List.mem_cons_self _ _))
            · exact hs o (List.mem_cons_of_mem _ ho)
          · cases h
      · exact hcont l' b h
    · exact hcont l' b h

theorem setAnimationTime_spec (animObjectId animationId frameStart duration : Int)
    (l : List (AnimObject T L)) :
    (setAnimationTime animObjectId animationId frameStart duration l).2.map AnimObject.frameStart
        = l.map AnimObject.frameStart ∧
      (AnimsSorted l →
        AnimsSorted (setAnimationTime animObjectId animationId frameStart duration l).2) := by
  induction l with
  | nil => exact ⟨rfl, id⟩
  | cons z rest ih =>
    have hcont :
        ((setAnimationTime animObjectId animationId frameStart duration rest).1,
          z :: (setAnimationTime animObjectId animationId frameStart duration rest).2).2.map
            AnimObject.frameStart = (z :: rest).map AnimObject.frameStart ∧
        (AnimsSorted (z :: rest) → AnimsSorted
          ((setAnimationTime animObjectId animationId frameStart duration rest).1,
          z :: (setAnimationTime animObjectId animationId frameStart duration rest).2).2) := by
      refine ⟨by simp [ih.1], ?_⟩
      intro hs o ho
      rcases List.mem_cons.1 ho with rfl | ho
      · exact hs _ (List.mem_cons_self _ _)
      · exact ih.2 (fun o ho => hs o (List.mem_cons_of_mem _ ho)) o ho
    unfold setAnimationTime
    simp only
    split
    · split
      · split
        · exact ⟨rfl, id⟩
        · refine ⟨by simp [addAnimationTo], ?_⟩
          intro hs o ho
          rcases List.mem_cons.1 ho with rfl | ho
          · exact insertAnimation_sorted _ _
              (sortedDesc_eraseIdx _ _ _ (hs _ (List.mem_cons_self _ _)))
          · exact hs o (List.mem_cons_of_mem _ ho)
      · exact hcont
    · exact hcont

theorem setAnimObjectTrack_spec (animObjectId track : Int) (l : List (AnimObject T L)) :
    (setAnimObjectTrack animObjectId track l).map AnimObject.frameStart
        = l.map AnimObject.frameStart ∧
      (AnimsSorted l → AnimsSorted (setAnimObjectTrack animObjectId track l)) := by
  induction l with
  | nil => exact ⟨rfl, id⟩
  | cons z rest ih =>
    unfold setAnimObjectTrack
    split
    · refine ⟨by simp, ?_⟩
      intro hs o ho
      rcases List.mem_cons.1 ho with rfl | ho
      · exact hs z (List.mem_cons_self _ _)
      · exact hs o (List.mem_cons_of_mem _ ho)
    · refine ⟨by simp [ih.1], ?_⟩
      intro hs o ho
      rcases List.mem_cons.1 ho with rfl | ho
      · exact hs _ (List.mem_cons_self _ _)
      · exact ih.2 (fun o ho => hs o (List.mem_cons_of_mem _ ho)) o ho

theorem setAnimObjectTime_sorted (animObjectId frameStart duration : Int)
    (l : List (AnimObject T L)) (h : RegistrySorted l) :
    RegistrySorted (setAnimObjectTime animObjectId frameStart duration l).2 := by
  unfold setAnimObjectTime
  split
  · exact h
  · rename_i objectIndex animObject hf
    split
    · exact h
    · obtain ⟨hget, _⟩ := findObject_some _ _ _ _ hf
      have hmem : animObject ∈ l := List.getElem?_mem hget
      refine ⟨addAnimObject_sorted _ _ (sortedDesc_eraseIdx _ _ _ h.1), ?_⟩
      intro o ho
      rcases (mem_addAnimObject _ _ _).1 ho with rfl | ho
      · exact h.2 animObject hmem
      · exact h.2 o (List.mem_of_mem_eraseIdx ho)

theorem apply_sorted (s s' : List (AnimObject T L)) (op : Op T L) (h : RegistrySorted s)
    (hop : op.Admissible) (hs : op.apply s = Except.ok s') : RegistrySorted s' := by
  cases op with
  | addAnimObject object =>
    simp only [Op.apply, Except.ok.injEq] at hs
    subst hs
    refine ⟨addAnimObject_sorted _ _ h.1, ?_⟩
    intro o ho
    rcases (mem_addAnimObject _ _ _).1 ho with rfl | ho
    · exact hop
    · exact h.2 o ho
  | addAnimationToRef animation index =>
    simp only [Op.apply] at hs
    split at hs
    · rename_i o hget
      simp only [Except.ok.injEq] at hs
      subst hs
      refine ⟨sortedDesc_congr _ _ _ (map_set_of_key_eq _ _ _ o _ hget rfl) h.1, ?_⟩
      intro y hy
      rcases List.mem_or_eq_of_mem_set hy with hy | rfl
      · exact h.2 y hy
      · exact insertAnimation_sorted _ _ (h.2 o (List.getElem?_mem hget))
    · simp only [Except.ok.injEq] at hs
      subst hs; exact h
  | addAnimationTo animation animObjectId =>
    simp only [Op.apply, Except.ok.injEq] at hs
    subst hs
    exact ⟨sortedDesc_congr _ _ _ (addAnimationToId_map _ _ _) h.1,
      addAnimationToId_anims _ _ _ h.2⟩
  | removeAnimObject animObjectId =>
    simp only [Op.apply] at hs
    cases hr : removeAnimObject animObjectId s with
    | error f => simp [hr, Except.map] at hs
    | ok r =>
      obtain ⟨b, l'⟩ := r
      simp only [hr, Except.map, Except.ok.injEq] at hs
      subst hs
      have hsub := removeAnimObject_sublist _ _ _ _ hr
      exact ⟨List.Pairwise.sublist hsub h.1, fun o ho => h.2 o (hsub.subset ho)⟩
  | removeAnimation animObjectId animationId =>
    simp only [Op.apply] at hs
    cases hr : removeAnimation animObjectId animationId s with
    | error f => simp [hr, Except.map] at hs
    | ok r =>
      obtain ⟨b, l'⟩ := r
      simp only [hr, Except.map, Except.ok.injEq] at hs
      subst hs
      obtain ⟨h1, h2⟩ := removeAnimationFrom_spec _ _ _ _ _ _ hr
      exact ⟨sortedDesc_congr _ _ _ h1 h.1, h2 h.2⟩
  | setAnimObjectTime animObjectId frameStart duration =>
    simp only [Op.apply, Except.ok.injEq] at hs
    subst hs
    exact setAnimObjectTime_sorted _ _ _ _ h
  | setAnimationTime animObjectId animationId frameStart duration =>
    simp only [Op.apply, Except.ok.injEq] at hs
    subst hs
    obtain ⟨h1, h2⟩ := setAnimationTime_spec animObjectId animationId frameStart duration s
    exact ⟨sortedDesc_congr _ _ _ h1 h.1, h2 h.2⟩
  | setAnimObjectTrack animObjectId track =>
    simp only [Op.apply, Except.ok.injEq] at hs
    subst hs
    obtain ⟨h1, h2⟩ := setAnimObjectTrack_spec animObjectId track s
    exact ⟨sortedDesc_congr _ _ _ h1 h.1, h2 h.2⟩


end RegistryTheorems

section RegistryClaims

/-- C1 (sort invariant). From a registry sorted at both levels (objects by
`frameStart`, each animation list by its relative `frameStart`, both
non-increasing), the state after any single call of `addAnimObject`,
`addAnimationTo` (either overload), `removeAnimObject`, `removeAnimation`,
`setAnimObjectTime`, `setAnimationTime` or `setAnimObjectTrack` is sorted at
both levels again, an inserted object bringing a sorted animation list; every
operation other than the two removals always yields a state; and every state
reachable from the empty registry is sorted at both levels. -/
theorem sort_invariant (T L : Type) :
    (∀ (s s' : List (AnimObject T L)) (op : Op T L), RegistrySorted s → op.Admissible →
        op.apply s = Except.ok s' → RegistrySorted s') ∧
    (∀ (s : List (AnimObject T L)) (op : Op T L), op.isRemoval = false →
        ∃ s', op.apply s = Except.ok s') ∧
    (∀ s : List (AnimObject T L), Reachable s → RegistrySorted s) := by
  refine ⟨fun s s' op h hop hs => apply_sorted s s' op h hop hs, ?_, ?_⟩
  · intro s op hop
    cases op with
    | addAnimationToRef animation index =>
      simp only [Op.apply]
      split <;> exact ⟨_, rfl⟩
    | removeAnimObject animObjectId => simp [Op.isRemoval] at hop
    | removeAnimation animObjectId animationId => simp [Op.isRemoval] at hop
    | _ => exact ⟨_, rfl⟩
  · intro s hs
    induction hs with
    | empty => exact ⟨List.Pairwise.nil, fun o ho => by cases ho⟩
    | step op _ hop happ ih => exact apply_sorted _ _ op ih hop happ

/-- C1, concrete check: retiming the object with id 2 of a sorted three-object
registry from start 3 to start 9 moves it to the front and keeps both levels
sorted. -/
theorem sort_invariant_witness :
    RegistrySorted
        [sampleObject 1 5 1 [sampleAnimation 0 1 4 1, sampleAnimation 1 1 2 1],
          sampleObject 2 3 1 [], sampleObject 3 3 1 []] ∧
      (Op.setAnimObjectTime 2 9 1).apply
        [sampleObject 1 5 1 [sampleAnimation 0 1 4 1, sampleAnimation 1 1 2 1],
          sampleObject 2 3 1 [], sampleObject 3 3 1 []]
        = Except.ok
          [sampleObject 2 9 1 [],
            sampleObject 1 5 1 [sampleAnimation 0 1 4 1, sampleAnimation 1 1 2 1],
            sampleObject 3 3 1 []] ∧
      RegistrySorted
        [sampleObject 2 9 1 [],
          sampleObject 1 5 1 [sampleAnimation 0 1 4 1, sampleAnimation 1 1 2 1],
          sampleObject 3 3 1 []] :=
  ⟨by decide, rfl,
    (sort_invariant Unit Unit).1
      [sampleObject 1 5 1 [sampleAnimation 0 1 4 1, sampleAnimation 1 1 2 1],
        sampleObject 2 3 1 [], sampleObject 3 3 1 []]
      _ (Op.setAnimObjectTime 2 9 1) (by decide) trivial rfl⟩

/-- C2 (insert position and stable ties). `addAnimObject x` splits the list
`l` at the first element whose `frameStart` is strictly less than
`x.frameStart` and puts `x` there (at the end when there is none): the
elements before `x` all start no earlier than `x`, the element right after
`x` starts strictly earlier, the length grows by one, the old elements keep
their contents and order; and when `l` is sorted non-increasing every element
after `x` starts strictly earlier, so all elements with an equal or larger
`frameStart` precede `x`. -/
theorem addAnimObject_position (T L : Type) (x : AnimObject T L) (l : List (AnimObject T L)) :
    addAnimObject x l
        = l.takeWhile (fun y => decide (x.frameStart ≤ y.frameStart)) ++
          x :: l.dropWhile (fun y => decide (x.frameStart ≤ y.frameStart)) ∧
      l = l.takeWhile (fun y => decide (x.frameStart ≤ y.frameStart)) ++
          l.dropWhile (fun y => decide (x.frameStart ≤ y.frameStart)) ∧
      (addAnimObject x l).length = l.length + 1 ∧
      (∀ y ∈ l.takeWhile (fun y => decide (x.frameStart ≤ y.frameStart)),
        x.frameStart ≤ y.frameStart) ∧
      (∀ y, (l.dropWhile (fun y => decide (x.frameStart ≤ y.frameStart))).head? = some y →
        y.frameStart < x.frameStart) ∧
      (SortedDesc AnimObject.frameStart l →
        ∀ y ∈ l.dropWhile (fun y => decide (x.frameStart ≤ y.frameStart)),
          y.frameStart < x.frameStart) := by
  have heq : addAnimObject x l
      = l.takeWhile (fun y => decide (x.frameStart ≤ y.frameStart)) ++
        x :: l.dropWhile (fun y => decide (x.frameStart ≤ y.frameStart)) := by
    induction l with
    | nil => rfl
    | cons z rest ih =>
      unfold addAnimObject
      by_cases hz : x.frameStart > z.frameStart
      · have hz' : ¬ x.frameStart ≤ z.frameStart := by omega
        simp [hz, List.takeWhile_cons, List.dropWhile_cons, hz']
      · have hz' : x.frameStart ≤ z.frameStart := by omega
        simp [hz, List.takeWhile_cons, List.dropWhile_cons, hz', ih]
  have hhead : ∀ y, (l.dropWhile (fun y => decide (x.frameStart ≤ y.frameStart))).head? = some y →
      y.frameStart < x.frameStart := by
    intro y hy
    have := List.head?_dropWhile_not (fun y : AnimObject T L => decide (x.frameStart ≤ y.frameStart)) l
    rw [hy] at this
    simp only [Option.all_some, Bool.not_eq_eq_eq_not, Bool.not_true, decide_eq_false_iff_not, not_le] at this
    exact this
  refine ⟨heq, (List.takeWhile_append_dropWhile _ l).symm, ?_, ?_, hhead, ?_⟩
  · rw [heq]
    have h2 := congrArg List.length
      (List.takeWhile_append_dropWhile (fun y : AnimObject T L => decide (x.frameStart ≤ y.frameStart)) l)
    simp only [List.length_append, List.length_cons] at h2 ⊢
    omega
  · intro y hy
    have := List.mem_takeWhile_imp hy
    simpa using this
  · intro hs y hy
    have hsuf : (l.dropWhile (fun y => decide (x.frameStart ≤ y.frameStart))).Sublist l :=
      List.dropWhile_sublist _
    have hs' := List.Pairwise.sublist hsuf hs
    cases hd : l.dropWhile (fun y => decide (x.frameStart ≤ y.frameStart)) with
    | nil => rw [hd] at hy; cases hy
    | cons z rest =>
      rw [hd] at hy hs'
      have hz := hhead z (by rw [hd]; rfl)
      rcases List.mem_cons.1 hy with rfl | hy
      · exact hz
      · have := (List.pairwise_cons.1 hs').1 y hy
        omega

/-- C2, concrete check: an object starting at frame 5 inserted into the sorted
list with starts 7, 5, 5, 2 lands after both existing objects that start at 5
and before the one that starts at 2. -/
theorem addAnimObject_position_witness :
    SortedDesc AnimObject.frameStart
        [sampleObject 1 7 0 [], sampleObject 2 5 0 [], sampleObject 3 5 0 [],
          sampleObject 4 2 0 []] ∧
      addAnimObject (sampleObject 9 5 0 [])
          [sampleObject 1 7 0 [], sampleObject 2 5 0 [], sampleObject 3 5 0 [],
            sampleObject 4 2 0 []]
        = [sampleObject 1 7 0 [], sampleObject 2 5 0 [], sampleObject 3 5 0 [],
            sampleObject 9 5 0 [], sampleObject 4 2 0 []] ∧
      ∀ y ∈ List.dropWhile (fun y => decide ((sampleObject 9 5 0 []).frameStart ≤ y.frameStart))
          [sampleObject 1 7 0 [], sampleObject 2 5 0 [], sampleObject 3 5 0 [],
            sampleObject 4 2 0 []],
        y.frameStart < (sampleObject 9 5 0 []).frameStart :=
  ⟨by decide, by decide,
    (addAnimObject_position Unit Unit (sampleObject 9 5 0 []) _).2.2.2.2.2 (by decide)⟩

/-- C10 as stated fails: the registry holds an object with id 0, whose one
animation carries `objectId` 1; `removeAnimObject(0)` stops at its
consistency assertion instead of returning true. -/
theorem removeAnimObject_counterexample :
    (∃ o ∈ [sampleObject 0 0 10 [sampleAnimation 0 1 0 5]], o.id = 0) ∧
      removeAnimObject 0 [sampleObject 0 0 10 [sampleAnimation 0 1 0 5]]
        = Except.error Fault.assertion :=
  ⟨⟨_, List.mem_cons_self _ _, rfl⟩, rfl⟩

/-- C10 (object removal), amended. When every animation of the first object
with the given id carries that id as `objectId` (the condition the assertion
in the loop checks), `removeAnimObject(id)` returns, and returns true exactly
when some object has that id. On true the new list is the old one without the
first object with that id, all others unchanged and in order; on false the
list is unchanged. With unique ids no object with that id remains. -/
theorem removeAnimObject_spec (T L : Type) (mObjects : List (AnimObject T L)) (animObjectId : Int)
    (hback : ∀ o, getMutableObject animObjectId mObjects = some o →
      ∀ a ∈ o.animations, a.objectId = animObjectId) :
    ∃ found rest, removeAnimObject animObjectId mObjects = Except.ok (found, rest) ∧
      (found = true ↔ ∃ o ∈ mObjects, o.id = animObjectId) ∧
      (found = true → ∃ pre o post, mObjects = pre ++ o :: post ∧
        (∀ y ∈ pre, y.id ≠ animObjectId) ∧ o.id = animObjectId ∧ rest = pre ++ post) ∧
      (found = false → rest = mObjects) ∧
      ((mObjects.map AnimObject.id).Nodup → found = true → ∀ o ∈ rest, o.id ≠ animObjectId) := by
  induction mObjects with
  | nil =>
    refine ⟨false, [], rfl, by simp, by simp, fun _ => rfl, by simp⟩
  | cons z rest ih =>
    by_cases hz : z.id = animObjectId
    · have hall : (z.animations.all fun a => decide (a.objectId = animObjectId)) = true := by
        rw [List.all_eq_true]
        intro a ha
        simpa using hback z (by simp [getMutableObject, hz]) a ha
      refine ⟨true, rest, by simp [removeAnimObject, hz, hall], ?_, ?_, by simp, ?_⟩
      · simp only [true_iff]
        exact ⟨z, List.mem_cons_self _ _, hz⟩
      · intro _
        exact ⟨[], z, rest, rfl, by simp, hz, rfl⟩
      · intro hnd _ o ho hoid
        rw [List.map_cons, List.nodup_cons] at hnd
        apply hnd.1
        rw [hz, ← hoid]
        exact List.mem_map_of_mem _ ho
    · obtain ⟨found, rest', hr, hiff, htrue, hfalse, hnd⟩ :=
        ih (fun o ho => hback o (by simpa [getMutableObject, hz] using ho))
      refine ⟨found, z :: rest', by simp [removeAnimObject, hz, hr], ?_, ?_, ?_, ?_⟩
      · rw [hiff]
        constructor
        · rintro ⟨o, ho, hoid⟩
          exact ⟨o, List.mem_cons_of_mem _ ho, hoid⟩
        · rintro ⟨o, ho, hoid⟩
          rcases List.mem_cons.1 ho with rfl | ho
          · exact absurd hoid hz
          · exact ⟨o, ho, hoid⟩
      · intro hf
        obtain ⟨pre, o, post, h1, h2, h3, h4⟩ := htrue hf
        refine ⟨z :: pre, o, post, by simp [h1], ?_, h3, by simp [h4]⟩
        intro y hy
        rcases List.mem_cons.1 hy with rfl | hy
        · exact hz
        · exact h2 y hy
      · intro hf
        rw [hfalse hf]
      · intro hnodup hf o ho
        rw [List.map_cons, List.nodup_cons] at hnodup
        rcases List.mem_cons.1 ho with rfl | ho
        · exact hz
        · exact hnd hnodup.2 hf o ho

/-- C10, concrete check: removing id 2 from a registry with ids 1, 2, 3 whose
animations point back to their owners returns true and leaves ids 1 and 3. -/
theorem removeAnimObject_spec_witness :
    ∃ found rest,
      removeAnimObject 2
          [sampleObject 1 9 1 [], sampleObject 2 5 1 [sampleAnimation 0 2 0 1],
            sampleObject 3 1 1 []] = Except.ok (found, rest) ∧
      (found = true ↔ ∃ o ∈ [sampleObject 1 9 1 [], sampleObject 2 5 1 [sampleAnimation 0 2 0 1],
            sampleObject 3 1 1 []], o.id = 2) ∧
      (found = true → ∃ pre o post,
        [sampleObject 1 9 1 [], sampleObject 2 5 1 [sampleAnimation 0 2 0 1],
            sampleObject 3 1 1 []] = pre ++ o :: post ∧
        (∀ y ∈ pre, y.id ≠ 2) ∧ o.id = 2 ∧ rest = pre ++ post) ∧
      (found = false → rest = [sampleObject 1 9 1 [], sampleObject 2 5 1 [sampleAnimation 0 2 0 1],
            sampleObject 3 1 1 []]) ∧
      ((List.map AnimObject.id [sampleObject 1 9 1 [], sampleObject 2 5 1 [sampleAnimation 0 2 0 1],
            sampleObject 3 1 1 []]).Nodup → found = true → ∀ o ∈ rest, o.id ≠ 2) :=
  removeAnimObject_spec Unit Unit
    [sampleObject 1 9 1 [], sampleObject 2 5 1 [sampleAnimation 0 2 0 1], sampleObject 3 1 1 []] 2
    (by
      intro o ho a ha
      simp only [getMutableObject, sampleObject] at ho
      simp only [show ¬ ((1 : Int) = 2) by decide, if_false, if_true, Option.some.injEq] at ho
      subst ho
      simp only [List.mem_singleton] at ha
      subst ha
      rfl)

end RegistryClaims

section PlaybackLemmas

variable {T L : Type}

theorem roundToF32_of_fits (n : Int) (h : fitsF32 n) : roundToF32 n = n := by
  unfold fitsF32 at h
  unfold roundToF32
  exact if_pos h

theorem f32ToInt32_of_fits (n : Int) (h : fitsF32 n) : f32ToInt32 n = n := by
  unfold fitsF32 at h
  have h1 : -2 ^ 31 ≤ n ∧ n < 2 ^ 31 := by omega
  unfold f32ToInt32
  exact if_pos h1

theorem wrapInt32_of_isInt32 (n : Int) (h : isInt32 n) : wrapInt32 n = n := by
  unfold isInt32 at h
  unfold wrapInt32
  omega

theorem lookupStart_objectKeys (id : Int) (l : List (AnimObject T L)) :
    lookupStart id (objectKeys l) = (getMutableObject id l).map AnimObject.frameStart := by
  induction l with
  | nil => rfl
  | cons z rest ih =>
    simp only [objectKeys, List.map_cons, lookupStart, getMutableObject]
    split
    · rfl
    · exact ih

theorem renderAnimations_spec (keys : List (Int × Int)) (frame : Int)
    (before after : List (AnimObject T L)) (i : Nat) (anims : List AnimationEx) :
    ∀ (j : Nat) (cur : AnimObject T L), objectKeys (before ++ cur :: after) = keys →
      (∀ a ∈ anims, (lookupStart a.objectId keys).isSome = true) →
      renderAnimations frame before after i j cur anims
        = ({ cur with isAnimating :=
              cur.isAnimating || anims.any fun a => (animResult keys frame a).isSome },
            animDispatches keys frame i j anims, none) := by
  induction anims with
  | nil => intro j cur _ _; simp [renderAnimations, animDispatches]
  | cons a rest ih =>
    intro j cur hkeys hres
    have ha := hres a (List.mem_cons_self _ _)
    have hrest : ∀ b ∈ rest, (lookupStart b.objectId keys).isSome = true :=
      fun b hb => hres b (List.mem_cons_of_mem _ hb)
    have hlk := lookupStart_objectKeys a.objectId (before ++ cur :: after)
    rw [hkeys] at hlk
    unfold renderAnimations
    cases hp : getMutableObject a.objectId (before ++ cur :: after) with
    | none => rw [hp] at hlk; rw [hlk] at ha; simp at ha
    | some parent =>
      rw [hp] at hlk
      simp only [Option.map_some'] at hlk
      have hres' : animResult keys frame a = animationStep frame parent.frameStart a := by
        simp [animResult, hlk]
      simp only
      cases hstep : animationStep frame parent.frameStart a with
      | some t =>
        have hk' : objectKeys (before ++ { cur with isAnimating := true } :: after) = keys := by
          rw [← hkeys]; simp [objectKeys]
        simp only [ih (j + 1) { cur with isAnimating := true } hk' hrest, animDispatches,
          hres', hstep, List.any_cons, Option.isSome_some, Bool.true_or, Bool.or_true]
      | none =>
        simp only [ih (j + 1) cur hkeys hrest, animDispatches, hres', hstep, List.any_cons,
          Option.isSome_none, Bool.false_or]

theorem renderObjects_spec (keys : List (Int × Int)) (frame : Int)
    (todo : List (AnimObject T L)) :
    ∀ before : List (AnimObject T L), objectKeys (before ++ todo) = keys →
      (∀ o ∈ todo, ∀ a ∈ o.animations, (lookupStart a.objectId keys).isSome = true) →
      (renderObjects frame before todo).dispatches
          = objectDispatches keys frame before.length todo ∧
        (renderObjects frame before todo).fault = none ∧
        (renderObjects frame before todo).mObjects
          = before ++ todo.map (renderedObject keys frame) := by
  induction todo with
  | nil => intro before _ _; simp [renderObjects, objectDispatches]
  | cons o after ih =>
    intro before hkeys hres
    have hk0 : objectKeys (before ++ { o with isAnimating := false } :: after) = keys := by
      rw [← hkeys]; simp [objectKeys]
    have hinner := renderAnimations_spec keys frame before after before.length o.animations 0
      { o with isAnimating := false } hk0 (hres o (List.mem_cons_self _ _))
    have hk1 : objectKeys ((before ++ [renderedObject keys frame o]) ++ after) = keys := by
      rw [← hkeys]; simp [objectKeys, renderedObject]
    obtain ⟨h1, h2, h3⟩ := ih (before ++ [renderedObject keys frame o]) hk1
      (fun p hp => hres p (List.mem_cons_of_mem _ hp))
    have hinner' : renderAnimations frame before after before.length 0
        { o with isAnimating := false } o.animations
        = (renderedObject keys frame o, animDispatches keys frame before.length 0 o.animations,
            none) := by
      rw [hinner]; rfl
    unfold renderObjects
    simp only [hinner']
    refine ⟨?_, ?_, ?_⟩
    · simp only [objectDispatches]
      rw [h1]
      simp [List.length_append, renderedObject]
    · exact h2
    · rw [h3]; simp

theorem renderAnimations_sound (keys : List (Int × Int)) (frame : Int)
    (before after : List (AnimObject T L)) (i : Nat) (anims : List AnimationEx) :
    ∀ (j : Nat) (cur : AnimObject T L), objectKeys (before ++ cur :: after) = keys →
      (∀ d ∈ (renderAnimations frame before after i j cur anims).2.1,
          d ∈ animDispatches keys frame i j anims) ∧
        ((renderAnimations frame before after i j cur anims).2.2 = none →
          ∀ a ∈ anims, (lookupStart a.objectId keys).isSome = true) := by
  induction anims with
  | nil => intro j cur _; simp [renderAnimations]
  | cons a rest ih =>
    intro j cur hkeys
    have hlk := lookupStart_objectKeys a.objectId (before ++ cur :: after)
    rw [hkeys] at hlk
    unfold renderAnimations
    cases hp : getMutableObject a.objectId (before ++ cur :: after) with
    | none => simp
    | some parent =>
      rw [hp] at hlk
      simp only [Option.map_some'] at hlk
      have hres' : animResult keys frame a = animationStep frame parent.frameStart a := by
        simp [animResult, hlk]
      simp only
      cases hstep : animationStep frame parent.frameStart a with
      | some t =>
        have hk' : objectKeys (before ++ { cur with isAnimating := true } :: after) = keys := by
          rw [← hkeys]; simp [objectKeys]
        obtain ⟨h1, h2⟩ := ih (j + 1) { cur with isAnimating := true } hk'
        simp only [animDispatches, hres', hstep]
        refine ⟨?_, ?_⟩
        · intro d hd
          rcases List.mem_cons.1 hd with rfl | hd
          · exact List.mem_cons_self _ _
          · exact List.mem_cons_of_mem _ (h1 d hd)
        · intro hf b hb
          rcases List.mem_cons.1 hb with rfl | hb
          · simp [hlk]
          · exact h2 hf b hb
      | none =>
        obtain ⟨h1, h2⟩ := ih (j + 1) cur hkeys
        simp only [animDispatches, hres', hstep]
        refine ⟨h1, ?_⟩
        intro hf b hb
        rcases List.mem_cons.1 hb with rfl | hb
        · simp [hlk]
        · exact h2 hf b hb

theorem renderObjects_sound (keys : List (Int × Int)) (frame : Int)
    (todo : List (AnimObject T L)) :
    ∀ before : List (AnimObject T L), objectKeys (before ++ todo) = keys →
      ∀ d ∈ (renderObjects frame before todo).dispatches,
        d ∈ objectDispatches keys frame before.length todo := by
  induction todo with
  | nil => intro before _; simp [renderObjects]
  | cons o after ih =>
    intro before hkeys
    have hk0 : objectKeys (before ++ { o with isAnimating := false } :: after) = keys := by
      rw [← hkeys]; simp [objectKeys]
    obtain ⟨hs1, hs2⟩ := renderAnimations_sound keys frame before after before.length
      o.animations 0 { o with isAnimating := false } hk0
    unfold renderObjects
    simp only
    cases hf : (renderAnimations frame before after before.length 0
        { o with isAnimating := false } o.animations).2.2 with
    | some f =>
      simp only
      intro d hd
      simp only [objectDispatches, List.append_assoc, List.mem_append]
      exact Or.inl (hs1 d hd)
    | none =>
      have hinner := renderAnimations_spec keys frame before after before.length o.animations 0
        { o with isAnimating := false } hk0 (hs2 hf)
      have hinner' : renderAnimations frame before after before.length 0
          { o with isAnimating := false } o.animations
          = (renderedObject keys frame o, animDispatches keys frame before.length 0 o.animations,
              none) := by
        rw [hinner]; rfl
      have hk1 : objectKeys ((before ++ [renderedObject keys frame o]) ++ after) = keys := by
        rw [← hkeys]; simp [objectKeys, renderedObject]
      have ih' := ih (before ++ [renderedObject keys frame o]) hk1
      simp only [hinner']
      intro d hd
      simp only [objectDispatches, List.append_assoc, List.mem_append] at hd ⊢
      rcases hd with hd | hd | hd
      · exact Or.inl hd
      · refine Or.inr (Or.inl ?_)
        simpa [renderedObject] using hd
      · refine Or.inr (Or.inr ?_)
        have := ih' d hd
        simpa [List.length_append] using this

theorem mem_animDispatches (keys : List (Int × Int)) (frame : Int) (i i' j' : Nat) (t : F32)
    (anims : List AnimationEx) :
    ∀ j : Nat, Dispatch.animation i' j' t ∈ animDispatches keys frame i j anims ↔
      i' = i ∧ j ≤ j' ∧ ∃ a, anims[j' - j]? = some a ∧ animResult keys frame a = some t := by
  induction anims with
  | nil => intro j; simp [animDispatches]
  | cons a rest ih =>
    intro j
    have hrec : (i' = i ∧ j + 1 ≤ j' ∧ ∃ b, rest[j' - (j + 1)]? = some b ∧
        animResult keys frame b = some t) ↔
        (i' = i ∧ j < j' ∧ ∃ b, (a :: rest)[j' - j]? = some b ∧
          animResult keys frame b = some t) := by
      constructor
      · rintro ⟨h1, h2, b, h3, h4⟩
        refine ⟨h1, h2, b, ?_, h4⟩
        have : j' - j = (j' - (j + 1)) + 1 := by omega
        rw [this]; simpa using h3
      · rintro ⟨h1, h2, b, h3, h4⟩
        refine ⟨h1, h2, b, ?_, h4⟩
        have : j' - j = (j' - (j + 1)) + 1 := by omega
        rw [this] at h3; simpa using h3
    unfold animDispatches
    cases hr : animResult keys frame a with
    | some t0 =>
      simp only [List.mem_cons, Dispatch.animation.injEq, ih (j + 1), hrec]
      constructor
      · rintro (⟨h1, h2, h3⟩ | ⟨h1, h2, h3⟩)
        · subst h1 h2 h3
          exact ⟨rfl, Nat.le_refl _, a, by simp, hr⟩
        · exact ⟨h1, Nat.le_of_lt h2, h3⟩
      · rintro ⟨h1, h2, b, h3, h4⟩
        by_cases hj : j' = j
        · subst hj
          simp only [Nat.sub_self, List.getElem?_cons_zero, Option.some.injEq] at h3
          subst h3
          rw [hr] at h4
          simp only [Option.some.injEq] at h4
          exact Or.inl ⟨h1, rfl, h4.symm⟩
        · exact Or.inr ⟨h1, by omega, b, h3, h4⟩
    | none =>
      simp only [ih (j + 1), hrec]
      constructor
      · rintro ⟨h1, h2, h3⟩
        exact ⟨h1, Nat.le_of_lt h2, h3⟩
      · rintro ⟨h1, h2, b, h3, h4⟩
        by_cases hj : j' = j
        · subst hj
          simp only [Nat.sub_self, List.getElem?_cons_zero, Option.some.injEq] at h3
          subst h3
          rw [hr] at h4
          cases h4
        · exact ⟨h1, by omega, b, h3, h4⟩

theorem object_not_mem_animDispatches (keys : List (Int × Int)) (frame : Int) (i k : Nat)
    (anims : List AnimationEx) :
    ∀ j : Nat, Dispatch.object k ∉ animDispatches keys frame i j anims := by
  induction anims with
  | nil => intro j; simp [animDispatches]
  | cons a rest ih =>
    intro j
    unfold animDispatches
    cases animResult keys frame a with
    | some t0 => simp [ih (j + 1)]
    | none => exact ih (j + 1)

theorem mem_objectDispatches_animation (keys : List (Int × Int)) (frame : Int) (i' j' : Nat)
    (t : F32) (objs : List (AnimObject T L)) :
    ∀ i : Nat, Dispatch.animation i' j' t ∈ objectDispatches keys frame i objs ↔
      i ≤ i' ∧ ∃ o, objs[i' - i]? = some o ∧
        ∃ a, o.animations[j']? = some a ∧ animResult keys frame a = some t := by
  induction objs with
  | nil => intro i; simp [objectDispatches]
  | cons o rest ih =>
    intro i
    have hown : Dispatch.animation i' j' t ∉
        (if (o.animations.any fun a => (animResult keys frame a).isSome) = false ∧
            o.frameStart ≤ frame ∧ frame ≤ wrapInt32 (o.frameStart + o.duration) then
          [Dispatch.object i]
        else []) := by
      split <;> simp
    simp only [objectDispatches, List.append_assoc, List.mem_append, hown, false_or,
      mem_animDispatches, ih (i + 1), Nat.zero_le, true_and, Nat.sub_zero]
    constructor
    · rintro (⟨h1, a, h2, h3⟩ | ⟨h1, p, h2, h3⟩)
      · subst h1
        exact ⟨Nat.le_refl _, o, by simp, a, h2, h3⟩
      · refine ⟨by omega, p, ?_, h3⟩
        have : i' - i = (i' - (i + 1)) + 1 := by omega
        rw [this]; simpa using h2
    · rintro ⟨h1, p, h2, h3⟩
      by_cases hi : i' = i
      · subst hi
        simp only [Nat.sub_self, List.getElem?_cons_zero, Option.some.injEq] at h2
        subst h2
        exact Or.inl ⟨rfl, h3⟩
      · refine Or.inr ⟨by omega, p, ?_, h3⟩
        have : i' - i = (i' - (i + 1)) + 1 := by omega
        rw [this] at h2; simpa using h2

theorem object_not_mem_objectDispatches (keys : List (Int × Int)) (frame : Int) (k : Nat)
    (objs : List (AnimObject T L)) :
    ∀ i : Nat, k < i → Dispatch.object k ∉ objectDispatches keys frame i objs := by
  induction objs with
  | nil => intro i _; simp [objectDispatches]
  | cons o rest ih =>
    intro i hk
    simp only [objectDispatches, List.append_assoc, List.mem_append, not_or]
    refine ⟨object_not_mem_animDispatches _ _ _ _ _ _, ?_, ih (i + 1) (by omega)⟩
    split
    · simp; omega
    · simp

theorem count_object_objectDispatches (keys : List (Int × Int)) (frame : Int) (k : Nat)
    (objs : List (AnimObject T L)) :
    ∀ (i : Nat) (o : AnimObject T L), i ≤ k → objs[k - i]? = some o →
      (objectDispatches keys frame i objs).count (Dispatch.object k)
        = if (∀ a ∈ o.animations, animResult keys frame a = none) ∧
            o.frameStart ≤ frame ∧ frame ≤ wrapInt32 (o.frameStart + o.duration) then 1 else 0 := by
  induction objs with
  | nil => intro i o _ h; simp at h
  | cons p rest ih =>
    intro i o hik hget
    have hanim : (animDispatches keys frame i 0 p.animations).count (Dispatch.object k) = 0 :=
      List.count_eq_zero.2 (object_not_mem_animDispatches _ _ _ _ _ _)
    simp only [objectDispatches, List.append_assoc, List.count_append, hanim, Nat.zero_add]
    by_cases hi : k = i
    · subst hi
      simp only [Nat.sub_self, List.getElem?_cons_zero, Option.some.injEq] at hget
      subst hget
      have htail : (objectDispatches keys frame (k + 1) rest).count (Dispatch.object k) = 0 :=
        List.count_eq_zero.2 (object_not_mem_objectDispatches _ _ _ _ _ (by omega))
      rw [htail]
      have hany : ((p.animations.any fun a => (animResult keys frame a).isSome) = false) ↔
          ∀ a ∈ p.animations, animResult keys frame a = none := by
        simp [List.any_eq_false]
      by_cases hc : (∀ a ∈ p.animations, animResult keys frame a = none) ∧
          p.frameStart ≤ frame ∧ frame ≤ wrapInt32 (p.frameStart + p.duration)
      · rw [if_pos hc, if_pos ⟨hany.2 hc.1, hc.2⟩]
        simp
      · rw [if_neg hc, if_neg (fun h => hc ⟨hany.1 h.1, h.2⟩)]
        simp
    · have hne : Dispatch.object k ∉
          (if (p.animations.any fun a => (animResult keys frame a).isSome) = false ∧
              p.frameStart ≤ frame ∧ frame ≤ wrapInt32 (p.frameStart + p.duration) then
            [Dispatch.object i]
          else []) := by
        split
        · simp; omega
        · simp
      rw [List.count_eq_zero.2 hne, Nat.zero_add]
      apply ih (i + 1) o (by omega)
      have : k - i = (k - (i + 1)) + 1 := by omega
      rw [this] at hget; simpa using hget

end PlaybackLemmas

section PlaybackClaims

variable {T L : Type}

theorem lookupStart_of_mem (l : List (AnimObject T L)) (o : AnimObject T L) (h : o ∈ l) :
    (lookupStart o.id (objectKeys l)).isSome = true := by
  induction l with
  | nil => cases h
  | cons z rest ih =>
    simp only [objectKeys, List.map_cons, lookupStart]
    split
    · rfl
    · rcases List.mem_cons.1 h with rfl | h
      · rename_i hne; exact absurd rfl hne
      · exact ih h

theorem lookupStart_of_unique (l : List (AnimObject T L)) (o : AnimObject T L) (h : o ∈ l)
    (hu : UniqueObjectIds l) : lookupStart o.id (objectKeys l) = some o.frameStart := by
  induction l with
  | nil => cases h
  | cons z rest ih =>
    unfold UniqueObjectIds at hu
    rw [List.map_cons, List.nodup_cons] at hu
    simp only [objectKeys, List.map_cons, lookupStart]
    rcases List.mem_cons.1 h with rfl | h
    · simp
    · have hne : z.id ≠ o.id := by
        intro heq
        apply hu.1
        rw [heq]
        exact List.mem_map_of_mem _ h
      rw [if_neg hne]
      exact ih h hu.2

theorem animationStep_of_fits (frame parentStart : Int) (a : AnimationEx)
    (h1 : fitsF32 parentStart) (h2 : fitsF32 a.frameStart)
    (h3 : fitsF32 (parentStart + a.frameStart)) (h4 : fitsF32 a.duration)
    (h5 : fitsF32 (parentStart + a.frameStart + a.duration)) (h6 : fitsF32 frame) :
    animationStep frame parentStart a
      = if parentStart + a.frameStart ≤ frame ∧ frame ≤ parentStart + a.frameStart + a.duration
        then some (f32Div (frame - (parentStart + a.frameStart)) a.duration) else none := by
  have e3 : a.frameStart + parentStart = parentStart + a.frameStart := Int.add_comm _ _
  unfold animationStep
  simp only [roundToF32_of_fits _ h1, roundToF32_of_fits _ h2, roundToF32_of_fits _ h4,
    roundToF32_of_fits _ h6, e3, roundToF32_of_fits _ h3, roundToF32_of_fits _ h5,
    f32ToInt32_of_fits _ h5]
  by_cases hw : parentStart + a.frameStart ≤ frame ∧
      frame ≤ parentStart + a.frameStart + a.duration
  · have h7 : fitsF32 (frame - (parentStart + a.frameStart)) := by
      unfold fitsF32 at *
      omega
    rw [if_pos hw, if_pos hw, roundToF32_of_fits _ h7]
  · rw [if_neg hw, if_neg hw]

theorem divRoundEven_le (a b k : Nat) (hb : 0 < b) (hab : a ≤ b) :
    divRoundEven (a * 2 ^ k) b ≤ 2 ^ k ∧ (a = b → divRoundEven (a * 2 ^ k) b = 2 ^ k) := by
  have hq : a * 2 ^ k / b ≤ 2 ^ k := by
    apply Nat.div_le_of_le_mul
    exact Nat.mul_le_mul_right _ hab
  have heq : a = b → divRoundEven (a * 2 ^ k) b = 2 ^ k := by
    intro h
    subst h
    unfold divRoundEven
    have h1 : a * 2 ^ k / a = 2 ^ k := Nat.mul_div_cancel_left _ hb
    have h2 : a * 2 ^ k % a = 0 := Nat.mul_mod_right _ _
    simp only [h1, h2, Nat.mul_zero, hb, if_true]
  refine ⟨?_, heq⟩
  by_cases hab' : a = b
  · rw [heq hab']
  · have hlt : a < b := by omega
    have hq' : a * 2 ^ k / b < 2 ^ k := by
      rw [Nat.div_lt_iff_lt_mul hb, Nat.mul_comm (2 ^ k) b]
      exact Nat.mul_lt_mul_of_pos_right hlt (Nat.two_pow_pos k)
    unfold divRoundEven
    simp only
    split
    · omega
    · split
      · omega
      · split <;> omega

theorem f32Div_unit_range (n d : Int) (hn : 0 ≤ n) (hnd : n ≤ d) (hd : 0 < d) :
    ∃ q, (f32Div n d).toRat = some q ∧ 0 ≤ q ∧ q ≤ 1 ∧ (n = 0 → q = 0) ∧ (n = d → q = 1) := by
  have hd0 : d ≠ 0 := by omega
  by_cases hn0 : n = 0
  · subst hn0
    refine ⟨0, ?_, le_refl _, zero_le_one, fun _ => rfl, fun h => absurd h.symm hd0⟩
    simp [f32Div, hd0, F32.toRat]
  · have hab : n.natAbs ≤ d.natAbs := by omega
    have hb : 0 < d.natAbs := by omega
    have hj : downShift n.natAbs 256 d.natAbs = 0 := by
      unfold downShift
      rw [if_pos (by omega)]
    have hneg : decide ((n < 0) ≠ (d < 0)) = false := by
      have h1 : ¬ n < 0 := by omega
      have h2 : ¬ d < 0 := by omega
      simp [h1, h2]
    obtain ⟨k, hk⟩ : ∃ k, upShift d.natAbs 256 n.natAbs = k := ⟨_, rfl⟩
    obtain ⟨hm, hmeq⟩ := divRoundEven_le n.natAbs d.natAbs k hb hab
    have hnd' : n = d → n.natAbs = d.natAbs := fun h => by rw [h]
    generalize hmdef : divRoundEven (n.natAbs * 2 ^ k) d.natAbs = m at hm hmeq
    have hpow : (0 : ℚ) < (2 : ℚ) ^ k := by positivity
    have hmq : (m : ℚ) ≤ (2 : ℚ) ^ k := by exact_mod_cast hm
    have hval : (m : ℚ) * (2 : ℚ) ^ (-(k : ℤ)) = (m : ℚ) / (2 : ℚ) ^ k := by
      rw [zpow_neg, zpow_natCast, div_eq_mul_inv]
    have hres : (f32Div n d).toRat = some ((m : ℚ) / (2 : ℚ) ^ k) := by
      unfold f32Div
      simp only [hd0, hn0, if_false, hj, hk, pow_zero, Nat.mul_one, hneg, hmdef]
      by_cases h24 : m = 2 ^ 24
      · rw [if_pos h24]
        simp only [F32.toRat, Bool.false_eq_true, if_false, one_mul]
        rw [h24]
        have : ((2 ^ 23 : ℕ) : ℚ) * (2 : ℚ) ^ (((0 : ℕ) : ℤ) - (k : ℤ) + 1)
            = ((2 ^ 24 : ℕ) : ℚ) * (2 : ℚ) ^ (-(k : ℤ)) := by
          have e : ((0 : ℕ) : ℤ) - (k : ℤ) + 1 = -(k : ℤ) + 1 := by simp
          rw [e, zpow_add₀ (by norm_num : (2 : ℚ) ≠ 0), zpow_one]
          push_cast
          ring
        rw [this, zpow_neg, zpow_natCast, div_eq_mul_inv]
      · rw [if_neg h24]
        simp only [F32.toRat, Bool.false_eq_true, if_false, one_mul]
        have e : ((0 : ℕ) : ℤ) - (k : ℤ) = -(k : ℤ) := by simp
        rw [e, hval]
    refine ⟨(m : ℚ) / (2 : ℚ) ^ k, hres, by positivity, ?_, fun h => absurd h hn0, ?_⟩
    · rw [div_le_one hpow]; exact hmq
    · intro h
      have := hmeq (hnd' h)
      rw [this]
      push_cast
      exact div_self (ne_of_gt hpow)

theorem parentsResolve_keys (mObjects : List (AnimObject T L)) (h : ParentsResolve mObjects) :
    ∀ o ∈ mObjects, ∀ a ∈ o.animations,
      (lookupStart a.objectId (objectKeys mObjects)).isSome = true := by
  intro o ho a ha
  obtain ⟨p, hp⟩ := h o ho a ha
  rw [lookupStart_objectKeys, hp]
  rfl

theorem parentsResolve_of_backReferences (mObjects : List (AnimObject T L))
    (h : BackReferences mObjects) : ParentsResolve mObjects := by
  intro o ho a ha
  have h1 := lookupStart_of_mem mObjects o ho
  rw [lookupStart_objectKeys, ← h o ho a ha] at h1
  cases hp : getMutableObject a.objectId mObjects with
  | none => rw [hp] at h1; cases h1
  | some p => exact ⟨p, rfl⟩

theorem render_dispatches_of_resolve (mObjects : List (AnimObject T L)) (frame : Int)
    (h : ParentsResolve mObjects) :
    (render frame mObjects).dispatches
      = objectDispatches (objectKeys mObjects) frame 0 mObjects :=
  (renderObjects_spec (objectKeys mObjects) frame mObjects [] rfl
    (parentsResolve_keys mObjects h)).1

/-- C4 as stated fails: one object (id 0, start 16777217) with one animation
(relative start 0, duration 1, back-reference 0). The ids are unique, the
back-reference holds and frame 16777217 lies in the window
`[16777217, 16777218]`, but `render(16777217)` calls only the static render
of the object: the `float` start is 16777216.0 and the death time 16777216. -/
theorem render_activation_window_counterexample :
    UniqueObjectIds [sampleObject 0 16777217 10 [sampleAnimation 0 0 0 1]] ∧
      BackReferences [sampleObject 0 16777217 10 [sampleAnimation 0 0 0 1]] ∧
      ((sampleObject 0 16777217 10 []).frameStart + (sampleAnimation 0 0 0 1).frameStart
          ≤ 16777217 ∧
        16777217 ≤ (sampleObject 0 16777217 10 []).frameStart
          + (sampleAnimation 0 0 0 1).frameStart + (sampleAnimation 0 0 0 1).duration) ∧
      (render 16777217 [sampleObject 0 16777217 10 [sampleAnimation 0 0 0 1]]).dispatches
        = [Dispatch.object 0] ∧
      ¬ ∃ t, Dispatch.animation 0 0 t ∈
        (render 16777217 [sampleObject 0 16777217 10 [sampleAnimation 0 0 0 1]]).dispatches := by
  have hd : (render 16777217 [sampleObject 0 16777217 10 [sampleAnimation 0 0 0 1]]).dispatches
      = [Dispatch.object 0] := by decide
  refine ⟨by decide, by decide, by decide, hd, ?_⟩
  rw [hd]
  simp

/-- C4 (activation window), amended. In a registry with unique object ids in
which every animation's `objectId` is the id of its containing object, for
the animation `a` at position `j` of the object `o` at position `i` and a
frame `F`, when `o.frameStart`, `a.frameStart`, their sum, `a.duration`, the
end of the window and `F` are all below `2^24` in magnitude (the integers a
`float` holds exactly), `render(F)` calls the animation render of `a` if and
only if `o.frameStart + a.frameStart <= F <= o.frameStart + a.frameStart +
a.duration`. -/
theorem render_activation_window (T L : Type) (mObjects : List (AnimObject T L)) (frame : Int)
    (i j : Nat) (o : AnimObject T L) (a : AnimationEx)
    (huniq : UniqueObjectIds mObjects) (hback : BackReferences mObjects)
    (ho : mObjects[i]? = some o) (ha : o.animations[j]? = some a)
    (h1 : fitsF32 o.frameStart) (h2 : fitsF32 a.frameStart)
    (h3 : fitsF32 (o.frameStart + a.frameStart)) (h4 : fitsF32 a.duration)
    (h5 : fitsF32 (o.frameStart + a.frameStart + a.duration)) (h6 : fitsF32 frame) :
    (∃ t, Dispatch.animation i j t ∈ (render frame mObjects).dispatches) ↔
      (o.frameStart + a.frameStart ≤ frame ∧
        frame ≤ o.frameStart + a.frameStart + a.duration) := by
  have hmem : o ∈ mObjects := List.getElem?_mem ho
  have hamem : a ∈ o.animations := List.getElem?_mem ha
  have hlk : lookupStart a.objectId (objectKeys mObjects) = some o.frameStart := by
    rw [hback o hmem a hamem]
    exact lookupStart_of_unique mObjects o hmem huniq
  have hres : animResult (objectKeys mObjects) frame a
      = if o.frameStart + a.frameStart ≤ frame ∧
          frame ≤ o.frameStart + a.frameStart + a.duration
        then some (f32Div (frame - (o.frameStart + a.frameStart)) a.duration) else none := by
    simp only [animResult, hlk]
    exact animationStep_of_fits frame o.frameStart a h1 h2 h3 h4 h5 h6
  rw [render_dispatches_of_resolve mObjects frame (parentsResolve_of_backReferences _ hback)]
  constructor
  · rintro ⟨t, ht⟩
    obtain ⟨_, o', ho', a', ha', hr⟩ := (mem_objectDispatches_animation _ _ _ _ _ _ 0).1 ht
    rw [Nat.sub_zero, ho] at ho'
    cases ho'
    rw [ha] at ha'
    cases ha'
    rw [hres] at hr
    by_contra hw
    rw [if_neg hw] at hr
    cases hr
  · intro hw
    refine ⟨f32Div (frame - (o.frameStart + a.frameStart)) a.duration, ?_⟩
    refine (mem_objectDispatches_animation _ _ _ _ _ _ 0).2 ⟨Nat.zero_le _, o, ?_, a, ha, ?_⟩
    · rw [Nat.sub_zero]; exact ho
    · rw [hres, if_pos hw]

/-- C4, concrete check: an animation with absolute start 10 (object start 4,
relative start 6) and duration 5 is dispatched at frames 10 and 15 and not at
frames 9 and 16. -/
theorem render_activation_window_witness :
    (∃ t, Dispatch.animation 0 0 t ∈
        (render 10 [sampleObject 0 4 20 [sampleAnimation 0 0 6 5]]).dispatches) ∧
      (∃ t, Dispatch.animation 0 0 t ∈
        (render 15 [sampleObject 0 4 20 [sampleAnimation 0 0 6 5]]).dispatches) ∧
      (¬ ∃ t, Dispatch.animation 0 0 t ∈
        (render 9 [sampleObject 0 4 20 [sampleAnimation 0 0 6 5]]).dispatches) ∧
      (¬ ∃ t, Dispatch.animation 0 0 t ∈
        (render 16 [sampleObject 0 4 20 [sampleAnimation 0 0 6 5]]).dispatches) :=
  ⟨(render_activation_window Unit Unit [sampleObject 0 4 20 [sampleAnimation 0 0 6 5]] 10 0 0
      (sampleObject 0 4 20 [sampleAnimation 0 0 6 5]) (sampleAnimation 0 0 6 5)
      (by decide) (by decide) rfl rfl (by decide) (by decide) (by decide) (by decide)
      (by decide) (by decide)).2 (by decide),
    (render_activation_window Unit Unit [sampleObject 0 4 20 [sampleAnimation 0 0 6 5]] 15 0 0
      (sampleObject 0 4 20 [sampleAnimation 0 0 6 5]) (sampleAnimation 0 0 6 5)
      (by decide) (by decide) rfl rfl (by decide) (by decide) (by decide) (by decide)
      (by decide) (by decide)).2 (by decide),
    fun h => absurd
      ((render_activation_window Unit Unit [sampleObject 0 4 20 [sampleAnimation 0 0 6 5]] 9 0 0
        (sampleObject 0 4 20 [sampleAnimation 0 0 6 5]) (sampleAnimation 0 0 6 5)
        (by decide) (by decide) rfl rfl (by decide) (by decide) (by decide) (by decide)
        (by decide) (by decide)).1 h) (by decide),
    fun h => absurd
      ((render_activation_window Unit Unit [sampleObject 0 4 20 [sampleAnimation 0 0 6 5]] 16 0 0
        (sampleObject 0 4 20 [sampleAnimation 0 0 6 5]) (sampleAnimation 0 0 6 5)
        (by decide) (by decide) rfl rfl (by decide) (by decide) (by decide) (by decide)
        (by decide) (by decide)).1 h) (by decide)⟩

/-- C5 as stated fails in two ways. (a) The only animation of the object
points to the absent id 7 and is not dispatched at frame 5, the window
`[0, 20]` of the object contains 5, yet `render(5)` makes no static render:
the `getParent` assertion stops it. (b) An object without animations starts
at `2^31 - 1` with duration 1; frame `2^31 - 1` lies in its window, but the
32 bit death time has wrapped around and no static render is made. -/
theorem render_static_fallback_counterexample :
    ((∀ j t, Dispatch.animation 0 j t ∉
          (render 5 [sampleObject 1 0 20 [sampleAnimation 0 7 100 5]]).dispatches) ∧
        ((sampleObject 1 0 20 []).frameStart ≤ 5 ∧
          5 ≤ (sampleObject 1 0 20 []).frameStart + (sampleObject 1 0 20 []).duration) ∧
        (render 5 [sampleObject 1 0 20 [sampleAnimation 0 7 100 5]]).dispatches.count
          (Dispatch.object 0) = 0 ∧
        (render 5 [sampleObject 1 0 20 [sampleAnimation 0 7 100 5]]).fault
          = some Fault.assertion) ∧
      ((∀ j t, Dispatch.animation 0 j t ∉
          (render 2147483647 [sampleObject 1 2147483647 1 []]).dispatches) ∧
        ((sampleObject 1 2147483647 1 []).frameStart ≤ 2147483647 ∧
          2147483647 ≤ (sampleObject 1 2147483647 1 []).frameStart
            + (sampleObject 1 2147483647 1 []).duration) ∧
        (render 2147483647 [sampleObject 1 2147483647 1 []]).dispatches.count
          (Dispatch.object 0) = 0 ∧
        (render 2147483647 [sampleObject 1 2147483647 1 []]).fault = none) := by
  have hd1 : (render 5 [sampleObject 1 0 20 [sampleAnimation 0 7 100 5]]).dispatches = [] := by
    decide
  have hd2 : (render 2147483647 [sampleObject 1 2147483647 1 []]).dispatches = [] := by
    decide
  refine ⟨⟨?_, by decide, ?_, by decide⟩, ⟨?_, by decide, ?_, by decide⟩⟩
  · intro j t; rw [hd1]; simp
  · rw [hd1]; rfl
  · intro j t; rw [hd2]; simp
  · rw [hd2]; rfl

/-- C5 (fallback rendering), amended. In a registry in which every animation's
`objectId` is the id of some object, for the object `o` at position `i` whose
`frameStart + duration` is within the `int` range and every frame `F`:
`render(F)` calls the static render of `o` exactly once if it calls none of
`o`'s animation renders at `F` and `o.frameStart <= F <= o.frameStart +
o.duration`, and does not call it otherwise. -/
theorem render_static_fallback (T L : Type) (mObjects : List (AnimObject T L)) (frame : Int)
    (i : Nat) (o : AnimObject T L) (hres : ParentsResolve mObjects)
    (ho : mObjects[i]? = some o) (hov : isInt32 (o.frameStart + o.duration)) :
    (((∀ j t, Dispatch.animation i j t ∉ (render frame mObjects).dispatches) ∧
        o.frameStart ≤ frame ∧ frame ≤ o.frameStart + o.duration) →
      (render frame mObjects).dispatches.count (Dispatch.object i) = 1) ∧
    (¬ ((∀ j t, Dispatch.animation i j t ∉ (render frame mObjects).dispatches) ∧
        o.frameStart ≤ frame ∧ frame ≤ o.frameStart + o.duration) →
      (render frame mObjects).dispatches.count (Dispatch.object i) = 0) := by
  rw [render_dispatches_of_resolve mObjects frame hres]
  have hcount := count_object_objectDispatches (objectKeys mObjects) frame i mObjects 0 o
    (Nat.zero_le _) (by rw [Nat.sub_zero]; exact ho)
  rw [wrapInt32_of_isInt32 _ hov] at hcount
  have hiff : (∀ j t, Dispatch.animation i j t ∉
        objectDispatches (objectKeys mObjects) frame 0 mObjects) ↔
      ∀ a ∈ o.animations, animResult (objectKeys mObjects) frame a = none := by
    constructor
    · intro h a ha
      obtain ⟨j, hj⟩ := List.mem_iff_getElem?.1 ha
      cases hr : animResult (objectKeys mObjects) frame a with
      | none => rfl
      | some t =>
        exfalso
        apply h j t
        exact (mem_objectDispatches_animation _ _ _ _ _ _ 0).2
          ⟨Nat.zero_le _, o, by rw [Nat.sub_zero]; exact ho, a, hj, hr⟩
    · intro h j t ht
      obtain ⟨_, o', ho', a', ha', hr⟩ := (mem_objectDispatches_animation _ _ _ _ _ _ 0).1 ht
      rw [Nat.sub_zero, ho] at ho'
      cases ho'
      rw [h a' (List.getElem?_mem ha')] at hr
      cases hr
  constructor
  · rintro ⟨h1, h2⟩
    rw [hcount, if_pos ⟨hiff.1 h1, h2⟩]
  · intro h
    rw [hcount, if_neg (fun hc => h ⟨hiff.2 hc.1, hc.2⟩)]

/-- C5, concrete check: an object with `frameStart` 0 and duration 20 whose
one animation (window `[10, 15]`) is not active at frame 5 gets exactly one
static render at frame 5. -/
theorem render_static_fallback_witness :
    (render 5 [sampleObject 0 0 20 [sampleAnimation 0 0 10 5]]).dispatches.count
      (Dispatch.object 0) = 1 :=
  (render_static_fallback Unit Unit [sampleObject 0 0 20 [sampleAnimation 0 0 10 5]] 5 0
    (sampleObject 0 0 20 [sampleAnimation 0 0 10 5])
    (parentsResolve_of_backReferences _ (by decide)) rfl (by decide)).1
    ⟨by
      have hd : (render 5 [sampleObject 0 0 20 [sampleAnimation 0 0 10 5]]).dispatches
          = [Dispatch.object 0] := by decide
      intro j t
      rw [hd]
      simp, by decide, by decide⟩

/-- C6, the code at the failing input: an animation with duration 0 on an
object that starts at frame 0 is active at frame 0, and `render(0)` hands it
the quotient `0.0f / 0.0f`, a NaN, not 1.0; no guard precedes the division. -/
theorem render_zero_duration_progress :
    (render 0 [sampleObject 0 0 10 [sampleAnimation 0 0 0 0]]).dispatches
        = [Dispatch.animation 0 0 F32.nan] ∧
      (render 0 [sampleObject 0 0 10 [sampleAnimation 0 0 0 0]]).fault = none ∧
      F32.nan.toRat = none ∧
      ∀ n : Int, f32Div n 0 = (if n = 0 then F32.nan else F32.inf (decide (n < 0))) :=
  ⟨by decide, by decide, rfl, fun n => by simp [f32Div]⟩

/-- C7 as stated fails: object start `2^24`, animation at relative start 0
with duration 3. The `float` death time rounds `2^24 + 3` up to `2^24 + 4`,
so `render(2^24 + 4)` calls the animation with progress
`4.0f / 3.0f = 11184811 * 2^-23`, which is greater than 1. -/
theorem render_progress_range_counterexample :
    (0 : Int) < (sampleAnimation 0 0 0 3).duration ∧
      (render 16777220 [sampleObject 0 16777216 10 [sampleAnimation 0 0 0 3]]).dispatches
        = [Dispatch.animation 0 0 (F32.finite false 11184811 (-23))] ∧
      ∃ q, (F32.finite false 11184811 (-23)).toRat = some q ∧ 1 < q := by
  refine ⟨by decide, by decide, (11184811 : ℚ) * (2 : ℚ) ^ (-23 : ℤ), ?_, ?_⟩
  · simp [F32.toRat]
  · norm_num

/-- C7 (progress range), amended. For the animation `a` at position `j` of
the object at position `i`, with `parent` the object `getParent` finds and
`absStart = parent.frameStart + a.frameStart`, when `a.duration > 0` and
`parent.frameStart`, `a.frameStart`, `absStart`, `a.duration`,
`absStart + a.duration` and `F` are all below `2^24` in magnitude: every
progress value `render(F)` passes to `a` is the `float` quotient of
`F - absStart` by `a.duration`, lies in `[0, 1]`, is 0 at `F = absStart` and
1 at `F = absStart + a.duration`. -/
theorem render_progress_range (T L : Type) (mObjects : List (AnimObject T L)) (frame : Int)
    (i j : Nat) (o parent : AnimObject T L) (a : AnimationEx) (t : F32)
    (ho : mObjects[i]? = some o) (ha : o.animations[j]? = some a)
    (hp : getMutableObject a.objectId mObjects = some parent) (hd : 0 < a.duration)
    (h1 : fitsF32 parent.frameStart) (h2 : fitsF32 a.frameStart)
    (h3 : fitsF32 (parent.frameStart + a.frameStart)) (h4 : fitsF32 a.duration)
    (h5 : fitsF32 (parent.frameStart + a.frameStart + a.duration)) (h6 : fitsF32 frame)
    (hdisp : Dispatch.animation i j t ∈ (render frame mObjects).dispatches) :
    t = f32Div (frame - (parent.frameStart + a.frameStart)) a.duration ∧
      ∃ q, t.toRat = some q ∧ 0 ≤ q ∧ q ≤ 1 ∧
        (frame = parent.frameStart + a.frameStart → q = 0) ∧
        (frame = parent.frameStart + a.frameStart + a.duration → q = 1) := by
  have hs := renderObjects_sound (objectKeys mObjects) frame mObjects [] rfl _ hdisp
  obtain ⟨_, o', ho', a', ha', hr⟩ := (mem_objectDispatches_animation _ _ _ _ _ _ 0).1 hs
  rw [Nat.sub_zero, ho] at ho'
  cases ho'
  rw [ha] at ha'
  cases ha'
  have hlk : lookupStart a.objectId (objectKeys mObjects) = some parent.frameStart := by
    rw [lookupStart_objectKeys, hp]; rfl
  simp only [animResult, hlk] at hr
  rw [animationStep_of_fits frame parent.frameStart a h1 h2 h3 h4 h5 h6] at hr
  by_cases hw : parent.frameStart + a.frameStart ≤ frame ∧
      frame ≤ parent.frameStart + a.frameStart + a.duration
  · rw [if_pos hw] at hr
    simp only [Option.some.injEq] at hr
    subst hr
    refine ⟨rfl, ?_⟩
    obtain ⟨q, hq, h0, h1', hz, hone⟩ := f32Div_unit_range
      (frame - (parent.frameStart + a.frameStart)) a.duration (by omega) (by omega) hd
    exact ⟨q, hq, h0, h1', fun h => hz (by omega), fun h => hone (by omega)⟩
  · rw [if_neg hw] at hr
    cases hr

/-- C7, concrete check: object start 4, animation at relative start 6 with
duration 5; at frame 15, the end of the window, the progress passed is the
quotient `5.0f / 5.0f`, whose value is 1. -/
theorem render_progress_range_witness :
    F32.finite false 8388608 (-23) = f32Div (15 - (4 + 6)) 5 ∧
      ∃ q, (F32.finite false 8388608 (-23)).toRat = some q ∧ 0 ≤ q ∧ q ≤ 1 ∧
        ((15 : Int) = 4 + 6 → q = 0) ∧ ((15 : Int) = 4 + 6 + 5 → q = 1) :=
  render_progress_range Unit Unit [sampleObject 0 4 20 [sampleAnimation 0 0 6 5]] 15 0 0
    (sampleObject 0 4 20 [sampleAnimation 0 0 6 5]) (sampleObject 0 4 20 [sampleAnimation 0 0 6 5])
    (sampleAnimation 0 0 6 5) (F32.finite false 8388608 (-23)) rfl rfl rfl (by decide)
    (by decide) (by decide) (by decide) (by decide) (by decide) (by decide) (by decide)

end PlaybackClaims

section CodecLemmas

variable {T L : Type}

theorem readU32_u32Bytes (v : Nat) (rest : List Byte) (h : v < 2 ^ 32) :
    readU32 (u32Bytes v ++ rest) = Except.ok (v, rest) := by
  simp only [u32Bytes, List.cons_append, List.nil_append, readU32, byteOf]
  congr 2
  omega

theorem bitsToInt32_int32Bits (n : Int) (h : isInt32 n) : bitsToInt32 (int32Bits n) = n := by
  unfold isInt32 at h
  unfold bitsToInt32 int32Bits
  split <;> omega

theorem int32Bits_lt (n : Int) : int32Bits n < 2 ^ 32 := by
  unfold int32Bits
  omega

theorem readI32_i32Bytes (n : Int) (rest : List Byte) (h : isInt32 n) :
    readI32 (u32Bytes (int32Bits n) ++ rest) = Except.ok (n, rest) := by
  unfold readI32
  rw [readU32_u32Bytes _ _ (int32Bits_lt n)]
  simp only [bitsToInt32_int32Bits n h]

theorem animTypeEx_fromTag_toNat (t : AnimTypeEx) (h : t ≠ AnimTypeEx.Length) :
    AnimTypeEx.fromTag t.toNat = t ∧ t.toNat < AnimTypeEx.Length.toNat := by
  cases t <;> simp [AnimTypeEx.fromTag, AnimTypeEx.toNat] at h ⊢

theorem animObjectType_fromTag_toNat (t : AnimObjectType) (h : t ≠ AnimObjectType.Length) :
    AnimObjectType.fromTag t.toNat = t ∧ t.toNat < AnimObjectType.Length.toNat := by
  cases t <;> simp [AnimObjectType.fromTag, AnimObjectType.toNat] at h ⊢

theorem animationEx_serialize_append (memory : List Byte) (a : AnimationEx) :
    a.serialize memory = memory ++ a.serialize [] := by
  simp [AnimationEx.serialize, writeU32, writeI32, List.append_assoc]

theorem deserializeAnimationExV1_serialize (a : AnimationEx) (rest : List Byte)
    (hk : a.type ≠ AnimTypeEx.Length) (hr : a.InRange) :
    deserializeAnimationExV1 (a.serialize [] ++ rest) = Except.ok (a, rest) := by
  obtain ⟨h1, h2, h3, h4⟩ := hr
  obtain ⟨ht1, ht2⟩ := animTypeEx_fromTag_toNat a.type hk
  have htl : a.type.toNat < 2 ^ 32 := by
    cases a.type <;> simp [AnimTypeEx.toNat]
  simp only [AnimationEx.serialize, writeU32, writeI32, List.nil_append, List.append_assoc,
    deserializeAnimationExV1, readU32_u32Bytes _ _ htl, readI32_i32Bytes _ _ h1,
    readI32_i32Bytes _ _ h2, readI32_i32Bytes _ _ h3, readI32_i32Bytes _ _ h4, bind,
    Except.bind, ht2, if_true, ht1, pure, Except.pure]

theorem serializeAnimations_append (memory : List Byte) (l : List AnimationEx) :
    serializeAnimations memory l = memory ++ serializeAnimations [] l := by
  induction l generalizing memory with
  | nil => simp [serializeAnimations]
  | cons a rest ih =>
    simp only [serializeAnimations]
    rw [ih (a.serialize memory), ih (a.serialize []), animationEx_serialize_append memory a,
      List.append_assoc]

theorem deserializeAnimations_serialize (l : List AnimationEx) :
    ∀ (rest : List Byte) (counter : Int) (acc : List AnimationEx),
      (∀ a ∈ l, a.type ≠ AnimTypeEx.Length) → (∀ a ∈ l, a.InRange) →
      ∃ counter', deserializeAnimations l.length (serializeAnimations [] l ++ rest) counter acc
        = Except.ok (acc ++ l, rest, counter') := by
  induction l with
  | nil =>
    intro rest counter acc _ _
    exact ⟨counter, by simp [deserializeAnimations, serializeAnimations, pure, Except.pure]⟩
  | cons a tail ih =>
    intro rest counter acc hk hr
    have hdec := deserializeAnimationExV1_serialize a (serializeAnimations [] tail ++ rest)
      (hk a (List.mem_cons_self _ _)) (hr a (List.mem_cons_self _ _))
    obtain ⟨c', hc'⟩ := ih rest (max counter (wrapInt32 (a.id + 1))) (acc ++ [a])
      (fun b hb => hk b (List.mem_cons_of_mem _ hb)) (fun b hb => hr b (List.mem_cons_of_mem _ hb))
    refine ⟨c', ?_⟩
    simp only [List.length_cons, deserializeAnimations, serializeAnimations]
    rw [serializeAnimations_append (a.serialize []) tail, List.append_assoc]
    simp only [AnimationEx.deserialize, SERIALIZER_VERSION, if_true, hdec, bind, Except.bind]
    rw [hc']
    simp

theorem animObject_serialize_append (codecs : Codecs T L) (memory : List Byte)
    (o : AnimObject T L) : o.serialize codecs memory = memory ++ o.serialize codecs [] := by
  unfold AnimObject.serialize
  simp only
  rw [serializeAnimations_append (writeU32 _ _), serializeAnimations_append (writeU32 _ _)]
  simp only [writeU32, writeI32, List.nil_append, List.append_assoc]
  split <;> simp [List.append_assoc]

theorem deserializeAnimObjectV1_serialize (codecs : Codecs T L) (o : AnimObject T L)
    (rest : List Byte) (c1 c2 : Int)
    (htext : codecs.textObject.RoundTrips) (hlatex : codecs.laTexObject.RoundTrips)
    (hk : o.ProperKinds) (hr : o.InRange) (htag : o.WellTagged) :
    ∃ c1' c2', deserializeAnimObjectV1 codecs (o.serialize codecs [] ++ rest) c1 c2
      = Except.ok ({ o with isAnimating := false }, rest, c1', c2') := by
  obtain ⟨hx, hy, hid, hfs, hdur, htr, hlen, hanims⟩ := hr
  obtain ⟨hkind, hakinds⟩ := hk
  obtain ⟨ht1, ht2⟩ := animObjectType_fromTag_toNat o.objectType hkind
  have htl : o.objectType.toNat < 2 ^ 32 := by
    cases o.objectType <;> simp [AnimObjectType.toNat]
  have hlen32 : o.animations.length % 2 ^ 32 = o.animations.length := by
    apply Nat.mod_eq_of_lt; omega
  have hlen' : o.animations.length < 2 ^ 32 := by omega
  obtain ⟨c2', hc2'⟩ := deserializeAnimations_serialize o.animations rest c2 [] hakinds hanims
  refine ⟨max c1 (wrapInt32 (o.id + 1)), c2', ?_⟩
  unfold AnimObject.serialize
  simp only [hlen32, List.take_length]
  rw [serializeAnimations_append (writeU32 _ _)]
  unfold deserializeAnimObjectV1
  obtain ⟨objectType, position, id, frameStart, duration, timelineTrack, isAnimating, as,
    animations⟩ := o
  simp only at *
  cases objectType <;> cases as <;> simp only [AnimObject.WellTagged] at htag
  · simp only [writeU32, writeI32, List.nil_append, List.append_assoc,
      readU32_u32Bytes _ _ htl, readU32_u32Bytes _ _ hx, readU32_u32Bytes _ _ hy,
      readI32_i32Bytes _ _ hid, readI32_i32Bytes _ _ hfs, readI32_i32Bytes _ _ hdur,
      readI32_i32Bytes _ _ htr, readU32_u32Bytes _ _ hlen', bind, Except.bind, ht2, if_true,
      ht1, pure, Except.pure, hc2']
  · rename_i t
    simp only [writeU32, writeI32, List.nil_append, List.append_assoc,
      readU32_u32Bytes _ _ htl, readU32_u32Bytes _ _ hx, readU32_u32Bytes _ _ hy,
      readI32_i32Bytes _ _ hid, readI32_i32Bytes _ _ hfs, readI32_i32Bytes _ _ hdur,
      readI32_i32Bytes _ _ htr, readU32_u32Bytes _ _ hlen', bind, Except.bind, ht2, if_true,
      ht1, pure, Except.pure, hc2', htext t _]
  · rename_i l
    simp only [writeU32, writeI32, List.nil_append, List.append_assoc,
      readU32_u32Bytes _ _ htl, readU32_u32Bytes _ _ hx, readU32_u32Bytes _ _ hy,
      readI32_i32Bytes _ _ hid, readI32_i32Bytes _ _ hfs, readI32_i32Bytes _ _ hdur,
      readI32_i32Bytes _ _ htr, readU32_u32Bytes _ _ hlen', bind, Except.bind, ht2, if_true,
      ht1, pure, Except.pure, hc2', hlatex l _]
  · exact absurd rfl hkind

theorem serializeObjects_append (codecs : Codecs T L) (memory : List Byte)
    (l : List (AnimObject T L)) :
    serializeObjects codecs memory l = memory ++ serializeObjects codecs [] l := by
  induction l generalizing memory with
  | nil => simp [serializeObjects]
  | cons o rest ih =>
    simp only [serializeObjects]
    rw [ih (writeU32 (o.serialize codecs memory) MAGIC_NUMBER),
      ih (writeU32 (o.serialize codecs []) MAGIC_NUMBER), animObject_serialize_append codecs memory o]
    simp [writeU32, List.append_assoc]

theorem deserializeObjects_serialize (codecs : Codecs T L)
    (htext : codecs.textObject.RoundTrips) (hlatex : codecs.laTexObject.RoundTrips)
    (l : List (AnimObject T L)) :
    ∀ (rest : List Byte) (s : Manager T L),
      (∀ o ∈ l, o.ProperKinds) → (∀ o ∈ l, o.InRange ∧ o.WellTagged) →
      (deserializeObjects codecs l.length (serializeObjects codecs [] l ++ rest) s).fault = none ∧
        (deserializeObjects codecs l.length (serializeObjects codecs [] l ++ rest) s).state.mObjects
          = s.mObjects ++ l.map (fun o => { o with isAnimating := false }) := by
  induction l with
  | nil => intro rest s _ _; simp [deserializeObjects]
  | cons o tail ih =>
    intro rest s hk hr
    obtain ⟨c1', c2', hdec⟩ := deserializeAnimObjectV1_serialize codecs o
      (u32Bytes MAGIC_NUMBER ++ (serializeObjects codecs [] tail ++ rest))
      s.animObjectUidCounter s.animationUidCounter htext hlatex
      (hk o (List.mem_cons_self _ _)) (hr o (List.mem_cons_self _ _)).1
      (hr o (List.mem_cons_self _ _)).2
    have hmagic : MAGIC_NUMBER < 2 ^ 32 := by decide
    have ih' := ih rest
      { mObjects := s.mObjects ++ [{ o with isAnimating := false }],
        animObjectUidCounter := c1', animationUidCounter := c2' }
      (fun p hp => hk p (List.mem_cons_of_mem _ hp)) (fun p hp => hr p (List.mem_cons_of_mem _ hp))
    simp only [List.length_cons, deserializeObjects, serializeObjects]
    rw [serializeObjects_append codecs (writeU32 _ _) tail]
    simp only [writeU32, List.append_assoc, AnimObject.deserialize, if_true, hdec,
      readU32_u32Bytes _ _ hmagic]
    refine ⟨ih'.1, ?_⟩
    rw [ih'.2]
    simp

theorem readI32_isInt32 (memory : List Byte) (r : Int × List Byte)
    (h : readI32 memory = Except.ok r) : isInt32 r.1 := by
  unfold readI32 at h
  match memory, h with
  | b0 :: b1 :: b2 :: b3 :: tail, h =>
    simp only [readU32, Except.ok.injEq] at h
    have h0 := b0.isLt
    have h1 := b1.isLt
    have h2 := b2.isLt
    have h3 := b3.isLt
    rw [← h]
    unfold isInt32 bitsToInt32
    simp only
    split <;> omega

end CodecLemmas

section RoundTripClaim

/-- C3 as stated fails: `deserialize` never clears `mObjects`, it appends what
it decodes. A registry that holds one text object is written by `serialize`;
loading those bytes while the registry still holds the object succeeds and
leaves the object twice in the registry, which is not the registry that was
written. -/
theorem serialize_deserialize_counterexample :
    (deserialize unitCodecs
        (some (serialize unitCodecs [sampleTextObject 4 0 20 [sampleAnimation 0 4 0 9]]))
        { mObjects := [sampleTextObject 4 0 20 [sampleAnimation 0 4 0 9]],
          animObjectUidCounter := 5, animationUidCounter := 1 }).fault = none ∧
    (deserialize unitCodecs
        (some (serialize unitCodecs [sampleTextObject 4 0 20 [sampleAnimation 0 4 0 9]]))
        { mObjects := [sampleTextObject 4 0 20 [sampleAnimation 0 4 0 9]],
          animObjectUidCounter := 5, animationUidCounter := 1 }).state.mObjects
      = [sampleTextObject 4 0 20 [sampleAnimation 0 4 0 9],
          sampleTextObject 4 0 20 [sampleAnimation 0 4 0 9]] ∧
    [sampleTextObject 4 0 20 [sampleAnimation 0 4 0 9],
        sampleTextObject 4 0 20 [sampleAnimation 0 4 0 9]]
      ≠ [sampleTextObject 4 0 20 [sampleAnimation 0 4 0 9]] :=
  ⟨by decide, by decide, by decide⟩

/-- C3 (registry round trip), amended. For any registry `R` of objects of the
kinds `TextObject` and `LaTexObject` (with animation kinds below `Length`,
values that fit the container: 32 bit fields, fewer than `2^31` objects and
animations per object, the live union member named by the kind, and payload
codecs that read back what they write), loading the bytes of `serialize(R)`
into an empty registry succeeds and yields `R`: as many objects, in the same
order, each with the same id, kind, position, `frameStart`, duration, track,
payload and animations. The transient flag `isAnimating` is not stored; the
two registries agree in every other field. -/
theorem serialize_deserialize_roundtrip (T L : Type) (codecs : Codecs T L)
    (R : List (AnimObject T L)) (c1 c2 : Int)
    (htext : codecs.textObject.RoundTrips) (hlatex : codecs.laTexObject.RoundTrips)
    (hfit : Storable R)
    (hkinds : ∀ o ∈ R,
      (o.objectType = AnimObjectType.TextObject ∨ o.objectType = AnimObjectType.LaTexObject) ∧
        ∀ a ∈ o.animations, a.type ≠ AnimTypeEx.Length) :
    (deserialize codecs (some (serialize codecs R))
        { mObjects := [], animObjectUidCounter := c1, animationUidCounter := c2 }).fault = none ∧
    (deserialize codecs (some (serialize codecs R))
        { mObjects := [], animObjectUidCounter := c1,
          animationUidCounter := c2 }).state.mObjects.length = R.length ∧
    persistentFields
        (deserialize codecs (some (serialize codecs R))
          { mObjects := [], animObjectUidCounter := c1,
            animationUidCounter := c2 }).state.mObjects
      = persistentFields R ∧
    ∀ (k : Nat) (o : AnimObject T L), R[k]? = some o →
      ∃ p, (deserialize codecs (some (serialize codecs R))
          { mObjects := [], animObjectUidCounter := c1,
            animationUidCounter := c2 }).state.mObjects[k]? = some p ∧
        p.id = o.id ∧ p.objectType = o.objectType ∧ p.position = o.position ∧
        p.frameStart = o.frameStart ∧ p.duration = o.duration ∧
        p.timelineTrack = o.timelineTrack ∧ p.as = o.as ∧ p.animations = o.animations := by
  obtain ⟨hlen, hobjs⟩ := hfit
  have hproper : ∀ o ∈ R, o.ProperKinds := by
    intro o ho
    obtain ⟨hk, hak⟩ := hkinds o ho
    refine ⟨?_, hak⟩
    rcases hk with hk | hk <;> rw [hk] <;> decide
  have hmagic : MAGIC_NUMBER < 2 ^ 32 := by decide
  have hver : SERIALIZER_VERSION < 2 ^ 32 := by decide
  have hlen32 : R.length % 2 ^ 32 = R.length := by
    apply Nat.mod_eq_of_lt; omega
  have hlen' : R.length < 2 ^ 32 := by omega
  have hmain := deserializeObjects_serialize codecs htext hlatex R []
    { mObjects := [], animObjectUidCounter := c1, animationUidCounter := c2 } hproper hobjs
  have hbytes : serialize codecs R
      = u32Bytes MAGIC_NUMBER ++ (u32Bytes SERIALIZER_VERSION ++
          (u32Bytes R.length ++ (serializeObjects codecs [] R ++ []))) := by
    unfold serialize
    rw [serializeObjects_append, hlen32]
    simp [writeU32, List.append_assoc]
  have hload : (deserialize codecs (some (serialize codecs R))
        { mObjects := [], animObjectUidCounter := c1, animationUidCounter := c2 }).fault = none ∧
      (deserialize codecs (some (serialize codecs R))
        { mObjects := [], animObjectUidCounter := c1,
          animationUidCounter := c2 }).state.mObjects
        = R.map (fun o => { o with isAnimating := false }) := by
    rw [hbytes]
    simp only [deserialize, readU32_u32Bytes _ _ hmagic, readU32_u32Bytes _ _ hver,
      deserializeAnimationManagerExV1, readU32_u32Bytes _ _ hlen']
    have hv : (SERIALIZER_VERSION ≠ 0 ∧ SERIALIZER_VERSION ≤ SERIALIZER_VERSION) := by decide
    simp only [ne_eq, not_true_eq_false, if_false, hv, SERIALIZER_VERSION, if_true]
    simpa using hmain
  obtain ⟨hfault, hobjects⟩ := hload
  rw [hobjects]
  refine ⟨hfault, by simp, by simp [persistentFields], ?_⟩
  intro k o hk
  refine ⟨{ o with isAnimating := false }, ?_, rfl, rfl, rfl, rfl, rfl, rfl, rfl, rfl⟩
  rw [List.getElem?_map, hk]
  rfl

/-- C3, concrete check: a text object with two animations followed by a LaTeX
object comes back from its own serialization, loaded into an empty
registry. -/
theorem serialize_deserialize_roundtrip_witness :
    (deserialize unitCodecs
        (some (serialize unitCodecs
          [sampleTextObject 4 (-3) 20 [sampleAnimation 1 4 7 2, sampleAnimation 0 4 0 9],
            sampleLaTexObject 2 (-5) 1 []]))
        { mObjects := [], animObjectUidCounter := 0, animationUidCounter := 0 }).fault = none ∧
    persistentFields
        (deserialize unitCodecs
          (some (serialize unitCodecs
            [sampleTextObject 4 (-3) 20 [sampleAnimation 1 4 7 2, sampleAnimation 0 4 0 9],
              sampleLaTexObject 2 (-5) 1 []]))
          { mObjects := [], animObjectUidCounter := 0, animationUidCounter := 0 }).state.mObjects
      = persistentFields
          [sampleTextObject 4 (-3) 20 [sampleAnimation 1 4 7 2, sampleAnimation 0 4 0 9],
            sampleLaTexObject 2 (-5) 1 []] :=
  ⟨(serialize_deserialize_roundtrip Unit Unit unitCodecs
      [sampleTextObject 4 (-3) 20 [sampleAnimation 1 4 7 2, sampleAnimation 0 4 0 9],
        sampleLaTexObject 2 (-5) 1 []] 0 0
      (fun _ _ => rfl) (fun _ _ => rfl)
      ⟨by decide, by
        intro o ho
        simp only [List.mem_cons, List.mem_singleton, List.not_mem_nil, or_false] at ho
        rcases ho with rfl | rfl
        · exact ⟨by decide, trivial⟩
        · exact ⟨by decide, trivial⟩⟩
      (by
        intro o ho
        simp only [List.mem_cons, List.mem_singleton, List.not_mem_nil, or_false] at ho
        rcases ho with rfl | rfl <;> decide)).1,
    (serialize_deserialize_roundtrip Unit Unit unitCodecs
      [sampleTextObject 4 (-3) 20 [sampleAnimation 1 4 7 2, sampleAnimation 0 4 0 9],
        sampleLaTexObject 2 (-5) 1 []] 0 0
      (fun _ _ => rfl) (fun _ _ => rfl)
      ⟨by decide, by
        intro o ho
        simp only [List.mem_cons, List.mem_singleton, List.not_mem_nil, or_false] at ho
        rcases ho with rfl | rfl
        · exact ⟨by decide, trivial⟩
        · exact ⟨by decide, trivial⟩⟩
      (by
        intro o ho
        simp only [List.mem_cons, List.mem_singleton, List.not_mem_nil, or_false] at ho
        rcases ho with rfl | rfl <;> decide)).2.2.1⟩

end RoundTripClaim

section AllocatorLemmas

variable {T L : Type}

theorem deserializeAnimationExV1_id (memory rest : List Byte) (a : AnimationEx)
    (h : deserializeAnimationExV1 memory = Except.ok (a, rest)) : isInt32 a.id := by
  unfold deserializeAnimationExV1 at h
  simp only [bind, Except.bind] at h
  repeat' split at h
  all_goals cases h
  exact readI32_isInt32 _ _ (by assumption)

theorem advance_append (c : Int) (l1 l2 : List Int) :
    advance c (l1 ++ l2) = advance (advance c l1) l2 := by
  simp [advance, List.foldl_append]

theorem advance_isMaxWith (ids : List Int) :
    ∀ c : Int, (∀ id ∈ ids, isInt32 id) → (∀ id ∈ ids, id < 2 ^ 31 - 1) →
      IsMaxWith c (ids.map (fun id => id + 1)) (advance c ids) := by
  induction ids with
  | nil => intro c _ _; exact ⟨le_refl _, by simp, Or.inl rfl⟩
  | cons id rest ih =>
    intro c h32 hlt
    have hw : wrapInt32 (id + 1) = id + 1 := by
      apply wrapInt32_of_isInt32
      have h1 := h32 id (List.mem_cons_self _ _)
      have h2 := hlt id (List.mem_cons_self _ _)
      unfold isInt32 at *
      omega
    obtain ⟨g1, g2, g3⟩ := ih (max c (id + 1)) (fun x hx => h32 x (List.mem_cons_of_mem _ hx))
      (fun x hx => hlt x (List.mem_cons_of_mem _ hx))
    have hadv : advance c (id :: rest) = advance (max c (id + 1)) rest := by
      simp [advance, hw]
    rw [hadv]
    refine ⟨le_trans (le_max_left _ _) g1, ?_, ?_⟩
    · intro x hx
      rw [List.map_cons] at hx
      rcases List.mem_cons.1 hx with rfl | hx
      · exact le_trans (le_max_right _ _) g1
      · exact g2 x hx
    · rcases g3 with g3 | g3
      · rcases max_choice c (id + 1) with hm | hm
        · left; rw [g3, hm]
        · right; rw [g3, hm]; simp
      · right
        rw [List.map_cons]
        exact List.mem_cons_of_mem _ g3

theorem deserializeAnimations_counter (n : Nat) :
    ∀ (memory : List Byte) (counter : Int) (acc : List AnimationEx)
      (r : List AnimationEx × List Byte × Int),
      deserializeAnimations n memory counter acc = Except.ok r →
      ∃ decoded, r.1 = acc ++ decoded ∧
        r.2.2 = advance counter (decoded.map AnimationEx.id) ∧
        ∀ a ∈ decoded, isInt32 a.id := by
  induction n with
  | zero =>
    intro memory counter acc r h
    simp only [deserializeAnimations, pure, Except.pure, Except.ok.injEq] at h
    subst h
    exact ⟨[], by simp, by simp [advance], by simp⟩
  | succ n ih =>
    intro memory counter acc r h
    simp only [deserializeAnimations, bind, Except.bind, AnimationEx.deserialize,
      SERIALIZER_VERSION, if_true] at h
    split at h
    · cases h
    · rename_i v hv
      obtain ⟨a, m1⟩ := v
      obtain ⟨decoded, h1, h2, h3⟩ := ih _ _ _ _ h
      refine ⟨a :: decoded, by simp [h1], ?_, ?_⟩
      · rw [h2]; simp [advance]
      · intro b hb
        rcases List.mem_cons.1 hb with rfl | hb
        · exact deserializeAnimationExV1_id _ _ _ hv
        · exact h3 b hb

theorem deserializeAnimObjectV1_counters (codecs : Codecs T L) (memory rest : List Byte)
    (c1 c2 c1' c2' : Int) (o : AnimObject T L)
    (h : deserializeAnimObjectV1 codecs memory c1 c2 = Except.ok (o, rest, c1', c2')) :
    c1' = advance c1 [o.id] ∧ c2' = advance c2 (o.animations.map AnimationEx.id) ∧
      isInt32 o.id ∧ ∀ a ∈ o.animations, isInt32 a.id := by
  unfold deserializeAnimObjectV1 at h
  simp only [bind, Except.bind] at h
  repeat' split at h
  all_goals cases h
  all_goals
    obtain ⟨decoded, h1, h2, h3⟩ := deserializeAnimations_counter _ _ _ _ _ (by assumption)
    simp only [List.nil_append] at h1
    refine ⟨by simp [advance], ?_, readI32_isInt32 _ _ (by assumption), ?_⟩
    · simp only [h2, h1]
    · simp only [h1]; exact h3

theorem deserializeObjects_counters (codecs : Codecs T L) (n : Nat) :
    ∀ (memory : List Byte) (s : Manager T L),
      (deserializeObjects codecs n memory s).fault = none →
      ∃ decoded : List (AnimObject T L),
        (deserializeObjects codecs n memory s).state.mObjects = s.mObjects ++ decoded ∧
        (deserializeObjects codecs n memory s).state.animObjectUidCounter
          = advance s.animObjectUidCounter (decoded.map AnimObject.id) ∧
        (deserializeObjects codecs n memory s).state.animationUidCounter
          = advance s.animationUidCounter ((allAnimations decoded).map AnimationEx.id) ∧
        (∀ o ∈ decoded, isInt32 o.id) ∧ ∀ a ∈ allAnimations decoded, isInt32 a.id := by
  induction n with
  | zero =>
    intro memory s _
    exact ⟨[], by simp [deserializeObjects], by simp [deserializeObjects, advance],
      by simp [deserializeObjects, advance, allAnimations], by simp, by simp [allAnimations]⟩
  | succ n ih =>
    intro memory s hok
    unfold deserializeObjects at hok ⊢
    simp only [AnimObject.deserialize, if_true] at hok ⊢
    cases hdec : deserializeAnimObjectV1 codecs memory s.animObjectUidCounter
        s.animationUidCounter with
    | error f => rw [hdec] at hok; cases hok
    | ok r =>
      obtain ⟨o, m1, c1', c2'⟩ := r
      rw [hdec] at hok
      simp only [hdec] at hok ⊢
      obtain ⟨hc1, hc2, hid, haid⟩ := deserializeAnimObjectV1_counters codecs _ _ _ _ _ _ _ hdec
      cases hrd : readU32 m1 with
      | error f => rw [hrd] at hok; cases hok
      | ok v =>
        obtain ⟨magicNumber, m2⟩ := v
        simp only [hrd] at hok ⊢
        by_cases hm : magicNumber = MAGIC_NUMBER
        · simp only [hm, if_true] at hok ⊢
          obtain ⟨decoded, h1, h2, h3, h4, h5⟩ := ih m2 _ hok
          refine ⟨o :: decoded, ?_, ?_, ?_, ?_, ?_⟩
          · rw [h1]; simp
          · rw [h2, hc1]
            simp [advance]
          · rw [h3, hc2]
            simp only [allAnimations, List.map_append]
            rw [advance_append]
          · intro p hp
            rcases List.mem_cons.1 hp with rfl | hp
            · exact hid
            · exact h4 p hp
          · intro a ha
            simp only [allAnimations, List.mem_append] at ha
            rcases ha with ha | ha
            · exact haid a ha
            · exact h5 a ha
        · simp only [hm, if_false] at hok
          cases hok

theorem mem_allAnimations (l : List (AnimObject T L)) (a : AnimationEx) :
    a ∈ allAnimations l ↔ ∃ o ∈ l, a ∈ o.animations := by
  induction l with
  | nil => simp [allAnimations]
  | cons o rest ih => simp [allAnimations, ih]

end AllocatorLemmas

section AllocatorClaims

/-- C8 as stated fails: the container holds one object with id `2^31 - 1`
(the load succeeds). After the load into a fresh state the object counter is
still 0, not `max(0, 1 + (2^31 - 1))`, because `res.id + 1` wraps around, and
the next `AnimObject::createDefault` returns id 0, which is not greater than
the largest id of the file. -/
theorem load_advances_counters_counterexample :
    (deserialize unitCodecs (some (serialize unitCodecs [sampleObject 2147483647 0 1 []]))
        { mObjects := [], animObjectUidCounter := 0, animationUidCounter := 0 }).fault = none ∧
    (deserialize unitCodecs (some (serialize unitCodecs [sampleObject 2147483647 0 1 []]))
        { mObjects := [], animObjectUidCounter := 0, animationUidCounter := 0 }).state.mObjects
      = [sampleObject 2147483647 0 1 []] ∧
    (deserialize unitCodecs (some (serialize unitCodecs [sampleObject 2147483647 0 1 []]))
        { mObjects := [], animObjectUidCounter := 0,
          animationUidCounter := 0 }).state.animObjectUidCounter = 0 ∧
    (AnimObject.createDefault unitDefaults 0 AnimObjectType.None 0 1).1.id = 0 := by
  decide

/-- C8 (UID advance on load), amended. After a successful load the registry is
the old one followed by the decoded objects. When every decoded object id is
below `2^31 - 1`, the object counter equals the larger of its value before
the load and 1 + the largest decoded object id, and the next
`AnimObject::createDefault` returns an id strictly greater than every decoded
object id; when every decoded animation id is below `2^31 - 1`, the same
holds for the animation counter and `AnimationEx::createDefault`. -/
theorem load_advances_counters (T L : Type) (codecs : Codecs T L) (bytes : List Byte)
    (s : Manager T L) (hok : (deserialize codecs (some bytes) s).fault = none) :
    ∃ decoded : List (AnimObject T L),
      (deserialize codecs (some bytes) s).state.mObjects = s.mObjects ++ decoded ∧
      ((∀ o ∈ decoded, o.id < 2 ^ 31 - 1) →
        IsMaxWith s.animObjectUidCounter (decoded.map (fun o => o.id + 1))
          (deserialize codecs (some bytes) s).state.animObjectUidCounter ∧
        ∀ (defaults : ObjectDefaults T L) (type : AnimObjectType) (frameStart duration : Int),
          ∀ o ∈ decoded,
            o.id < (AnimObject.createDefault defaults
              (deserialize codecs (some bytes) s).state.animObjectUidCounter
              type frameStart duration).1.id) ∧
      ((∀ a ∈ allAnimations decoded, a.id < 2 ^ 31 - 1) →
        IsMaxWith s.animationUidCounter ((allAnimations decoded).map (fun a => a.id + 1))
          (deserialize codecs (some bytes) s).state.animationUidCounter ∧
        ∀ (type : AnimTypeEx) (frameStart duration animObjectId : Int),
          ∀ a ∈ allAnimations decoded,
            a.id < (AnimationEx.createDefault
              (deserialize codecs (some bytes) s).state.animationUidCounter
              type frameStart duration animObjectId).1.id) := by
  have key : ∃ decoded : List (AnimObject T L),
      (deserialize codecs (some bytes) s).state.mObjects = s.mObjects ++ decoded ∧
      (deserialize codecs (some bytes) s).state.animObjectUidCounter
        = advance s.animObjectUidCounter (decoded.map AnimObject.id) ∧
      (deserialize codecs (some bytes) s).state.animationUidCounter
        = advance s.animationUidCounter ((allAnimations decoded).map AnimationEx.id) ∧
      (∀ o ∈ decoded, isInt32 o.id) ∧ ∀ a ∈ allAnimations decoded, isInt32 a.id := by
    have hnil : ∃ decoded : List (AnimObject T L),
        s.mObjects = s.mObjects ++ decoded ∧
        s.animObjectUidCounter = advance s.animObjectUidCounter (decoded.map AnimObject.id) ∧
        s.animationUidCounter
          = advance s.animationUidCounter ((allAnimations decoded).map AnimationEx.id) ∧
        (∀ o ∈ decoded, isInt32 o.id) ∧ ∀ a ∈ allAnimations decoded, isInt32 a.id :=
      ⟨[], by simp, by simp [advance], by simp [advance, allAnimations], by simp,
        by simp [allAnimations]⟩
    unfold deserialize at hok ⊢
    simp only at hok ⊢
    cases hr1 : readU32 bytes with
    | error f => simp only [hr1] at hok; cases hok
    | ok v1 =>
      obtain ⟨magicNumber, m1⟩ := v1
      simp only [hr1] at hok ⊢
      cases hr2 : readU32 m1 with
      | error f => simp only [hr2] at hok; cases hok
      | ok v2 =>
        obtain ⟨serializerVersion, m2⟩ := v2
        simp only [hr2] at hok ⊢
        by_cases hm : magicNumber ≠ MAGIC_NUMBER
        · rw [if_pos hm] at hok; cases hok
        · rw [if_neg hm] at hok ⊢
          by_cases hv : ¬ (serializerVersion ≠ 0 ∧ serializerVersion ≤ SERIALIZER_VERSION)
          · rw [if_pos hv] at hok; cases hok
          · rw [if_neg hv] at hok ⊢
            by_cases h1 : serializerVersion = 1
            · rw [if_pos h1] at hok ⊢
              unfold deserializeAnimationManagerExV1 at hok ⊢
              cases hr3 : readU32 m2 with
              | error f => simp only [hr3] at hok; cases hok
              | ok v3 =>
                obtain ⟨numAnimations, m3⟩ := v3
                simp only [hr3] at hok ⊢
                exact deserializeObjects_counters codecs _ _ _ hok
            · rw [if_neg h1]; exact hnil
  obtain ⟨decoded, h1, h2, h3, h4, h5⟩ := key
  refine ⟨decoded, h1, ?_, ?_⟩
  · intro hlt
    have hmax := advance_isMaxWith (decoded.map AnimObject.id) s.animObjectUidCounter
      (by simpa using h4) (by simpa using hlt)
    rw [← h2, List.map_map] at hmax
    refine ⟨hmax, ?_⟩
    intro defaults type frameStart duration o ho
    have := hmax.2.1 (o.id + 1) (List.mem_map_of_mem (fun o => o.id + 1) ho)
    simp only [AnimObject.createDefault]
    omega
  · intro hlt
    have hmax := advance_isMaxWith ((allAnimations decoded).map AnimationEx.id)
      s.animationUidCounter (by simpa using h5) (by simpa using hlt)
    rw [← h3, List.map_map] at hmax
    refine ⟨hmax, ?_⟩
    intro type frameStart duration animObjectId a ha
    have := hmax.2.1 (a.id + 1) (List.mem_map_of_mem (fun a => a.id + 1) ha)
    simp only [AnimationEx.createDefault]
    omega

/-- C8, concrete check: loading a container with object ids 4 and 2 and
animation ids 1 and 0 into a fresh state. -/
theorem load_advances_counters_witness :
    ∃ decoded : List (AnimObject Unit Unit),
      (deserialize unitCodecs (some (serialize unitCodecs
          [sampleTextObject 4 (-3) 20 [sampleAnimation 1 4 7 2, sampleAnimation 0 4 0 9],
            sampleObject 2 (-5) 1 []]))
          { mObjects := [], animObjectUidCounter := 0, animationUidCounter := 0 }).state.mObjects
        = [] ++ decoded ∧
      ((∀ o ∈ decoded, o.id < 2 ^ 31 - 1) →
        IsMaxWith 0 (decoded.map (fun o => o.id + 1))
          (deserialize unitCodecs (some (serialize unitCodecs
            [sampleTextObject 4 (-3) 20 [sampleAnimation 1 4 7 2, sampleAnimation 0 4 0 9],
              sampleObject 2 (-5) 1 []]))
            { mObjects := [], animObjectUidCounter := 0,
              animationUidCounter := 0 }).state.animObjectUidCounter ∧
        ∀ (defaults : ObjectDefaults Unit Unit) (type : AnimObjectType)
          (frameStart duration : Int),
          ∀ o ∈ decoded,
            o.id < (AnimObject.createDefault defaults
              (deserialize unitCodecs (some (serialize unitCodecs
                [sampleTextObject 4 (-3) 20 [sampleAnimation 1 4 7 2, sampleAnimation 0 4 0 9],
                  sampleObject 2 (-5) 1 []]))
                { mObjects := [], animObjectUidCounter := 0,
                  animationUidCounter := 0 }).state.animObjectUidCounter
              type frameStart duration).1.id) ∧
      ((∀ a ∈ allAnimations decoded, a.id < 2 ^ 31 - 1) →
        IsMaxWith 0 ((allAnimations decoded).map (fun a => a.id + 1))
          (deserialize unitCodecs (some (serialize unitCodecs
            [sampleTextObject 4 (-3) 20 [sampleAnimation 1 4 7 2, sampleAnimation 0 4 0 9],
              sampleObject 2 (-5) 1 []]))
            { mObjects := [], animObjectUidCounter := 0,
              animationUidCounter := 0 }).state.animationUidCounter ∧
        ∀ (type : AnimTypeEx) (frameStart duration animObjectId : Int),
          ∀ a ∈ allAnimations decoded,
            a.id < (AnimationEx.createDefault
              (deserialize unitCodecs (some (serialize unitCodecs
                [sampleTextObject 4 (-3) 20 [sampleAnimation 1 4 7 2, sampleAnimation 0 4 0 9],
                  sampleObject 2 (-5) 1 []]))
                { mObjects := [], animObjectUidCounter := 0,
                  animationUidCounter := 0 }).state.animationUidCounter
              type frameStart duration animObjectId).1.id) :=
  load_advances_counters Unit Unit unitCodecs
    (serialize unitCodecs
      [sampleTextObject 4 (-3) 20 [sampleAnimation 1 4 7 2, sampleAnimation 0 4 0 9],
        sampleObject 2 (-5) 1 []])
    { mObjects := [], animObjectUidCounter := 0, animationUidCounter := 0 } (by decide)

end AllocatorClaims

section IdLemmas

variable {T L : Type}

theorem perm_cons_eraseIdx {α : Type} (l : List α) :
    ∀ (i : Nat) (a : α), l[i]? = some a → (a :: l.eraseIdx i).Perm l := by
  induction l with
  | nil => intro i a h; simp at h
  | cons b rest ih =>
    intro i a h
    cases i with
    | zero =>
      simp only [List.getElem?_cons_zero, Option.some.injEq] at h
      subst h
      exact List.Perm.refl _
    | succ k =>
      simp only [List.getElem?_cons_succ] at h
      simp only [List.eraseIdx_cons_succ]
      exact (List.Perm.swap b a _).trans ((ih k a h).cons b)

theorem addAnimObject_perm (o : AnimObject T L) (l : List (AnimObject T L)) :
    (addAnimObject o l).Perm (o :: l) := by
  induction l with
  | nil => exact List.Perm.refl _
  | cons z rest ih =>
    unfold addAnimObject
    split
    · exact List.Perm.refl _
    · exact (ih.cons z).trans (List.Perm.swap o z rest)

theorem insertAnimation_perm (a : AnimationEx) (l : List AnimationEx) :
    (insertAnimation a l).Perm (a :: l) := by
  induction l with
  | nil => exact List.Perm.refl _
  | cons z rest ih =>
    unfold insertAnimation
    split
    · exact List.Perm.refl _
    · exact (ih.cons z).trans (List.Perm.swap a z rest)

theorem allAnimations_append (l1 l2 : List (AnimObject T L)) :
    allAnimations (l1 ++ l2) = allAnimations l1 ++ allAnimations l2 := by
  induction l1 with
  | nil => rfl
  | cons o rest ih => simp [allAnimations, ih]

theorem allAnimations_perm (l1 l2 : List (AnimObject T L)) (h : l1.Perm l2) :
    (allAnimations l1).Perm (allAnimations l2) := by
  induction h with
  | nil => exact List.Perm.refl _
  | cons x _ ih => exact List.Perm.append (List.Perm.refl _) ih
  | swap x y l =>
    simp only [allAnimations, ← List.append_assoc]
    exact List.Perm.append List.perm_append_comm (List.Perm.refl _)
  | trans _ _ ih1 ih2 => exact ih1.trans ih2

theorem allAnimations_sublist (l1 l2 : List (AnimObject T L)) (h : l1.Sublist l2) :
    (allAnimations l1).Sublist (allAnimations l2) := by
  induction h with
  | slnil => exact List.Sublist.refl _
  | cons x _ ih => exact ih.trans (List.sublist_append_right _ _)
  | cons₂ x _ ih => exact List.Sublist.append (List.Sublist.refl _) ih

theorem objectIds_append (l1 l2 : List (AnimObject T L)) :
    objectIds (l1 ++ l2) = objectIds l1 ++ objectIds l2 := by
  simp [objectIds]

theorem animationIds_append (l1 l2 : List (AnimObject T L)) :
    animationIds (l1 ++ l2) = animationIds l1 ++ animationIds l2 := by
  simp [animationIds, allAnimations_append]

theorem animationIds_cons (o : AnimObject T L) (l : List (AnimObject T L)) :
    animationIds (o :: l) = o.animations.map AnimationEx.id ++ animationIds l := by
  simp [animationIds, allAnimations]

theorem idsWithin_addAnimationToId (a : AnimationEx) (animObjectId : Int)
    (l : List (AnimObject T L)) : IdsWithin [a.id] l (addAnimationToId a animObjectId l) := by
  induction l with
  | nil => exact ⟨fun x => Nat.le_refl _, fun x => by simp [addAnimationToId, animationIds, allAnimations]⟩
  | cons z rest ih =>
    unfold addAnimationToId
    split
    · refine ⟨fun x => ?_, fun x => ?_⟩
      · have := ih.1 x
        simp only [objectIds, List.map_cons, List.count_cons] at this ⊢
        omega
      · have := ih.2 x
        simp only [animationIds_cons, List.count_append] at this ⊢
        omega
    · refine ⟨fun x => by simp [objectIds], fun x => ?_⟩
      simp only [animationIds_cons, List.count_append]
      have := ((insertAnimation_perm a z.animations).map AnimationEx.id).count_eq x
      simp only [List.map_cons, List.count_cons] at this
      simp only [List.count_cons, List.count_nil] at this ⊢
      omega

theorem idsWithin_set (a : AnimationEx) (l : List (AnimObject T L)) :
    ∀ (i : Nat) (o : AnimObject T L), l[i]? = some o →
      IdsWithin [a.id] l (l.set i (addAnimationTo a o)) := by
  induction l with
  | nil => intro i o h; simp at h
  | cons z rest ih =>
    intro i o h
    cases i with
    | zero =>
      simp only [List.getElem?_cons_zero, Option.some.injEq] at h
      subst h
      refine ⟨fun x => by simp [objectIds, addAnimationTo], fun x => ?_⟩
      simp only [List.set_cons_zero, animationIds_cons, List.count_append, addAnimationTo]
      have := ((insertAnimation_perm a z.animations).map AnimationEx.id).count_eq x
      simp only [List.map_cons, List.count_cons] at this
      simp only [List.count_cons, List.count_nil] at this ⊢
      omega
    | succ k =>
      simp only [List.getElem?_cons_succ] at h
      obtain ⟨h1, h2⟩ := ih k o h
      refine ⟨fun x => ?_, fun x => ?_⟩
      · have := h1 x
        simp only [List.set_cons_succ, objectIds, List.map_cons, List.count_cons] at this ⊢
        omega
      · have := h2 x
        simp only [List.set_cons_succ, animationIds_cons, List.count_append] at this ⊢
        omega

theorem idsWithin_of_sublist (l l' : List (AnimObject T L)) (h : l'.Sublist l) :
    IdsWithin [] l l' := by
  refine ⟨fun x => (h.map AnimObject.id).count_le x, fun x => ?_⟩
  have := ((allAnimations_sublist _ _ h).map AnimationEx.id).count_le x
  simp only [animationIds, List.count_nil] at this ⊢
  omega

theorem idsWithin_removeAnimationFrom (animObjectId animationId : Int)
    (l : List (AnimObject T L)) :
    ∀ (i : Nat) (l' : List (AnimObject T L)) (b : Bool),
      removeAnimationFrom animObjectId animationId i l = Except.ok (b, l') →
      IdsWithin [] l l' := by
  induction l with
  | nil =>
    intro i l' b h
    simp only [removeAnimationFrom, Except.ok.injEq, Prod.mk.injEq] at h
    rw [← h.2]
    exact ⟨fun x => Nat.le_refl _, fun x => by simp⟩
  | cons z rest ih =>
    intro i l' b h
    have hcont : ∀ l' b, (match removeAnimationFrom animObjectId animationId (i + 1) rest with
        | Except.ok (found, rest') => Except.ok (found, z :: rest')
        | Except.error f => Except.error f) = Except.ok (b, l') →
        IdsWithin [] (z :: rest) l' := by
      intro l' b h
      split at h
      · rename_i found rest' hr
        simp only [Except.ok.injEq, Prod.mk.injEq] at h
        rw [← h.2]
        obtain ⟨h1, h2⟩ := ih (i + 1) rest' found hr
        refine ⟨fun x => ?_, fun x => ?_⟩
        · have := h1 x
          simp only [objectIds, List.map_cons, List.count_cons] at this ⊢
          omega
        · have := h2 x
          simp only [animationIds_cons, List.count_append, List.count_nil] at this ⊢
          omega
      · cases h
    unfold removeAnimationFrom at h
    simp only at h
    split at h
    · split at h
      · split at h
        · cases h
        · split at h
          · simp only [Except.ok.injEq, Prod.mk.injEq] at h
            rw [← h.2]
            refine ⟨fun x => by simp [objectIds], fun x => ?_⟩
            simp only [animationIds_cons, List.count_append, List.count_nil, Nat.zero_add]
            exact Nat.add_le_add_right
              (((List.eraseIdx_sublist z.animations _).map AnimationEx.id).count_le x) _
          · cases h
      · exact hcont l' b h
    · exact hcont l' b h

theorem idsWithin_setAnimObjectTime (animObjectId frameStart duration : Int)
    (l : List (AnimObject T L)) :
    IdsWithin [] l (setAnimObjectTime animObjectId frameStart duration l).2 := by
  have hrefl : IdsWithin [] l l := ⟨fun x => Nat.le_refl _, fun x => by simp⟩
  unfold setAnimObjectTime
  split
  · exact hrefl
  · rename_i objectIndex animObject hf
    split
    · exact hrefl
    · obtain ⟨hget, _⟩ := findObject_some _ _ _ _ hf
      have hp := perm_cons_eraseIdx l objectIndex animObject hget
      have hadd := addAnimObject_perm
        ({ animObject with frameStart := frameStart, duration := duration } : AnimObject T L)
        (l.eraseIdx objectIndex)
      refine ⟨fun x => ?_, fun x => ?_⟩
      · have e1 := (hadd.map AnimObject.id).count_eq x
        have e2 := (hp.map AnimObject.id).count_eq x
        simp only [objectIds, List.map_cons] at e1 e2 ⊢
        rw [e1, ← e2]
      · have e1 := ((allAnimations_perm _ _ hadd).map AnimationEx.id).count_eq x
        have e2 := ((allAnimations_perm _ _ hp).map AnimationEx.id).count_eq x
        simp only [animationIds, allAnimations, List.count_nil, Nat.zero_add] at e1 e2 ⊢
        rw [e1, ← e2]

theorem idsWithin_setAnimationTime (animObjectId animationId frameStart duration : Int)
    (l : List (AnimObject T L)) :
    IdsWithin [] l (setAnimationTime animObjectId animationId frameStart duration l).2 := by
  induction l with
  | nil => exact ⟨fun x => Nat.le_refl _, fun x => by simp [setAnimationTime]⟩
  | cons z rest ih =>
    have hcont : IdsWithin [] (z :: rest)
        ((setAnimationTime animObjectId animationId frameStart duration rest).1,
          z :: (setAnimationTime animObjectId animationId frameStart duration rest).2).2 := by
      refine ⟨fun x => ?_, fun x => ?_⟩
      · have := ih.1 x
        simp only [objectIds, List.map_cons, List.count_cons] at this ⊢
        omega
      · have := ih.2 x
        simp only [animationIds_cons, List.count_append, List.count_nil] at this ⊢
        omega
    unfold setAnimationTime
    simp only
    split
    · split
      · rename_i animationIndex animation hf
        split
        · exact ⟨fun x => Nat.le_refl _, fun x => by simp⟩
        · obtain ⟨hget, _⟩ := findAnimation_some _ _ _ _ hf
          have hp := perm_cons_eraseIdx z.animations animationIndex animation hget
          have hins := insertAnimation_perm
            ({ animation with frameStart := frameStart, duration := duration } : AnimationEx)
            (z.animations.eraseIdx animationIndex)
          refine ⟨fun x => by simp [objectIds, addAnimationTo], fun x => ?_⟩
          have e1 := (hins.map AnimationEx.id).count_eq x
          have e2 := (hp.map AnimationEx.id).count_eq x
          simp only [List.map_cons] at e1 e2
          simp only [animationIds_cons, List.count_append, List.count_nil, addAnimationTo,
            Nat.zero_add]
          rw [e1, ← e2]
      · exact hcont
    · exact hcont

theorem idsWithin_setAnimObjectTrack (animObjectId track : Int) (l : List (AnimObject T L)) :
    IdsWithin [] l (setAnimObjectTrack animObjectId track l) := by
  induction l with
  | nil => exact ⟨fun x => Nat.le_refl _, fun x => by simp [setAnimObjectTrack]⟩
  | cons z rest ih =>
    unfold setAnimObjectTrack
    split
    · exact ⟨fun x => by simp [objectIds], fun x => by simp [animationIds_cons]⟩
    · refine ⟨fun x => ?_, fun x => ?_⟩
      · have := ih.1 x
        simp only [objectIds, List.map_cons, List.count_cons] at this ⊢
        omega
      · have := ih.2 x
        simp only [animationIds_cons, List.count_append, List.count_nil] at this ⊢
        omega

end IdLemmas

section AllocatorInvariant

variable {T L : Type}

theorem sessionInv_of_idsWithin (s : Session T L) (extra : List Int)
    (m' : List (AnimObject T L)) (na' : List AnimationEx) (h : SessionInv s)
    (hids : IdsWithin extra s.manager.mObjects m')
    (hna : ∀ x, extra.count x + (na'.map AnimationEx.id).count x
      ≤ (s.newAnimations.map AnimationEx.id).count x) :
    SessionInv { s with manager := { s.manager with mObjects := m' }, newAnimations := na' } := by
  obtain ⟨h1, h2, h3, h4, h5, h6, h7, h8, h9⟩ := h
  refine ⟨h1, h2, h3, h4, h5, h6, ?_, ?_, h9⟩
  · intro x
    have a1 := hids.1 x
    have a2 := h7 x
    simp only [objectIds_append, List.count_append] at a2 ⊢
    omega
  · intro x
    have a1 := hids.2 x
    have a2 := h8 x
    have a3 := hna x
    simp only [animationIds_append, List.count_append] at a2 ⊢
    omega

theorem idsWithin_refl (l : List (AnimObject T L)) : IdsWithin [] l l :=
  ⟨fun _ => Nat.le_refl _, fun x => by simp⟩

theorem count_map_eraseIdx (na : List AnimationEx) (k : Nat) (a : AnimationEx)
    (h : na[k]? = some a) (x : Int) :
    [a.id].count x + ((na.eraseIdx k).map AnimationEx.id).count x
      = (na.map AnimationEx.id).count x := by
  have := ((perm_cons_eraseIdx na k a h).map AnimationEx.id).count_eq x
  simp only [List.map_cons, List.count_cons, List.count_nil] at this ⊢
  omega

theorem sessionInv_step (s s' : Session T L) (op : SessionOp T L) (h : SessionInv s)
    (hno : op.NoOverflow s) (happ : op.apply s = Except.ok s') : SessionInv s' := by
  have hsame : ∀ m' : List (AnimObject T L), IdsWithin [] s.manager.mObjects m' →
      SessionInv (s.withObjects m') := by
    intro m' hm
    have := sessionInv_of_idsWithin s [] m' s.newAnimations h hm (fun x => by simp)
    exact this
  cases op with
  | createObject defaults type frameStart duration =>
    obtain ⟨h1, h2, h3, h4, h5, h6, h7, h8, h9⟩ := h
    simp only [SessionOp.NoOverflow] at hno
    simp only [SessionOp.apply, Except.ok.injEq] at happ
    subst happ
    have hw : wrapInt32 (s.manager.animObjectUidCounter + 1)
        = s.manager.animObjectUidCounter + 1 := by
      apply wrapInt32_of_isInt32
      unfold isInt32
      omega
    refine ⟨?_, h2, ?_, h4, ?_, h6, ?_, ?_, ?_⟩
    · simp only [AnimObject.createDefault, hw]; omega
    · simp only [AnimObject.createDefault]
      refine List.nodup_cons.2 ⟨fun hmem => ?_, h3⟩
      have := h5 _ hmem
      omega
    · intro i hi
      simp only [AnimObject.createDefault, hw] at hi ⊢
      rcases List.mem_cons.1 hi with rfl | hi
      · omega
      · have := h5 i hi; omega
    · intro x
      have := h7 x
      simp only [AnimObject.createDefault]
      rw [← List.append_assoc, objectIds_append, List.count_append]
      simp only [objectIds, List.map_cons, List.map_nil, List.count_cons, List.count_nil]
        at this ⊢
      omega
    · intro x
      have := h8 x
      simp only [AnimObject.createDefault]
      rw [← List.append_assoc, animationIds_append]
      simp only [animationIds, allAnimations, List.map_nil, List.append_nil] at this ⊢
      exact this
    · intro o ho
      rcases List.mem_append.1 ho with ho | ho
      · exact h9 o ho
      · simp only [List.mem_singleton] at ho
        subst ho
        rfl
  | createAnimation type frameStart duration animObjectId =>
    obtain ⟨h1, h2, h3, h4, h5, h6, h7, h8, h9⟩ := h
    simp only [SessionOp.NoOverflow] at hno
    simp only [SessionOp.apply, Except.ok.injEq] at happ
    subst happ
    have hw : wrapInt32 (s.manager.animationUidCounter + 1)
        = s.manager.animationUidCounter + 1 := by
      apply wrapInt32_of_isInt32
      unfold isInt32
      omega
    refine ⟨h1, ?_, h3, ?_, h5, ?_, h7, ?_, h9⟩
    · simp only [AnimationEx.createDefault, hw]; omega
    · simp only [AnimationEx.createDefault]
      refine List.nodup_cons.2 ⟨fun hmem => ?_, h4⟩
      have := h6 _ hmem
      omega
    · intro i hi
      simp only [AnimationEx.createDefault, hw] at hi ⊢
      rcases List.mem_cons.1 hi with rfl | hi
      · omega
      · have := h6 i hi; omega
    · intro x
      have := h8 x
      simp only [AnimationEx.createDefault, List.count_append, List.map_append, List.map_cons,
        List.map_nil, List.count_cons, List.count_nil] at this ⊢
      omega
  | addAnimObject k =>
    simp only [SessionOp.apply] at happ
    split at happ
    · rename_i o hget
      simp only [Except.ok.injEq] at happ
      subst happ
      obtain ⟨h1, h2, h3, h4, h5, h6, h7, h8, h9⟩ := h
      have hp := perm_cons_eraseIdx s.newObjects k o hget
      have hadd := addAnimObject_perm o s.manager.mObjects
      have hall : (MathAnim.addAnimObject o s.manager.mObjects ++ s.newObjects.eraseIdx k).Perm
          (s.manager.mObjects ++ s.newObjects) := by
        refine (List.Perm.append hadd (List.Perm.refl _)).trans ?_
        refine List.Perm.trans ?_ (List.Perm.append (List.Perm.refl _) hp)
        simp only [List.cons_append]
        exact List.perm_middle.symm
      refine ⟨h1, h2, h3, h4, h5, h6, ?_, ?_, ?_⟩
      · intro x
        have e := (hall.map AnimObject.id).count_eq x
        have := h7 x
        simp only [objectIds] at this ⊢
        omega
      · intro x
        have e := ((allAnimations_perm _ _ hall).map AnimationEx.id).count_eq x
        have := h8 x
        simp only [animationIds, List.count_append] at this ⊢
        omega
      · intro p hp'
        exact h9 p (List.mem_of_mem_eraseIdx hp')
    · simp only [Except.ok.injEq] at happ
      subst happ; exact h
  | addAnimationTo k animObjectId =>
    simp only [SessionOp.apply] at happ
    split at happ
    · rename_i a hget
      simp only [Except.ok.injEq] at happ
      subst happ
      exact sessionInv_of_idsWithin s [a.id] _ _ h (idsWithin_addAnimationToId a animObjectId _)
        (fun x => Nat.le_of_eq (count_map_eraseIdx s.newAnimations k a hget x))
    · simp only [Except.ok.injEq] at happ
      subst happ; exact h
  | addAnimationToRef k index =>
    simp only [SessionOp.apply] at happ
    split at happ
    · rename_i a o hget hgeto
      simp only [Except.ok.injEq] at happ
      subst happ
      exact sessionInv_of_idsWithin s [a.id] _ _ h (idsWithin_set a _ index o hgeto)
        (fun x => Nat.le_of_eq (count_map_eraseIdx s.newAnimations k a hget x))
    · simp only [Except.ok.injEq] at happ
      subst happ; exact h
  | removeAnimObject animObjectId =>
    simp only [SessionOp.apply] at happ
    cases hr : MathAnim.removeAnimObject animObjectId s.manager.mObjects with
    | error f => simp [hr, Except.map] at happ
    | ok r =>
      obtain ⟨b, l'⟩ := r
      simp only [hr, Except.map, Except.ok.injEq] at happ
      subst happ
      exact hsame l' (idsWithin_of_sublist _ _ (removeAnimObject_sublist _ _ _ _ hr))
  | removeAnimation animObjectId animationId =>
    simp only [SessionOp.apply] at happ
    cases hr : MathAnim.removeAnimation animObjectId animationId s.manager.mObjects with
    | error f => simp [hr, Except.map] at happ
    | ok r =>
      obtain ⟨b, l'⟩ := r
      simp only [hr, Except.map, Except.ok.injEq] at happ
      subst happ
      exact hsame l' (idsWithin_removeAnimationFrom _ _ _ _ _ _ hr)
  | setAnimObjectTime animObjectId frameStart duration =>
    simp only [SessionOp.apply, Except.ok.injEq] at happ
    subst happ
    exact hsame _ (idsWithin_setAnimObjectTime _ _ _ _)
  | setAnimationTime animObjectId animationId frameStart duration =>
    simp only [SessionOp.apply, Except.ok.injEq] at happ
    subst happ
    exact hsame _ (idsWithin_setAnimationTime _ _ _ _ _)
  | setAnimObjectTrack animObjectId track =>
    simp only [SessionOp.apply, Except.ok.injEq] at happ
    subst happ
    exact hsame _ (idsWithin_setAnimObjectTrack _ _ _)

theorem sessionInv_of_reachable (s : Session T L) (h : SessionReachable s) : SessionInv s := by
  induction h with
  | initial =>
    refine ⟨le_refl _, le_refl _, List.nodup_nil, List.nodup_nil, ?_, ?_, ?_, ?_, ?_⟩ <;>
      simp [Session.initial, objectIds, animationIds, allAnimations]
  | step op _ hno happ ih => exact sessionInv_step _ _ op ih hno happ

theorem nodup_of_count_le {l issued : List Int} (hn : issued.Nodup)
    (h : ∀ x, l.count x ≤ issued.count x) : l.Nodup := by
  rw [List.nodup_iff_count_le_one]
  intro x
  exact le_trans (h x) (List.nodup_iff_count_le_one.1 hn x)

theorem iterate_createDefault (n : Nat) :
    Nat.iterate (fun c => (AnimationEx.createDefault c AnimTypeEx.None 0 0 0).2) n 0
      = wrapInt32 n := by
  induction n with
  | zero => rfl
  | succ k ih =>
    rw [Function.iterate_succ_apply', ih]
    simp only [AnimationEx.createDefault, wrapInt32]
    push_cast
    omega

theorem reachable_of_runOps (ops : List (SessionOp T L)) :
    ∀ s s' : Session T L, SessionReachable s → runOps ops s = some s' → SessionReachable s' := by
  induction ops with
  | nil =>
    intro s s' hs h
    simp only [runOps, Option.some.injEq] at h
    subst h; exact hs
  | cons op rest ih =>
    intro s s' hs h
    unfold runOps at h
    split at h
    · rename_i hno
      split at h
      · rename_i s1 happ
        exact ih s1 s' (SessionReachable.step op hs hno happ) h
      · cases h
    · cases h

end AllocatorInvariant

section AllocatorUniqueness

/-- C9 as stated fails at the top of the `int` range: called with the counter
at `2^31 - 1`, `AnimObject::createDefault` returns that id and leaves the
counter at `-2^31`, not one higher; and `2^32` calls of
`AnimationEx::createDefault` from the initial counter 0 bring the counter
back to 0, so the next call hands out id 0 a second time. -/
theorem uid_allocation_counterexample :
    (AnimObject.createDefault unitDefaults 2147483647 AnimObjectType.None 0 0).1.id
        = 2147483647 ∧
      (AnimObject.createDefault unitDefaults 2147483647 AnimObjectType.None 0 0).2
        = -2147483648 ∧
      Nat.iterate (fun c => (AnimationEx.createDefault c AnimTypeEx.None 0 0 0).2) (2 ^ 32) 0 = 0 ∧
      (AnimationEx.createDefault 0 AnimTypeEx.None 0 0 0).1.id = 0 := by
  refine ⟨by decide, by decide, ?_, rfl⟩
  rw [iterate_createDefault]
  decide

/-- C9 (id uniqueness through the allocator), amended. Each `createDefault`
returns the current value of its own counter as the new id and, while that
counter is non-negative and below `2^31 - 1`, leaves it one higher; creating
an object leaves the animation counter alone and vice versa, and no other
operation changes a counter. Therefore, in every state reached from the empty
registry with counters 0 by creating objects and animations with
`createDefault` (while the counters stay below `2^31 - 1`), adding each at
most once, and arbitrary removals, retimes and track changes: object ids in
the registry are pairwise distinct, animation ids are pairwise distinct
across all objects, and no id has been handed out twice, so an id freed by a
removal is not handed out again. -/
theorem uid_allocation_unique (T L : Type) :
    (∀ (defaults : ObjectDefaults T L) (c : Int) (type : AnimObjectType) (frameStart duration : Int),
        (AnimObject.createDefault defaults c type frameStart duration).1.id = c ∧
        (0 ≤ c → c < 2 ^ 31 - 1 →
          (AnimObject.createDefault defaults c type frameStart duration).2 = c + 1)) ∧
    (∀ (c : Int) (type : AnimTypeEx) (frameStart duration animObjectId : Int),
        (AnimationEx.createDefault c type frameStart duration animObjectId).1.id = c ∧
        (0 ≤ c → c < 2 ^ 31 - 1 →
          (AnimationEx.createDefault c type frameStart duration animObjectId).2 = c + 1)) ∧
    (∀ (s s' : Session T L) (op : SessionOp T L), op.apply s = Except.ok s' →
        (op.isCreate = false →
          s'.manager.animObjectUidCounter = s.manager.animObjectUidCounter ∧
          s'.manager.animationUidCounter = s.manager.animationUidCounter) ∧
        (∀ defaults type frameStart duration,
          op = SessionOp.createObject defaults type frameStart duration →
          s'.manager.animationUidCounter = s.manager.animationUidCounter) ∧
        (∀ type frameStart duration animObjectId,
          op = SessionOp.createAnimation type frameStart duration animObjectId →
          s'.manager.animObjectUidCounter = s.manager.animObjectUidCounter)) ∧
    (∀ s : Session T L, SessionReachable s →
        UniqueObjectIds s.manager.mObjects ∧ (animationIds s.manager.mObjects).Nodup ∧
        s.issuedObjectIds.Nodup ∧ s.issuedAnimationIds.Nodup) := by
  refine ⟨?_, ?_, ?_, ?_⟩
  · intro defaults c type frameStart duration
    refine ⟨rfl, fun h0 h1 => ?_⟩
    simp only [AnimObject.createDefault]
    apply wrapInt32_of_isInt32
    unfold isInt32
    omega
  · intro c type frameStart duration animObjectId
    refine ⟨rfl, fun h0 h1 => ?_⟩
    simp only [AnimationEx.createDefault]
    apply wrapInt32_of_isInt32
    unfold isInt32
    omega
  · intro s s' op happ
    cases op with
    | createObject defaults type frameStart duration =>
      simp only [SessionOp.apply, Except.ok.injEq] at happ
      subst happ
      simp [SessionOp.isCreate]
    | createAnimation type frameStart duration animObjectId =>
      simp only [SessionOp.apply, Except.ok.injEq] at happ
      subst happ
      simp [SessionOp.isCreate]
    | addAnimObject k =>
      simp only [SessionOp.apply] at happ
      split at happ <;>
        (simp only [Except.ok.injEq] at happ; subst happ; simp)
    | addAnimationTo k animObjectId =>
      simp only [SessionOp.apply] at happ
      split at happ <;>
        (simp only [Except.ok.injEq] at happ; subst happ; simp)
    | addAnimationToRef k index =>
      simp only [SessionOp.apply] at happ
      split at happ <;>
        (simp only [Except.ok.injEq] at happ; subst happ; simp)
    | removeAnimObject animObjectId =>
      simp only [SessionOp.apply] at happ
      cases hr : MathAnim.removeAnimObject animObjectId s.manager.mObjects with
      | error f => simp [hr, Except.map] at happ
      | ok r =>
        simp only [hr, Except.map, Except.ok.injEq] at happ
        subst happ
        simp [Session.withObjects]
    | removeAnimation animObjectId animationId =>
      simp only [SessionOp.apply] at happ
      cases hr : MathAnim.removeAnimation animObjectId animationId s.manager.mObjects with
      | error f => simp [hr, Except.map] at happ
      | ok r =>
        simp only [hr, Except.map, Except.ok.injEq] at happ
        subst happ
        simp [Session.withObjects]
    | setAnimObjectTime animObjectId frameStart duration =>
      simp only [SessionOp.apply, Except.ok.injEq] at happ
      subst happ
      simp [Session.withObjects]
    | setAnimationTime animObjectId animationId frameStart duration =>
      simp only [SessionOp.apply, Except.ok.injEq] at happ
      subst happ
      simp [Session.withObjects]
    | setAnimObjectTrack animObjectId track =>
      simp only [SessionOp.apply, Except.ok.injEq] at happ
      subst happ
      simp [Session.withObjects]
  · intro s hs
    obtain ⟨_, _, h3, h4, _, _, h7, h8, _⟩ := sessionInv_of_reachable s hs
    refine ⟨?_, ?_, h3, h4⟩
    · apply nodup_of_count_le h3
      intro x
      have := h7 x
      rw [objectIds_append, List.count_append] at this
      show (objectIds s.manager.mObjects).count x ≤ _
      omega
    · apply nodup_of_count_le h4
      intro x
      have := h8 x
      simp only [animationIds_append, List.count_append] at this ⊢
      omega

/-- C9, concrete check: after creating and adding an object (id 0), removing
it, creating and adding a second object and attaching a new animation to it,
the registry holds the single id 1, the freed id 0 was not handed out again,
and the ids handed out, 0 and 1, are distinct. -/
theorem uid_allocation_unique_witness :
    runOps sampleOps Session.initial = some sampleSession ∧
      UniqueObjectIds sampleSession.manager.mObjects ∧
      (animationIds sampleSession.manager.mObjects).Nodup ∧
      sampleSession.issuedObjectIds.Nodup ∧ sampleSession.issuedAnimationIds.Nodup :=
  ⟨rfl, (uid_allocation_unique Unit Unit).2.2.2 sampleSession
    (reachable_of_runOps sampleOps Session.initial sampleSession SessionReachable.initial rfl)⟩

end AllocatorUniqueness

section RetimeLemmas

variable {T L : Type}

theorem findObject_of_first (l : List (AnimObject T L)) :
    ∀ (k : Nat) (o : AnimObject T L), l[k]? = some o → (∀ p ∈ l.take k, p.id ≠ o.id) →
      findObject o.id l = some (k, o) := by
  induction l with
  | nil => intro k o h; simp at h
  | cons z rest ih =>
    intro k o h hb
    cases k with
    | zero =>
      simp only [List.getElem?_cons_zero, Option.some.injEq] at h
      subst h
      simp [findObject]
    | succ n =>
      simp only [List.getElem?_cons_succ] at h
      have hz : z.id ≠ o.id := hb z (by simp)
      have hrest : ∀ p ∈ rest.take n, p.id ≠ o.id := fun p hp => hb p (by simp [hp])
      simp [findObject, hz, ih n o h hrest]

theorem findAnimation_of_first (l : List AnimationEx) :
    ∀ (k : Nat) (a : AnimationEx), l[k]? = some a → (∀ p ∈ l.take k, p.id ≠ a.id) →
      findAnimation a.id l = some (k, a) := by
  induction l with
  | nil => intro k a h; simp at h
  | cons z rest ih =>
    intro k a h hb
    cases k with
    | zero =>
      simp only [List.getElem?_cons_zero, Option.some.injEq] at h
      subst h
      simp [findAnimation]
    | succ n =>
      simp only [List.getElem?_cons_succ] at h
      have hz : z.id ≠ a.id := hb z (by simp)
      have hrest : ∀ p ∈ rest.take n, p.id ≠ a.id := fun p hp => hb p (by simp [hp])
      simp [findAnimation, hz, ih n a h hrest]

theorem take_ne_of_nodup_map {α : Type} (key : α → Int) (l : List α) :
    ∀ (k : Nat) (o : α), (l.map key).Nodup → l[k]? = some o →
      ∀ p ∈ l.take k, key p ≠ key o := by
  induction l with
  | nil => intro k o _ h; simp at h
  | cons z rest ih =>
    intro k o hu h p hp
    rw [List.map_cons, List.nodup_cons] at hu
    cases k with
    | zero => simp at hp
    | succ n =>
      simp only [List.getElem?_cons_succ] at h
      simp only [List.take_succ_cons, List.mem_cons] at hp
      rcases hp with rfl | hp
      · intro heq
        apply hu.1
        rw [heq]
        exact List.mem_map_of_mem key (List.getElem?_mem h)
      · exact ih n o hu.2 h p hp

theorem findObject_none (i : Int) (l : List (AnimObject T L)) (h : ∀ o ∈ l, o.id ≠ i) :
    findObject i l = none := by
  induction l with
  | nil => rfl
  | cons z rest ih =>
    have hz := h z (List.mem_cons_self _ _)
    simp [findObject, hz, ih (fun o ho => h o (List.mem_cons_of_mem _ ho))]

theorem findAnimation_none (i : Int) (l : List AnimationEx) (h : ∀ a ∈ l, a.id ≠ i) :
    findAnimation i l = none := by
  induction l with
  | nil => rfl
  | cons z rest ih =>
    have hz := h z (List.mem_cons_self _ _)
    simp [findAnimation, hz, ih (fun o ho => h o (List.mem_cons_of_mem _ ho))]

theorem findObject_isSome (i : Int) (l : List (AnimObject T L)) (h : ∃ o ∈ l, o.id = i) :
    ∃ k o, findObject i l = some (k, o) := by
  induction l with
  | nil => obtain ⟨o, ho, _⟩ := h; cases ho
  | cons z rest ih =>
    by_cases hz : z.id = i
    · exact ⟨0, z, by simp [findObject, hz]⟩
    · obtain ⟨o, ho, hid⟩ := h
      rcases List.mem_cons.1 ho with rfl | ho
      · exact absurd hid hz
      · obtain ⟨k, o', hk⟩ := ih ⟨o, ho, hid⟩
        exact ⟨k + 1, o', by simp [findObject, hz, hk]⟩

theorem findAnimation_isSome (i : Int) (l : List AnimationEx) (h : ∃ a ∈ l, a.id = i) :
    ∃ k a, findAnimation i l = some (k, a) := by
  induction l with
  | nil => obtain ⟨o, ho, _⟩ := h; cases ho
  | cons z rest ih =>
    by_cases hz : z.id = i
    · exact ⟨0, z, by simp [findAnimation, hz]⟩
    · obtain ⟨o, ho, hid⟩ := h
      rcases List.mem_cons.1 ho with rfl | ho
      · exact absurd hid hz
      · obtain ⟨k, o', hk⟩ := ih ⟨o, ho, hid⟩
        exact ⟨k + 1, o', by simp [findAnimation, hz, hk]⟩

theorem setAnimationTime_absent (animObjectId animationId frameStart duration : Int)
    (l : List (AnimObject T L))
    (h : ∀ o ∈ l, o.id = animObjectId → ∀ a ∈ o.animations, a.id ≠ animationId) :
    setAnimationTime animObjectId animationId frameStart duration l = (false, l) := by
  induction l with
  | nil => rfl
  | cons z rest ih =>
    have ih' := ih (fun o ho => h o (List.mem_cons_of_mem _ ho))
    unfold setAnimationTime
    simp only [ih']
    split
    · rename_i hz
      rw [findAnimation_none animationId z.animations (h z (List.mem_cons_self _ _) hz)]
    · rfl

theorem setAnimationTime_found (animObjectId animationId frameStart duration : Int)
    (l : List (AnimObject T L))
    (h : ∃ o ∈ l, o.id = animObjectId ∧ ∃ a ∈ o.animations, a.id = animationId) :
    (setAnimationTime animObjectId animationId frameStart duration l).1 = true := by
  induction l with
  | nil => obtain ⟨o, ho, _⟩ := h; cases ho
  | cons z rest ih =>
    unfold setAnimationTime
    simp only
    by_cases hz : z.id = animObjectId
    · rw [if_pos hz]
      cases hf : findAnimation animationId z.animations with
      | some r =>
        obtain ⟨j, a⟩ := r
        simp only
        split <;> rfl
      | none =>
        simp only
        obtain ⟨o, ho, hid, a, ha, haid⟩ := h
        rcases List.mem_cons.1 ho with rfl | ho
        · obtain ⟨k, a', hk⟩ := findAnimation_isSome animationId o.animations ⟨a, ha, haid⟩
          rw [hk] at hf
          cases hf
        · exact ih ⟨o, ho, hid, a, ha, haid⟩
    · rw [if_neg hz]
      obtain ⟨o, ho, hid, a, ha, haid⟩ := h
      rcases List.mem_cons.1 ho with rfl | ho
      · exact absurd hid hz
      · exact ih ⟨o, ho, hid, a, ha, haid⟩

theorem setAnimationTime_at (animObjectId animationId frameStart duration : Int)
    (l : List (AnimObject T L)) :
    ∀ (k : Nat) (o : AnimObject T L) (j : Nat) (a : AnimationEx),
      l[k]? = some o → o.id = animObjectId → (∀ p ∈ l.take k, p.id ≠ animObjectId) →
      findAnimation animationId o.animations = some (j, a) →
      setAnimationTime animObjectId animationId frameStart duration l
        = if a.frameStart = frameStart ∧ a.duration = duration then (true, l)
          else (true, l.set k
            (addAnimationTo { a with frameStart := frameStart, duration := duration }
              { o with animations := o.animations.eraseIdx j })) := by
  induction l with
  | nil => intro k o j a h; simp at h
  | cons z rest ih =>
    intro k o j a h hid hb hf
    cases k with
    | zero =>
      simp only [List.getElem?_cons_zero, Option.some.injEq] at h
      subst h
      unfold setAnimationTime
      simp only [hid, if_true, hf, List.set_cons_zero]
    | succ n =>
      simp only [List.getElem?_cons_succ] at h
      have hz : z.id ≠ animObjectId := hb z (by simp)
      have hrest : ∀ p ∈ rest.take n, p.id ≠ animObjectId := fun p hp => hb p (by simp [hp])
      have ih' := ih n o j a h hid hrest hf
      unfold setAnimationTime
      simp only [hz, if_false, ih', List.set_cons_succ]
      split <;> rfl

theorem addAnimObject_sublist (x : AnimObject T L) (l : List (AnimObject T L)) :
    l.Sublist (addAnimObject x l) := by
  induction l with
  | nil => exact List.nil_sublist _
  | cons z rest ih =>
    unfold addAnimObject
    split
    · exact List.sublist_cons_self _ _
    · exact ih.cons₂ z

theorem insertAnimation_sublist (x : AnimationEx) (l : List AnimationEx) :
    l.Sublist (insertAnimation x l) := by
  induction l with
  | nil => exact List.nil_sublist _
  | cons z rest ih =>
    unfold insertAnimation
    split
    · exact List.sublist_cons_self _ _
    · exact ih.cons₂ z

end RetimeLemmas

section RetimeClaims

/-- C11, the code at the failing input: ids are unique and every animation
points back to its owner; the object with id 1, at position 1 of the
registry, owns the animation with id 5. `removeAnimation(1, 5)` finds the
animation at `j = 0` and then evaluates its assertion on `animations[i]` with
the object index `i = 1`, one past the end of the one-element vector, so the
call does not return true. On an object at position 0 the same call works. -/
theorem removeAnimation_index_slip :
    UniqueObjectIds [sampleObject 0 9 1 [], sampleObject 1 5 1 [sampleAnimation 5 1 0 1]] ∧
      BackReferences [sampleObject 0 9 1 [], sampleObject 1 5 1 [sampleAnimation 5 1 0 1]] ∧
      (animationIds
        [sampleObject 0 9 1 [], sampleObject 1 5 1 [sampleAnimation 5 1 0 1]]).Nodup ∧
      removeAnimation 1 5
          [sampleObject 0 9 1 [], sampleObject 1 5 1 [sampleAnimation 5 1 0 1]]
        = Except.error Fault.outOfBounds ∧
      removeAnimation 1 5 [sampleObject 1 5 1 [sampleAnimation 5 1 0 1]]
        = Except.ok (true, [sampleObject 1 5 1 []]) :=
  ⟨by decide, by decide, by decide, rfl, rfl⟩

/-- C12 as stated fails with a repeated id: the registry holds two objects
with id 1, the second with `frameStart` 3 and duration 1.
`setAnimObjectTime(1, 3, 1)` compares with the first object with id 1,
which starts at 5, and moves that one. In the same way
`setAnimationTime(1, 7, 3, 1)` moves the first of two animations with id 7,
although the second already has the requested time. -/
theorem retime_noop_counterexample :
    sampleObject 1 3 1 [] ∈ [sampleObject 1 5 1 [], sampleObject 1 3 1 []] ∧
      setAnimObjectTime 1 3 1 [sampleObject 1 5 1 [], sampleObject 1 3 1 []]
        = (true, [sampleObject 1 3 1 [], sampleObject 1 3 1 []]) ∧
      [sampleObject 1 3 1 [], sampleObject 1 3 1 []]
        ≠ [sampleObject 1 5 1 [], sampleObject 1 3 1 []] ∧
      sampleAnimation 7 1 3 1 ∈ [sampleAnimation 7 1 5 1, sampleAnimation 7 1 3 1] ∧
      setAnimationTime 1 7 3 1
          [sampleObject 1 9 1 [sampleAnimation 7 1 5 1, sampleAnimation 7 1 3 1]]
        = (true, [sampleObject 1 9 1 [sampleAnimation 7 1 3 1, sampleAnimation 7 1 3 1]]) ∧
      [sampleObject 1 9 1 [sampleAnimation 7 1 3 1, sampleAnimation 7 1 3 1]]
        ≠ [sampleObject 1 9 1 [sampleAnimation 7 1 5 1, sampleAnimation 7 1 3 1]] := by
  decide

/-- C12 (retime no-op), amended. In a registry with unique object ids that
contains an object `o` with id `i`, `setAnimObjectTime(i, o.frameStart,
o.duration)` returns true and leaves the registry as it was; and when the
animation ids within `o` are unique as well, for an animation `a` of `o`,
`setAnimationTime(i, a.id, a.frameStart, a.duration)` returns true and
changes nothing. -/
theorem retime_noop (T L : Type) (mObjects : List (AnimObject T L)) (o : AnimObject T L)
    (hu : UniqueObjectIds mObjects) (ho : o ∈ mObjects) :
    setAnimObjectTime o.id o.frameStart o.duration mObjects = (true, mObjects) ∧
      ∀ a ∈ o.animations, (o.animations.map AnimationEx.id).Nodup →
        setAnimationTime o.id a.id a.frameStart a.duration mObjects = (true, mObjects) := by
  obtain ⟨k, hk⟩ := List.mem_iff_getElem?.1 ho
  have hb := take_ne_of_nodup_map AnimObject.id mObjects k o hu hk
  refine ⟨?_, ?_⟩
  · unfold setAnimObjectTime
    rw [findObject_of_first mObjects k o hk hb]
    simp
  · intro a ha hnd
    obtain ⟨j, hj⟩ := List.mem_iff_getElem?.1 ha
    have hf := findAnimation_of_first o.animations j a hj
      (take_ne_of_nodup_map AnimationEx.id o.animations j a hnd hj)
    rw [setAnimationTime_at o.id a.id a.frameStart a.duration mObjects k o j a hk rfl hb hf]
    simp

/-- C12, concrete check: retiming the object with id 2 and its animation with
id 1 to the times they have leaves a three-object registry unchanged. -/
theorem retime_noop_witness :
    setAnimObjectTime 2 5 1
        [sampleObject 1 9 1 [], sampleObject 2 5 1 [sampleAnimation 0 2 4 1,
          sampleAnimation 1 2 2 3], sampleObject 3 1 1 []]
      = (true, [sampleObject 1 9 1 [], sampleObject 2 5 1 [sampleAnimation 0 2 4 1,
          sampleAnimation 1 2 2 3], sampleObject 3 1 1 []]) ∧
    ∀ a ∈ [sampleAnimation 0 2 4 1, sampleAnimation 1 2 2 3],
      (List.map AnimationEx.id [sampleAnimation 0 2 4 1, sampleAnimation 1 2 2 3]).Nodup →
      setAnimationTime 2 a.id a.frameStart a.duration
          [sampleObject 1 9 1 [], sampleObject 2 5 1 [sampleAnimation 0 2 4 1,
            sampleAnimation 1 2 2 3], sampleObject 3 1 1 []]
        = (true, [sampleObject 1 9 1 [], sampleObject 2 5 1 [sampleAnimation 0 2 4 1,
            sampleAnimation 1 2 2 3], sampleObject 3 1 1 []]) :=
  retime_noop Unit Unit
    [sampleObject 1 9 1 [], sampleObject 2 5 1 [sampleAnimation 0 2 4 1,
      sampleAnimation 1 2 2 3], sampleObject 3 1 1 []]
    (sampleObject 2 5 1 [sampleAnimation 0 2 4 1, sampleAnimation 1 2 2 3])
    (by decide) (by decide)

/-- C13 (retime of an absent id). When no object has id `i`,
`setAnimObjectTime(i, s, d)` returns false and leaves the registry unchanged,
and it returns true whenever some object has id `i`. When no object with id
`objectId` owns an animation with id `animationId`, `setAnimationTime`
returns false and leaves the registry unchanged, and it returns true whenever
some object with that id owns such an animation. -/
theorem retime_absent (T L : Type) (mObjects : List (AnimObject T L))
    (animObjectId animationId frameStart duration : Int) :
    ((∀ o ∈ mObjects, o.id ≠ animObjectId) →
        setAnimObjectTime animObjectId frameStart duration mObjects = (false, mObjects)) ∧
      ((∃ o ∈ mObjects, o.id = animObjectId) →
        (setAnimObjectTime animObjectId frameStart duration mObjects).1 = true) ∧
      ((¬ ∃ o ∈ mObjects, o.id = animObjectId ∧ ∃ a ∈ o.animations, a.id = animationId) →
        setAnimationTime animObjectId animationId frameStart duration mObjects
          = (false, mObjects)) ∧
      ((∃ o ∈ mObjects, o.id = animObjectId ∧ ∃ a ∈ o.animations, a.id = animationId) →
        (setAnimationTime animObjectId animationId frameStart duration mObjects).1 = true) := by
  refine ⟨?_, ?_, ?_, ?_⟩
  · intro h
    unfold setAnimObjectTime
    rw [findObject_none animObjectId mObjects h]
  · intro h
    obtain ⟨k, o, hk⟩ := findObject_isSome animObjectId mObjects h
    unfold setAnimObjectTime
    rw [hk]
    simp only
    split <;> rfl
  · intro h
    apply setAnimationTime_absent
    intro o ho hid a ha haid
    exact h ⟨o, ho, hid, a, ha, haid⟩
  · exact setAnimationTime_found animObjectId animationId frameStart duration mObjects

/-- C13, concrete check: in a registry with ids 1 and 2, retiming the absent
object 7 and the absent animation 9 of object 2 returns false and changes
nothing; retiming object 2 and its animation 0 returns true. -/
theorem retime_absent_witness :
    setAnimObjectTime 7 3 3 [sampleObject 1 9 1 [], sampleObject 2 5 1 [sampleAnimation 0 2 4 1]]
        = (false, [sampleObject 1 9 1 [], sampleObject 2 5 1 [sampleAnimation 0 2 4 1]]) ∧
      (setAnimObjectTime 2 3 3
        [sampleObject 1 9 1 [], sampleObject 2 5 1 [sampleAnimation 0 2 4 1]]).1 = true ∧
      setAnimationTime 2 9 3 3
          [sampleObject 1 9 1 [], sampleObject 2 5 1 [sampleAnimation 0 2 4 1]]
        = (false, [sampleObject 1 9 1 [], sampleObject 2 5 1 [sampleAnimation 0 2 4 1]]) ∧
      (setAnimationTime 2 0 3 3
        [sampleObject 1 9 1 [], sampleObject 2 5 1 [sampleAnimation 0 2 4 1]]).1 = true :=
  ⟨(retime_absent Unit Unit
      [sampleObject 1 9 1 [], sampleObject 2 5 1 [sampleAnimation 0 2 4 1]] 7 9 3 3).1
      (by decide),
    (retime_absent Unit Unit
      [sampleObject 1 9 1 [], sampleObject 2 5 1 [sampleAnimation 0 2 4 1]] 2 0 3 3).2.1
      (by decide),
    (retime_absent Unit Unit
      [sampleObject 1 9 1 [], sampleObject 2 5 1 [sampleAnimation 0 2 4 1]] 2 9 3 3).2.2.1
      (by decide),
    (retime_absent Unit Unit
      [sampleObject 1 9 1 [], sampleObject 2 5 1 [sampleAnimation 0 2 4 1]] 2 0 3 3).2.2.2
      (by decide)⟩

/-- C14 as stated fails with a repeated id: the registry holds two objects
with id 1 and the object `o` is the second one, starting at 5. The pair
(3, 1) differs from its time, but `setAnimObjectTime(1, 3, 1)` looks at the
first object with id 1, finds the requested time there and returns without a
change, which is not the list with `o` erased and re-inserted. The same
happens for two animations with id 7 inside one object. -/
theorem retime_effect_counterexample :
    sampleObject 1 5 1 [] ∈ [sampleObject 1 3 1 [], sampleObject 1 5 1 []] ∧
      ((sampleObject 1 5 1 []).frameStart, (sampleObject 1 5 1 []).duration) ≠ ((3 : Int), (1 : Int)) ∧
      setAnimObjectTime 1 3 1 [sampleObject 1 3 1 [], sampleObject 1 5 1 []]
        = (true, [sampleObject 1 3 1 [], sampleObject 1 5 1 []]) ∧
      addAnimObject (sampleObject 1 3 1 []) ([sampleObject 1 3 1 [], sampleObject 1 5 1 []].eraseIdx 1)
        ≠ [sampleObject 1 3 1 [], sampleObject 1 5 1 []] ∧
      sampleAnimation 7 1 5 1 ∈ [sampleAnimation 7 1 3 1, sampleAnimation 7 1 5 1] ∧
      setAnimationTime 1 7 3 1
          [sampleObject 1 9 1 [sampleAnimation 7 1 3 1, sampleAnimation 7 1 5 1]]
        = (true, [sampleObject 1 9 1 [sampleAnimation 7 1 3 1, sampleAnimation 7 1 5 1]]) ∧
      insertAnimation (sampleAnimation 7 1 3 1)
          ([sampleAnimation 7 1 3 1, sampleAnimation 7 1 5 1].eraseIdx 1)
        ≠ [sampleAnimation 7 1 3 1, sampleAnimation 7 1 5 1] := by
  decide

/-- C14 (retime effect), amended. In a registry with unique object ids that
contains an object `o` at position `k`, for every `(s, d)` different from
`(o.frameStart, o.duration)`, `setAnimObjectTime(o.id, s, d)` returns true and
the new list is `addAnimObject` of the copy of `o` with `frameStart` `s` and
duration `d` (every other field as in `o`) into the list with position `k`
erased; the length is unchanged, the ids are the same up to order, and the
other objects keep their relative order. When the animation ids within `o`
are unique too, for an animation `a` at position `j` of `o` and `(s, d)`
different from its time, `setAnimationTime(o.id, a.id, s, d)` returns true and
replaces `o`, in place, by `o` with the retimed copy of `a` inserted by the
`addAnimationTo` loop into the animation list with position `j` erased; the
number of animations of `o` is unchanged and its other animations keep their
relative order. -/
theorem retime_effect (T L : Type) (mObjects : List (AnimObject T L)) (o : AnimObject T L)
    (k : Nat) (s d : Int)
    (hu : UniqueObjectIds mObjects) (hk : mObjects[k]? = some o) :
    (¬ (o.frameStart = s ∧ o.duration = d) →
        setAnimObjectTime o.id s d mObjects
            = (true, addAnimObject { o with frameStart := s, duration := d }
                (mObjects.eraseIdx k)) ∧
          (setAnimObjectTime o.id s d mObjects).2.length = mObjects.length ∧
          (objectIds (setAnimObjectTime o.id s d mObjects).2).Perm (objectIds mObjects) ∧
          (mObjects.eraseIdx k).Sublist (setAnimObjectTime o.id s d mObjects).2) ∧
      ∀ (j : Nat) (a : AnimationEx), o.animations[j]? = some a →
        (o.animations.map AnimationEx.id).Nodup →
        ¬ (a.frameStart = s ∧ a.duration = d) →
        setAnimationTime o.id a.id s d mObjects
            = (true, mObjects.set k
                { o with animations := (insertAnimation
                    { a with frameStart := s, duration := d } (o.animations.eraseIdx j)) }) ∧
          (insertAnimation { a with frameStart := s, duration := d }
              (o.animations.eraseIdx j)).length = o.animations.length ∧
          (o.animations.eraseIdx j).Sublist
            (insertAnimation { a with frameStart := s, duration := d }
              (o.animations.eraseIdx j)) := by
  have hb := take_ne_of_nodup_map AnimObject.id mObjects k o hu hk
  refine ⟨?_, ?_⟩
  · intro hne
    have heq : setAnimObjectTime o.id s d mObjects
        = (true, addAnimObject { o with frameStart := s, duration := d }
            (mObjects.eraseIdx k)) := by
      unfold setAnimObjectTime
      rw [findObject_of_first mObjects k o hk hb]
      simp only [if_neg hne]
    rw [heq]
    have hperm := (addAnimObject_perm { o with frameStart := s, duration := d }
      (mObjects.eraseIdx k))
    have hperm2 := perm_cons_eraseIdx mObjects k o hk
    refine ⟨rfl, ?_, ?_, addAnimObject_sublist _ _⟩
    · simp only
      rw [hperm.length_eq, ← hperm2.length_eq]
      rfl
    · simp only [objectIds]
      refine (hperm.map AnimObject.id).trans ?_
      exact (hperm2.map AnimObject.id)
  · intro j a hj hnd hne
    have hf := findAnimation_of_first o.animations j a hj
      (take_ne_of_nodup_map AnimationEx.id o.animations j a hnd hj)
    refine ⟨?_, ?_, insertAnimation_sublist _ _⟩
    · rw [setAnimationTime_at o.id a.id s d mObjects k o j a hk rfl hb hf, if_neg hne]
      rfl
    · rw [(insertAnimation_perm _ _).length_eq,
        ← (perm_cons_eraseIdx o.animations j a hj).length_eq]
      rfl

/-- C14, concrete check: in a registry with starts 9, 5, 1 the object with id
2 (position 1) is moved to start 0 and lands at the end; its animation with
id 0 (position 0) is moved to start 1 and lands after the other one. -/
theorem retime_effect_witness :
    setAnimObjectTime 2 0 4
        [sampleObject 1 9 1 [], sampleObject 2 5 1 [sampleAnimation 0 2 4 1,
          sampleAnimation 1 2 2 3], sampleObject 3 1 1 []]
      = (true, [sampleObject 1 9 1 [], sampleObject 3 1 1 [],
          sampleObject 2 0 4 [sampleAnimation 0 2 4 1, sampleAnimation 1 2 2 3]]) ∧
    setAnimationTime 2 0 1 1
        [sampleObject 1 9 1 [], sampleObject 2 5 1 [sampleAnimation 0 2 4 1,
          sampleAnimation 1 2 2 3], sampleObject 3 1 1 []]
      = (true, [sampleObject 1 9 1 [], sampleObject 2 5 1 [sampleAnimation 1 2 2 3,
          sampleAnimation 0 2 1 1], sampleObject 3 1 1 []]) :=
  ⟨((retime_effect Unit Unit
      [sampleObject 1 9 1 [], sampleObject 2 5 1 [sampleAnimation 0 2 4 1,
        sampleAnimation 1 2 2 3], sampleObject 3 1 1 []]
      (sampleObject 2 5 1 [sampleAnimation 0 2 4 1, sampleAnimation 1 2 2 3]) 1 0 4
      (by decide) rfl).1 (by decide)).1,
    ((retime_effect Unit Unit
      [sampleObject 1 9 1 [], sampleObject 2 5 1 [sampleAnimation 0 2 4 1,
        sampleAnimation 1 2 2 3], sampleObject 3 1 1 []]
      (sampleObject 2 5 1 [sampleAnimation 0 2 4 1, sampleAnimation 1 2 2 3]) 1 1 1
      (by decide) rfl).2 0 (sampleAnimation 0 2 4 1) rfl (by decide) (by decide)).1⟩

end RetimeClaims

section BackReferenceLemmas

variable {T L : Type}

theorem backReferences_cons (z : AnimObject T L) (rest : List (AnimObject T L)) :
    BackReferences (z :: rest) ↔ (∀ a ∈ z.animations, a.objectId = z.id) ∧ BackReferences rest := by
  unfold BackReferences
  simp

theorem backReferences_of_sublist (l l' : List (AnimObject T L)) (h : l'.Sublist l)
    (hb : BackReferences l) : BackReferences l' :=
  fun o ho => hb o (h.subset ho)

theorem backReferences_addAnimObject (object : AnimObject T L) (l : List (AnimObject T L))
    (ho : ∀ a ∈ object.animations, a.objectId = object.id) (hb : BackReferences l) :
    BackReferences (addAnimObject object l) := by
  intro o hmem
  rcases (mem_addAnimObject object o l).1 hmem with rfl | hmem
  · exact ho
  · exact hb o hmem

theorem backReferences_set (l : List (AnimObject T L)) (index : Nat) (o : AnimObject T L)
    (ho : ∀ a ∈ o.animations, a.objectId = o.id) (hb : BackReferences l) :
    BackReferences (l.set index o) := by
  intro p hp
  rcases List.mem_or_eq_of_mem_set hp with hp | rfl
  · exact hb p hp
  · exact ho

theorem backReferences_addAnimationToId (animation : AnimationEx) (animObjectId : Int)
    (l : List (AnimObject T L)) (ha : animation.objectId = animObjectId)
    (hb : BackReferences l) : BackReferences (addAnimationToId animation animObjectId l) := by
  induction l with
  | nil => exact hb
  | cons z rest ih =>
    obtain ⟨hz, hrest⟩ := (backReferences_cons z rest).1 hb
    unfold addAnimationToId
    split
    · exact (backReferences_cons _ _).2 ⟨hz, ih hrest⟩
    · rename_i hid
      refine (backReferences_cons _ _).2 ⟨?_, hrest⟩
      intro a hmem
      rcases (mem_insertAnimation animation a z.animations).1 hmem with rfl | hmem
      · simp only [ne_eq, not_not] at hid
        rw [ha, hid]
      · exact hz a hmem

theorem backReferences_removeAnimationFrom (animObjectId animationId : Int) (i : Nat)
    (l l' : List (AnimObject T L)) (b : Bool)
    (h : removeAnimationFrom animObjectId animationId i l = Except.ok (b, l'))
    (hb : BackReferences l) : BackReferences l' := by
  induction l generalizing l' b i with
  | nil =>
    simp only [removeAnimationFrom, Except.ok.injEq, Prod.mk.injEq] at h
    rw [← h.2]; exact hb
  | cons z rest ih =>
    obtain ⟨hz, hrest⟩ := (backReferences_cons z rest).1 hb
    have hcont : ∀ l' b, (match removeAnimationFrom animObjectId animationId (i + 1) rest with
        | Except.ok (found, rest') => Except.ok (found, z :: rest')
        | Except.error f => Except.error f) = Except.ok (b, l') → BackReferences l' := by
      intro l' b h
      split at h
      · rename_i found rest' hr
        simp only [Except.ok.injEq, Prod.mk.injEq] at h
        rw [← h.2]
        exact (backReferences_cons _ _).2 ⟨hz, ih (i + 1) rest' found hr hrest⟩
      · cases h
    unfold removeAnimationFrom at h
    simp only at h
    split at h
    · split at h
      · split at h
        · cases h
        · split at h
          · simp only [Except.ok.injEq, Prod.mk.injEq] at h
            rw [← h.2]
            refine (backReferences_cons _ _).2 ⟨?_, hrest⟩
            intro a hmem
            exact hz a (List.mem_of_mem_eraseIdx hmem)
          · cases h
      · exact hcont l' b h
    · exact hcont l' b h

theorem backReferences_setAnimObjectTime (animObjectId frameStart duration : Int)
    (l : List (AnimObject T L)) (hb : BackReferences l) :
    BackReferences (setAnimObjectTime animObjectId frameStart duration l).2 := by
  unfold setAnimObjectTime
  split
  · exact hb
  · rename_i objectIndex animObject hf
    split
    · exact hb
    · obtain ⟨hget, _⟩ := findObject_some _ _ _ _ hf
      apply backReferences_addAnimObject
      · exact hb animObject (List.getElem?_mem hget)
      · exact backReferences_of_sublist _ _ (List.eraseIdx_sublist _ _) hb

theorem backReferences_setAnimationTime (animObjectId animationId frameStart duration : Int)
    (l : List (AnimObject T L)) (hb : BackReferences l) :
    BackReferences (setAnimationTime animObjectId animationId frameStart duration l).2 := by
  induction l with
  | nil => exact hb
  | cons z rest ih =>
    obtain ⟨hz, hrest⟩ := (backReferences_cons z rest).1 hb
    have hcont : BackReferences
        ((setAnimationTime animObjectId animationId frameStart duration rest).1,
          z :: (setAnimationTime animObjectId animationId frameStart duration rest).2).2 :=
      (backReferences_cons _ _).2 ⟨hz, ih hrest⟩
    unfold setAnimationTime
    simp only
    split
    · split
      · rename_i animationIndex animation hf
        split
        · exact hb
        · refine (backReferences_cons _ _).2 ⟨?_, hrest⟩
          obtain ⟨hget, _⟩ := findAnimation_some _ _ _ _ hf
          intro a hmem
          rcases (mem_insertAnimation _ a _).1 hmem with rfl | hmem
          · exact hz animation (List.getElem?_mem hget)
          · exact hz a (List.mem_of_mem_eraseIdx hmem)
      · exact hcont
    · exact hcont

theorem backReferences_setAnimObjectTrack (animObjectId track : Int) (l : List (AnimObject T L))
    (hb : BackReferences l) : BackReferences (setAnimObjectTrack animObjectId track l) := by
  induction l with
  | nil => exact hb
  | cons z rest ih =>
    obtain ⟨hz, hrest⟩ := (backReferences_cons z rest).1 hb
    unfold setAnimObjectTrack
    split
    · exact (backReferences_cons _ _).2 ⟨hz, hrest⟩
    · exact (backReferences_cons _ _).2 ⟨hz, ih hrest⟩

theorem backReferences_apply (s s' : List (AnimObject T L)) (op : Op T L)
    (hb : BackReferences s) (hc : op.Consistent s) (h : op.apply s = Except.ok s') :
    BackReferences s' := by
  cases op with
  | addAnimObject object =>
    simp only [Op.apply, Except.ok.injEq] at h
    rw [← h]
    exact backReferences_addAnimObject object s hc hb
  | addAnimationToRef animation index =>
    simp only [Op.apply] at h
    split at h
    · rename_i o hget
      simp only [Except.ok.injEq] at h
      rw [← h]
      apply backReferences_set _ _ _ _ hb
      intro a hmem
      rcases (mem_insertAnimation animation a o.animations).1 hmem with rfl | hmem
      · exact hc o hget
      · exact hb o (List.getElem?_mem hget) a hmem
    · simp only [Except.ok.injEq] at h
      rw [← h]; exact hb
  | addAnimationTo animation animObjectId =>
    simp only [Op.apply, Except.ok.injEq] at h
    rw [← h]
    exact backReferences_addAnimationToId animation animObjectId s hc hb
  | removeAnimObject animObjectId =>
    simp only [Op.apply] at h
    cases hr : removeAnimObject animObjectId s with
    | error f => rw [hr] at h; cases h
    | ok r =>
      rw [hr] at h
      simp only [Except.map, Except.ok.injEq] at h
      rw [← h]
      exact backReferences_of_sublist _ _ (removeAnimObject_sublist animObjectId s r.2 r.1 hr) hb
  | removeAnimation animObjectId animationId =>
    simp only [Op.apply] at h
    cases hr : removeAnimation animObjectId animationId s with
    | error f => rw [hr] at h; cases h
    | ok r =>
      rw [hr] at h
      simp only [Except.map, Except.ok.injEq] at h
      rw [← h]
      exact backReferences_removeAnimationFrom animObjectId animationId 0 s r.2 r.1 hr hb
  | setAnimObjectTime animObjectId frameStart duration =>
    simp only [Op.apply, Except.ok.injEq] at h
    rw [← h]
    exact backReferences_setAnimObjectTime _ _ _ _ hb
  | setAnimationTime animObjectId animationId frameStart duration =>
    simp only [Op.apply, Except.ok.injEq] at h
    rw [← h]
    exact backReferences_setAnimationTime _ _ _ _ _ hb
  | setAnimObjectTrack animObjectId track =>
    simp only [Op.apply, Except.ok.injEq] at h
    rw [← h]
    exact backReferences_setAnimObjectTrack _ _ _ hb

end BackReferenceLemmas

section BackReferenceClaim

/-- C15 as stated fails: `addAnimationTo(animation, 0)` takes an animation
whose `objectId` is 7 and puts it into the object with id 0 without looking
at the field, so a registry reached by two public calls from the empty
registry holds an animation that does not point back to its owner. The
overload taking `AnimObject&` (here the registry element at index 0) and
`addAnimObject` with an object that brings such an animation do the same. -/
theorem back_references_counterexample :
    Reachable [sampleObject 0 0 10 [sampleAnimation 0 7 0 5]] ∧
      ¬ BackReferences [sampleObject 0 0 10 [sampleAnimation 0 7 0 5]] ∧
      (Op.addAnimationTo (sampleAnimation 0 7 0 5) 0 : Op Unit Unit).apply
          [sampleObject 0 0 10 []]
        = Except.ok [sampleObject 0 0 10 [sampleAnimation 0 7 0 5]] ∧
      (Op.addAnimationToRef (sampleAnimation 0 7 0 5) 0 : Op Unit Unit).apply
          [sampleObject 0 0 10 []]
        = Except.ok [sampleObject 0 0 10 [sampleAnimation 0 7 0 5]] ∧
      (Op.addAnimObject (sampleObject 0 0 10 [sampleAnimation 0 7 0 5]) : Op Unit Unit).apply []
        = Except.ok [sampleObject 0 0 10 [sampleAnimation 0 7 0 5]] :=
  ⟨Reachable.step (Op.addAnimationTo (sampleAnimation 0 7 0 5) 0)
      (Reachable.step (Op.addAnimObject (sampleObject 0 0 10 [])) Reachable.empty
        (by unfold Op.Admissible; decide) rfl)
      trivial rfl,
    by decide, rfl, rfl, rfl⟩

/-- C15 (back-reference invariant), amended. In every registry state reached
from the empty registry through the public mutation operations, called with
arguments that respect the rule themselves (an inserted object owns the
animations it brings; an animation handed to either `addAnimationTo` overload
carries the id of the receiving object), every animation's `objectId` equals
the id of the object whose animation list contains it. -/
theorem back_references_invariant (T L : Type) (s : List (AnimObject T L))
    (h : ConsistentReachable s) : BackReferences s := by
  induction h with
  | empty => intro o ho; cases ho
  | step op _ hc happly ih => exact backReferences_apply _ _ op ih hc happly

/-- C15, concrete check: an object with one animation of its own is inserted,
a second animation is added through each overload, and the first is retimed;
all three animations point back to object 4. -/
theorem back_references_invariant_witness :
    BackReferences
      [sampleObject 4 0 10 [sampleAnimation 2 4 9 1, sampleAnimation 0 4 8 2,
        sampleAnimation 1 4 3 2]] :=
  back_references_invariant Unit Unit _
    (ConsistentReachable.step (Op.setAnimationTime 4 0 8 2)
      (ConsistentReachable.step (Op.addAnimationToRef (sampleAnimation 2 4 9 1) 0)
        (ConsistentReachable.step (Op.addAnimationTo (sampleAnimation 1 4 3 2) 4)
          (ConsistentReachable.step
            (Op.addAnimObject (sampleObject 4 0 10 [sampleAnimation 0 4 5 2]))
            ConsistentReachable.empty (by unfold Op.Consistent; decide) rfl)
          rfl rfl)
        (by intro o ho; cases ho; rfl) rfl)
      trivial rfl)

end BackReferenceClaim

section LoadLemmas

variable {T L : Type}

theorem readU32_of_short (memory : List Byte) (h : memory.length < 4) :
    readU32 memory = Except.error Fault.readPastEnd := by
  rcases memory with _ | ⟨b0, _ | ⟨b1, _ | ⟨b2, _ | ⟨b3, rest⟩⟩⟩⟩
  · rfl
  · rfl
  · rfl
  · rfl
  · simp only [List.length_cons] at h; omega

theorem readU32_length (memory : List Byte) (v : Nat) (rest : List Byte)
    (h : readU32 memory = Except.ok (v, rest)) :
    memory.length = rest.length + 4 ∧ v < 2 ^ 32 ∧ memory = u32Bytes v ++ rest := by
  rcases memory with _ | ⟨b0, _ | ⟨b1, _ | ⟨b2, _ | ⟨b3, tail⟩⟩⟩⟩
  · cases h
  · cases h
  · cases h
  · cases h
  · simp only [readU32, Except.ok.injEq, Prod.mk.injEq] at h
    obtain ⟨hv, hrest⟩ := h
    subst hrest
    have h0 := b0.isLt
    have h1 := b1.isLt
    have h2 := b2.isLt
    have h3 := b3.isLt
    refine ⟨by simp, by omega, ?_⟩
    subst hv
    simp only [u32Bytes, byteOf, List.cons_append, List.nil_append, List.cons.injEq, and_true]
    refine ⟨?_, ?_, ?_, ?_⟩ <;> apply Fin.ext <;> simp only <;> omega

theorem deserialize_bad_header (codecs : Codecs T L) (memory m1 m2 : List Byte)
    (magicNumber serializerVersion : Nat) (s : Manager T L)
    (h1 : readU32 memory = Except.ok (magicNumber, m1))
    (h2 : readU32 m1 = Except.ok (serializerVersion, m2))
    (hbad : magicNumber ≠ MAGIC_NUMBER ∨ serializerVersion = 0 ∨
      SERIALIZER_VERSION < serializerVersion) :
    deserialize codecs (some memory) s = { state := s, fault := some Fault.assertion } := by
  unfold deserialize
  simp only [h1, h2]
  by_cases hm : magicNumber = MAGIC_NUMBER
  · have hv : ¬ (serializerVersion ≠ 0 ∧ serializerVersion ≤ SERIALIZER_VERSION) := by
      rcases hbad with h | h | h
      · exact absurd hm h
      · intro hc; exact hc.1 h
      · intro hc; omega
    simp [hm, hv]
  · simp [hm]

theorem deserialize_good_header (codecs : Codecs T L) (memory m1 m2 : List Byte)
    (s : Manager T L)
    (h1 : readU32 memory = Except.ok (MAGIC_NUMBER, m1))
    (h2 : readU32 m1 = Except.ok (1, m2)) :
    deserialize codecs (some memory) s = deserializeAnimationManagerExV1 codecs m2 s := by
  unfold deserialize
  simp only [h1, h2]
  simp [SERIALIZER_VERSION]

theorem deserialize_short (codecs : Codecs T L) (memory : List Byte) (s : Manager T L)
    (h : memory.length < 8) :
    deserialize codecs (some memory) s = { state := s, fault := some Fault.readPastEnd } := by
  unfold deserialize
  simp only
  cases h1 : readU32 memory with
  | error f =>
    rcases memory with _ | ⟨b0, _ | ⟨b1, _ | ⟨b2, _ | ⟨b3, tail⟩⟩⟩⟩ <;>
      simp only [readU32] at h1 <;> cases h1 <;> rfl
  | ok r =>
    obtain ⟨magicNumber, m1⟩ := r
    have hlen := (readU32_length memory magicNumber m1 h1).1
    have h2 := readU32_of_short m1 (by omega)
    simp only [h2]

end LoadLemmas

section LoadClaims

/-- C16 (header validation on load). For every input buffer: when the buffer
is shorter than the 8 header bytes the load stops at the read and the
registry and counters stay as they were; when the leading magic is not
`0xDEADBEEF`, or the version field is 0 or greater than
`SERIALIZER_VERSION` = 1, the load fails at the assertion and no object is
decoded (the state is the one before the call); and the version 1 decoder is
what runs, on the bytes behind the header, when the magic is right and the
version is 1. These cases cover every buffer, so no other buffer reaches the
version 1 decoder. -/
theorem deserialize_header_validation (T L : Type) (codecs : Codecs T L) (memory : List Byte)
    (s : Manager T L) :
    (memory.length < 8 →
        deserialize codecs (some memory) s = { state := s, fault := some Fault.readPastEnd }) ∧
      (8 ≤ memory.length → ∃ magicNumber serializerVersion rest,
        magicNumber < 2 ^ 32 ∧ serializerVersion < 2 ^ 32 ∧
        memory = u32Bytes magicNumber ++ (u32Bytes serializerVersion ++ rest)) ∧
      ∀ magicNumber serializerVersion rest,
        magicNumber < 2 ^ 32 → serializerVersion < 2 ^ 32 →
        memory = u32Bytes magicNumber ++ (u32Bytes serializerVersion ++ rest) →
        ((magicNumber ≠ MAGIC_NUMBER ∨ serializerVersion = 0 ∨
            SERIALIZER_VERSION < serializerVersion) →
          deserialize codecs (some memory) s
            = { state := s, fault := some Fault.assertion }) ∧
        (magicNumber = MAGIC_NUMBER → serializerVersion = 1 →
          deserialize codecs (some memory) s
            = deserializeAnimationManagerExV1 codecs rest s) := by
  refine ⟨deserialize_short codecs memory s, ?_, ?_⟩
  · intro hlen
    cases h1 : readU32 memory with
    | error f =>
      rcases memory with _ | ⟨b0, _ | ⟨b1, _ | ⟨b2, _ | ⟨b3, tail⟩⟩⟩⟩ <;>
        simp only [readU32, List.length_cons, List.length_nil] at h1 hlen <;> first | omega | cases h1
    | ok r =>
      obtain ⟨magicNumber, m1⟩ := r
      obtain ⟨hl1, hv1, hm1⟩ := readU32_length memory magicNumber m1 h1
      cases h2 : readU32 m1 with
      | error f =>
        rcases m1 with _ | ⟨b0, _ | ⟨b1, _ | ⟨b2, _ | ⟨b3, tail⟩⟩⟩⟩ <;>
          simp only [readU32, List.length_cons, List.length_nil] at h2 hl1 <;>
          first | omega | cases h2
      | ok r2 =>
        obtain ⟨serializerVersion, m2⟩ := r2
        obtain ⟨_, hv2, hm2⟩ := readU32_length m1 serializerVersion m2 h2
        exact ⟨magicNumber, serializerVersion, m2, hv1, hv2, by rw [← hm2, ← hm1]⟩
  · intro magicNumber serializerVersion rest hm hv hmem
    have h1 : readU32 memory = Except.ok (magicNumber, u32Bytes serializerVersion ++ rest) := by
      rw [hmem]; exact readU32_u32Bytes _ _ hm
    have h2 : readU32 (u32Bytes serializerVersion ++ rest) = Except.ok (serializerVersion, rest) :=
      readU32_u32Bytes _ _ hv
    refine ⟨deserialize_bad_header codecs memory _ _ _ _ s h1 h2, ?_⟩
    intro hmagic hver
    subst hmagic hver
    exact deserialize_good_header codecs memory _ _ s h1 h2

/-- C16, concrete check: a container with the magic `0xDEADBEEE`, one with
version 0 and one with version 2 fail at the assertion and leave the registry
empty, and a buffer with the right magic and version 1 is handed to the
version 1 decoder from its ninth byte on. -/
theorem deserialize_header_validation_witness :
    deserialize unitCodecs (some (u32Bytes 0xDEADBEEE ++ (u32Bytes 1 ++ u32Bytes 0)))
        { mObjects := [], animObjectUidCounter := 0, animationUidCounter := 0 }
      = { state := { mObjects := [], animObjectUidCounter := 0, animationUidCounter := 0 },
          fault := some Fault.assertion } ∧
    deserialize unitCodecs (some (u32Bytes MAGIC_NUMBER ++ (u32Bytes 0 ++ u32Bytes 0)))
        { mObjects := [], animObjectUidCounter := 0, animationUidCounter := 0 }
      = { state := { mObjects := [], animObjectUidCounter := 0, animationUidCounter := 0 },
          fault := some Fault.assertion } ∧
    deserialize unitCodecs (some (u32Bytes MAGIC_NUMBER ++ (u32Bytes 2 ++ u32Bytes 0)))
        { mObjects := [], animObjectUidCounter := 0, animationUidCounter := 0 }
      = { state := { mObjects := [], animObjectUidCounter := 0, animationUidCounter := 0 },
          fault := some Fault.assertion } ∧
    deserialize unitCodecs (some (u32Bytes MAGIC_NUMBER ++ (u32Bytes 1 ++ u32Bytes 0)))
        { mObjects := [], animObjectUidCounter := 0, animationUidCounter := 0 }
      = deserializeAnimationManagerExV1 unitCodecs (u32Bytes 0)
          { mObjects := [], animObjectUidCounter := 0, animationUidCounter := 0 } :=
  ⟨((deserialize_header_validation Unit Unit unitCodecs
      (u32Bytes 0xDEADBEEE ++ (u32Bytes 1 ++ u32Bytes 0))
      { mObjects := [], animObjectUidCounter := 0, animationUidCounter := 0 }).2.2
      0xDEADBEEE 1 (u32Bytes 0) (by decide) (by decide) rfl).1 (Or.inl (by decide)),
    ((deserialize_header_validation Unit Unit unitCodecs
      (u32Bytes MAGIC_NUMBER ++ (u32Bytes 0 ++ u32Bytes 0))
      { mObjects := [], animObjectUidCounter := 0, animationUidCounter := 0 }).2.2
      MAGIC_NUMBER 0 (u32Bytes 0) (by decide) (by decide) rfl).1 (Or.inr (Or.inl rfl)),
    ((deserialize_header_validation Unit Unit unitCodecs
      (u32Bytes MAGIC_NUMBER ++ (u32Bytes 2 ++ u32Bytes 0))
      { mObjects := [], animObjectUidCounter := 0, animationUidCounter := 0 }).2.2
      MAGIC_NUMBER 2 (u32Bytes 0) (by decide) (by decide) rfl).1 (Or.inr (Or.inr (by decide))),
    ((deserialize_header_validation Unit Unit unitCodecs
      (u32Bytes MAGIC_NUMBER ++ (u32Bytes 1 ++ u32Bytes 0))
      { mObjects := [], animObjectUidCounter := 0, animationUidCounter := 0 }).2.2
      MAGIC_NUMBER 1 (u32Bytes 0) (by decide) (by decide) rfl).2 rfl rfl⟩

end LoadClaims

section AtomicityLemmas

variable {T L : Type}

end AtomicityLemmas

section AtomicityClaims

/-- C19, the code at the failing input: the record written for an object of
kind `None` starts with kind tag 0. The decoder's assertion
`animObjectType < Length` lets the tag pass, the `default` branch of the
switch only logs, and the decoder goes on to read the animation count 1 and
the animation behind it: the call returns an object. A record with kind tag
3 (`Length`) stops at the assertion. -/
theorem deserializeAnimObjectV1_none_tag :
    ((sampleObject 7 0 1 [sampleAnimation 3 7 0 1]).serialize unitCodecs []).take 4
        = u32Bytes AnimObjectType.None.toNat ∧
      AnimObjectType.None.toNat = 0 ∧
      deserializeAnimObjectV1 unitCodecs
          ((sampleObject 7 0 1 [sampleAnimation 3 7 0 1]).serialize unitCodecs []) 0 0
        = Except.ok (sampleObject 7 0 1 [sampleAnimation 3 7 0 1], [], 8, 4) ∧
      deserializeAnimObjectV1 unitCodecs (sampleLengthObject.serialize unitCodecs []) 0 0
        = Except.error Fault.assertion :=
  ⟨by decide, rfl, rfl, rfl⟩

end AtomicityClaims

section TrailerLemmas

variable {T L : Type}

theorem deserializeAnimationExV1_record (a : AnimationEx) (rest : List Byte) (hr : a.InRange) :
    deserializeAnimationExV1 (a.serialize [] ++ rest) = Except.ok (a, rest) ∨
      deserializeAnimationExV1 (a.serialize [] ++ rest) = Except.error Fault.assertion := by
  by_cases hk : a.type = AnimTypeEx.Length
  · right
    have htl : a.type.toNat < 2 ^ 32 := by
      cases a.type <;> simp [AnimTypeEx.toNat]
    simp only [AnimationEx.serialize, writeU32, writeI32, List.nil_append, List.append_assoc,
      deserializeAnimationExV1, readU32_u32Bytes _ _ htl, bind, Except.bind, hk]
    rfl
  · left
    exact deserializeAnimationExV1_serialize a rest hk hr

theorem deserializeAnimations_record (l : List AnimationEx) :
    ∀ (rest : List Byte) (counter : Int) (acc : List AnimationEx),
      (∀ a ∈ l, a.InRange) →
      (∃ counter', deserializeAnimations l.length (serializeAnimations [] l ++ rest) counter acc
          = Except.ok (acc ++ l, rest, counter')) ∨
        deserializeAnimations l.length (serializeAnimations [] l ++ rest) counter acc
          = Except.error Fault.assertion := by
  induction l with
  | nil =>
    intro rest counter acc _
    exact Or.inl ⟨counter, by simp [deserializeAnimations, serializeAnimations, pure, Except.pure]⟩
  | cons a tail ih =>
    intro rest counter acc hr
    simp only [List.length_cons, deserializeAnimations, serializeAnimations]
    rw [serializeAnimations_append (a.serialize []) tail, List.append_assoc]
    rcases deserializeAnimationExV1_record a (serializeAnimations [] tail ++ rest)
      (hr a (List.mem_cons_self _ _)) with hdec | hdec
    · simp only [AnimationEx.deserialize, SERIALIZER_VERSION, if_true, hdec, bind, Except.bind]
      rcases ih rest (max counter (wrapInt32 (a.id + 1))) (acc ++ [a])
        (fun b hb => hr b (List.mem_cons_of_mem _ hb)) with ⟨c', hc'⟩ | herr
      · left
        refine ⟨c', ?_⟩
        rw [hc']
        simp
      · right
        exact herr
    · right
      simp only [AnimationEx.deserialize, SERIALIZER_VERSION, if_true, hdec, bind, Except.bind]

theorem deserializeAnimObjectV1_record (codecs : Codecs T L) (o : AnimObject T L)
    (rest : List Byte) (c1 c2 : Int)
    (htext : codecs.textObject.RoundTrips) (hlatex : codecs.laTexObject.RoundTrips)
    (hr : o.InRange) (htag : o.WellTagged) :
    (∃ c1' c2', deserializeAnimObjectV1 codecs (o.serialize codecs [] ++ rest) c1 c2
        = Except.ok ({ o with isAnimating := false }, rest, c1', c2')) ∨
      deserializeAnimObjectV1 codecs (o.serialize codecs [] ++ rest) c1 c2
        = Except.error Fault.assertion := by
  obtain ⟨hx, hy, hid, hfs, hdur, htr, hlen, hanims⟩ := hr
  have htl : o.objectType.toNat < 2 ^ 32 := by
    cases o.objectType <;> simp [AnimObjectType.toNat]
  have hlen32 : o.animations.length % 2 ^ 32 = o.animations.length := by
    apply Nat.mod_eq_of_lt; omega
  have hlen' : o.animations.length < 2 ^ 32 := by omega
  have hanim := deserializeAnimations_record o.animations rest c2 [] hanims
  unfold AnimObject.serialize
  simp only [hlen32, List.take_length]
  rw [serializeAnimations_append (writeU32 _ _)]
  unfold deserializeAnimObjectV1
  obtain ⟨objectType, position, id, frameStart, duration, timelineTrack, isAnimating, as,
    animations⟩ := o
  simp only at *
  cases objectType <;> cases as <;> simp only [AnimObject.WellTagged] at htag
  · rcases hanim with ⟨c2', hc2'⟩ | herr
    · left
      refine ⟨max c1 (wrapInt32 (id + 1)), c2', ?_⟩
      simp only [writeU32, writeI32, List.nil_append, List.append_assoc,
        readU32_u32Bytes _ _ htl, readU32_u32Bytes _ _ hx, readU32_u32Bytes _ _ hy,
        readI32_i32Bytes _ _ hid, readI32_i32Bytes _ _ hfs, readI32_i32Bytes _ _ hdur,
        readI32_i32Bytes _ _ htr, readU32_u32Bytes _ _ hlen', bind, Except.bind,
        pure, Except.pure, hc2']
      rfl
    · right
      simp only [writeU32, writeI32, List.nil_append, List.append_assoc,
        readU32_u32Bytes _ _ htl, readU32_u32Bytes _ _ hx, readU32_u32Bytes _ _ hy,
        readI32_i32Bytes _ _ hid, readI32_i32Bytes _ _ hfs, readI32_i32Bytes _ _ hdur,
        readI32_i32Bytes _ _ htr, readU32_u32Bytes _ _ hlen', bind, Except.bind,
        pure, Except.pure, herr]
      rfl
  · rename_i t
    rcases hanim with ⟨c2', hc2'⟩ | herr
    · left
      refine ⟨max c1 (wrapInt32 (id + 1)), c2', ?_⟩
      simp only [writeU32, writeI32, List.nil_append, List.append_assoc,
        readU32_u32Bytes _ _ htl, readU32_u32Bytes _ _ hx, readU32_u32Bytes _ _ hy,
        readI32_i32Bytes _ _ hid, readI32_i32Bytes _ _ hfs, readI32_i32Bytes _ _ hdur,
        readI32_i32Bytes _ _ htr, readU32_u32Bytes _ _ hlen', bind, Except.bind,
        pure, Except.pure, hc2', htext t _]
      rfl
    · right
      simp only [writeU32, writeI32, List.nil_append, List.append_assoc,
        readU32_u32Bytes _ _ htl, readU32_u32Bytes _ _ hx, readU32_u32Bytes _ _ hy,
        readI32_i32Bytes _ _ hid, readI32_i32Bytes _ _ hfs, readI32_i32Bytes _ _ hdur,
        readI32_i32Bytes _ _ htr, readU32_u32Bytes _ _ hlen', bind, Except.bind,
        pure, Except.pure, herr, htext t _]
      rfl
  · rename_i l
    rcases hanim with ⟨c2', hc2'⟩ | herr
    · left
      refine ⟨max c1 (wrapInt32 (id + 1)), c2', ?_⟩
      simp only [writeU32, writeI32, List.nil_append, List.append_assoc,
        readU32_u32Bytes _ _ htl, readU32_u32Bytes _ _ hx, readU32_u32Bytes _ _ hy,
        readI32_i32Bytes _ _ hid, readI32_i32Bytes _ _ hfs, readI32_i32Bytes _ _ hdur,
        readI32_i32Bytes _ _ htr, readU32_u32Bytes _ _ hlen', bind, Except.bind,
        pure, Except.pure, hc2', hlatex l _]
      rfl
    · right
      simp only [writeU32, writeI32, List.nil_append, List.append_assoc,
        readU32_u32Bytes _ _ htl, readU32_u32Bytes _ _ hx, readU32_u32Bytes _ _ hy,
        readI32_i32Bytes _ _ hid, readI32_i32Bytes _ _ hfs, readI32_i32Bytes _ _ hdur,
        readI32_i32Bytes _ _ htr, readU32_u32Bytes _ _ hlen', bind, Except.bind,
        pure, Except.pure, herr, hlatex l _]
      rfl
  · right
    simp only [writeU32, writeI32, List.nil_append, List.append_assoc,
      readU32_u32Bytes _ _ htl, bind, Except.bind]
    rfl

end TrailerLemmas
section TrailerLoad

variable {T L : Type}

theorem readU32_changed_magic (j : Nat) (b : Byte) (post : List Byte) (hj : j < 4)
    (hb : (u32Bytes MAGIC_NUMBER)[j]? ≠ some b) :
    ∃ v, readU32 ((u32Bytes MAGIC_NUMBER).set j b ++ post) = Except.ok (v, post) ∧
      v ≠ MAGIC_NUMBER := by
  have hlt := b.isLt
  have hne : ∀ c : Byte, c ≠ b → c.val ≠ b.val := fun c hc hv => hc (Fin.ext hv)
  interval_cases j
  · have h0 : b.val ≠ 239 := fun h => hb (by
      have : b = (239 : Byte) := Fin.ext h
      subst this; rfl)
    refine ⟨_, rfl, ?_⟩
    simp only [MAGIC_NUMBER, u32Bytes, byteOf]
    have : (b : Nat) ≠ 239 := h0
    omega
  · have h0 : b.val ≠ 190 := fun h => hb (by
      have : b = (190 : Byte) := Fin.ext h
      subst this; rfl)
    refine ⟨_, rfl, ?_⟩
    simp only [MAGIC_NUMBER, u32Bytes, byteOf]
    omega
  · have h0 : b.val ≠ 173 := fun h => hb (by
      have : b = (173 : Byte) := Fin.ext h
      subst this; rfl)
    refine ⟨_, rfl, ?_⟩
    simp only [MAGIC_NUMBER, u32Bytes, byteOf]
    omega
  · have h0 : b.val ≠ 222 := fun h => hb (by
      have : b = (222 : Byte) := Fin.ext h
      subst this; rfl)
    refine ⟨_, rfl, ?_⟩
    simp only [MAGIC_NUMBER, u32Bytes, byteOf]
    omega

theorem serializeObjects_cons (codecs : Codecs T L) (o : AnimObject T L)
    (l : List (AnimObject T L)) :
    serializeObjects codecs [] (o :: l)
      = o.serialize codecs [] ++ (u32Bytes MAGIC_NUMBER ++ serializeObjects codecs [] l) := by
  simp only [serializeObjects]
  rw [serializeObjects_append codecs (writeU32 _ _) l]
  simp [writeU32, List.append_assoc]

theorem serializeObjects_concat (codecs : Codecs T L) (l1 l2 : List (AnimObject T L)) :
    serializeObjects codecs [] (l1 ++ l2)
      = serializeObjects codecs [] l1 ++ serializeObjects codecs [] l2 := by
  induction l1 with
  | nil => simp [serializeObjects]
  | cons o rest ih =>
    rw [List.cons_append, serializeObjects_cons, serializeObjects_cons, ih]
    simp [List.append_assoc]

/-- Load of the records of `A`, then the record of `o` followed by a word that
is not the magic number. -/
theorem deserializeObjects_changed_magic (codecs : Codecs T L)
    (htext : codecs.textObject.RoundTrips) (hlatex : codecs.laTexObject.RoundTrips)
    (o : AnimObject T L) (ho : o.InRange ∧ o.WellTagged)
    (tail post : List Byte) (v : Nat) (hread : readU32 tail = Except.ok (v, post))
    (hv : v ≠ MAGIC_NUMBER) (n : Nat) (A : List (AnimObject T L)) :
    ∀ (s : Manager T L), (∀ p ∈ A, p.InRange ∧ p.WellTagged) →
      (deserializeObjects codecs (A.length + 1 + n)
          (serializeObjects codecs [] A ++ (o.serialize codecs [] ++ tail)) s).fault ≠ none ∧
      (∃ decoded,
        (deserializeObjects codecs (A.length + 1 + n)
          (serializeObjects codecs [] A ++ (o.serialize codecs [] ++ tail)) s).state.mObjects
            = s.mObjects ++ decoded ∧
          decoded <+: (A ++ [o]).map (fun p => { p with isAnimating := false })) ∧
      ((∀ p ∈ A ++ [o], p.ProperKinds) →
        (deserializeObjects codecs (A.length + 1 + n)
          (serializeObjects codecs [] A ++ (o.serialize codecs [] ++ tail)) s).fault
            = some Fault.assertion ∧
        (deserializeObjects codecs (A.length + 1 + n)
          (serializeObjects codecs [] A ++ (o.serialize codecs [] ++ tail)) s).state.mObjects
            = s.mObjects ++ (A ++ [o]).map (fun p => { p with isAnimating := false })) := by
  induction A with
  | nil =>
    intro s _
    have hn : ([] : List (AnimObject T L)).length + 1 + n = n + 1 := by simp; omega
    rw [hn]
    simp only [serializeObjects, List.nil_append]
    unfold deserializeObjects
    simp only [AnimObject.deserialize, if_true]
    rcases deserializeAnimObjectV1_record codecs o tail s.animObjectUidCounter
      s.animationUidCounter htext hlatex ho.1 ho.2 with ⟨c1', c2', hdec⟩ | herr
    · simp only [hdec, hread, if_neg hv]
      exact ⟨by simp, ⟨[{ o with isAnimating := false }], rfl, by simp⟩, fun _ => by simp⟩
    · simp only [herr]
      refine ⟨by simp, ⟨[], by simp, List.nil_prefix⟩, ?_⟩
      intro hk
      obtain ⟨c1', c2', hdec⟩ := deserializeAnimObjectV1_serialize codecs o tail
        s.animObjectUidCounter s.animationUidCounter htext hlatex (hk o (by simp)) ho.1 ho.2
      rw [hdec] at herr
      cases herr
  | cons p rest ih =>
    intro s hA
    have hp := hA p (List.mem_cons_self _ _)
    have hn : (p :: rest).length + 1 + n = (rest.length + 1 + n) + 1 := by
      simp only [List.length_cons]; omega
    rw [hn, serializeObjects_cons]
    simp only [List.append_assoc]
    unfold deserializeObjects
    simp only [AnimObject.deserialize, if_true]
    have hmagic : MAGIC_NUMBER < 2 ^ 32 := by decide
    rcases deserializeAnimObjectV1_record codecs p
      (u32Bytes MAGIC_NUMBER ++ (serializeObjects codecs [] rest ++ (o.serialize codecs [] ++ tail)))
      s.animObjectUidCounter s.animationUidCounter htext hlatex hp.1 hp.2
      with ⟨c1', c2', hdec⟩ | herr
    · simp only [hdec, readU32_u32Bytes _ _ hmagic, if_true]
      obtain ⟨ih1, ⟨decoded, ih2, ih3⟩, ih4⟩ := ih
        { mObjects := s.mObjects ++ [{ p with isAnimating := false }],
          animObjectUidCounter := c1', animationUidCounter := c2' }
        (fun q hq => hA q (List.mem_cons_of_mem _ hq))
      refine ⟨ih1, ⟨{ p with isAnimating := false } :: decoded, ?_, ?_⟩, ?_⟩
      · rw [ih2]; simp
      · simp only [List.cons_append, List.map_cons]
        exact (List.prefix_cons_inj _).2 ih3
      · intro hk
        obtain ⟨h1, h2⟩ := ih4 (fun q hq => hk q (by
          rw [List.cons_append]; exact List.mem_cons_of_mem _ hq))
        refine ⟨h1, ?_⟩
        rw [h2]; simp
    · simp only [herr]
      refine ⟨by simp, ⟨[], by simp, List.nil_prefix⟩, ?_⟩
      intro hk
      obtain ⟨c1', c2', hdec⟩ := deserializeAnimObjectV1_serialize codecs p
        (u32Bytes MAGIC_NUMBER ++
          (serializeObjects codecs [] rest ++ (o.serialize codecs [] ++ tail)))
        s.animObjectUidCounter s.animationUidCounter htext hlatex (hk p (by simp)) hp.1 hp.2
      rw [hdec] at herr
      cases herr

end TrailerLoad

section TrailerSplit

variable {T L : Type}

theorem u32Bytes_length (v : Nat) : (u32Bytes v).length = 4 := rfl

theorem serialize_eq (codecs : Codecs T L) (R : List (AnimObject T L)) :
    serialize codecs R
      = u32Bytes MAGIC_NUMBER ++ (u32Bytes SERIALIZER_VERSION ++
          (u32Bytes (R.length % 2 ^ 32) ++ serializeObjects codecs [] R)) := by
  unfold serialize
  rw [serializeObjects_append]
  simp [writeU32, List.append_assoc]

theorem trailerOffset_eq (codecs : Codecs T L) (A B : List (AnimObject T L))
    (o : AnimObject T L) :
    trailerOffset codecs (A ++ o :: B) A.length
      = 12 + (serializeObjects codecs [] A ++ o.serialize codecs []).length := by
  unfold trailerOffset
  have htake : (A ++ o :: B).take (A.length + 1) = A ++ [o] := by
    rw [List.take_append_eq_append_take]
    simp
  rw [htake, serialize_eq, serializeObjects_concat, serializeObjects_cons]
  simp only [List.length_append, u32Bytes_length, serializeObjects, List.length_nil]
  omega

theorem serialize_set_trailer (codecs : Codecs T L) (A B : List (AnimObject T L))
    (o : AnimObject T L) (j : Nat) (b : Byte) (hj : j < 4) :
    (serialize codecs (A ++ o :: B)).set (trailerOffset codecs (A ++ o :: B) A.length + j) b
        = u32Bytes MAGIC_NUMBER ++ (u32Bytes SERIALIZER_VERSION ++
            (u32Bytes ((A ++ o :: B).length % 2 ^ 32) ++
              (serializeObjects codecs [] A ++ (o.serialize codecs [] ++
                ((u32Bytes MAGIC_NUMBER).set j b ++ serializeObjects codecs [] B))))) ∧
      (serialize codecs (A ++ o :: B))[trailerOffset codecs (A ++ o :: B) A.length + j]?
        = (u32Bytes MAGIC_NUMBER)[j]? := by
  have hsplit : serialize codecs (A ++ o :: B)
      = (u32Bytes MAGIC_NUMBER ++ (u32Bytes SERIALIZER_VERSION ++
          (u32Bytes ((A ++ o :: B).length % 2 ^ 32) ++
            (serializeObjects codecs [] A ++ o.serialize codecs [])))) ++
        (u32Bytes MAGIC_NUMBER ++ serializeObjects codecs [] B) := by
    rw [serialize_eq, serializeObjects_concat, serializeObjects_cons]
    simp only [List.append_assoc]
  have hlen : (u32Bytes MAGIC_NUMBER ++ (u32Bytes SERIALIZER_VERSION ++
          (u32Bytes ((A ++ o :: B).length % 2 ^ 32) ++
            (serializeObjects codecs [] A ++ o.serialize codecs [])))).length
      = trailerOffset codecs (A ++ o :: B) A.length := by
    rw [trailerOffset_eq]
    simp only [List.length_append, u32Bytes_length]
    omega
  rw [hsplit, ← hlen]
  constructor
  · rw [List.set_append_right _ _ (Nat.le_add_right _ _), Nat.add_sub_cancel_left,
      List.set_append_left _ _ (by rw [u32Bytes_length]; exact hj)]
    simp only [List.append_assoc]
  · rw [List.getElem?_append_right (Nat.le_add_right _ _), Nat.add_sub_cancel_left,
      List.getElem?_append_left (by rw [u32Bytes_length]; exact hj)]

end TrailerSplit

section TrailerClaim

/-- C17 (trailing-sentinel corruption detection). Let `R` be a registry whose
values the container carries (32 bit fields, payload codecs that read back
what they write) and `k` one of its records. The four bytes at
`trailerOffset R k` of the container `serialize(R)` are the magic number that
trails record `k`; when the byte at position `j < 4` of it is replaced by any
other byte `b`, the load of the changed container fails, and the objects it
appended to the registry are records of `R` up to and including `k` only: no
record after `k` is decoded. When the kinds of the records up to `k` are
below `Length` (so that these records load), the load fails exactly at the
assertion that follows record `k`, with the records `0..k` appended. The
load being a function of the buffer and the state, the outcome is the same on
every run. -/
theorem trailing_magic_detected (T L : Type) (codecs : Codecs T L) (R : List (AnimObject T L))
    (k j : Nat) (b : Byte) (s : Manager T L)
    (htext : codecs.textObject.RoundTrips) (hlatex : codecs.laTexObject.RoundTrips)
    (hfit : Storable R) (hk : k < R.length) (hj : j < 4)
    (hb : (serialize codecs R)[trailerOffset codecs R k + j]? ≠ some b) :
    (serialize codecs R)[trailerOffset codecs R k + j]? = (u32Bytes MAGIC_NUMBER)[j]? ∧
      (deserialize codecs (some ((serialize codecs R).set (trailerOffset codecs R k + j) b))
        s).fault ≠ none ∧
      (∃ decoded,
        (deserialize codecs (some ((serialize codecs R).set (trailerOffset codecs R k + j) b))
          s).state.mObjects = s.mObjects ++ decoded ∧
        decoded <+: persistentFields (R.take (k + 1))) ∧
      ((∀ o ∈ R.take (k + 1), o.ProperKinds) →
        (deserialize codecs (some ((serialize codecs R).set (trailerOffset codecs R k + j) b))
          s).fault = some Fault.assertion ∧
        (deserialize codecs (some ((serialize codecs R).set (trailerOffset codecs R k + j) b))
          s).state.mObjects = s.mObjects ++ persistentFields (R.take (k + 1))) := by
  obtain ⟨hlen, hobjs⟩ := hfit
  have hR : R = R.take k ++ R[k] :: R.drop (k + 1) := by
    rw [← List.drop_eq_getElem_cons hk, List.take_append_drop]
  have hAlen : (R.take k).length = k := by
    rw [List.length_take]; omega
  generalize hA : R.take k = A at hR hAlen
  generalize hB : R.drop (k + 1) = B at hR
  generalize ho : R[k] = o at hR
  clear hA hB ho
  subst hR
  subst hAlen
  obtain ⟨hset, hget⟩ := serialize_set_trailer codecs A B o j b hj
  rw [hget] at hb
  obtain ⟨v, hread, hv⟩ := readU32_changed_magic j b (serializeObjects codecs [] B) hj hb
  have hmagic : MAGIC_NUMBER < 2 ^ 32 := by decide
  have hver : SERIALIZER_VERSION < 2 ^ 32 := by decide
  have hlen32 : (A ++ o :: B).length % 2 ^ 32 = (A ++ o :: B).length := by
    apply Nat.mod_eq_of_lt; omega
  have hlen' : (A ++ o :: B).length < 2 ^ 32 := by omega
  have hcount : (A ++ o :: B).length = A.length + 1 + B.length := by
    simp only [List.length_append, List.length_cons]; omega
  have htake : (A ++ o :: B).take (A.length + 1) = A ++ [o] := by
    rw [List.take_append_eq_append_take]
    simp
  have hload : deserialize codecs
      (some ((serialize codecs (A ++ o :: B)).set
        (trailerOffset codecs (A ++ o :: B) A.length + j) b)) s
      = deserializeObjects codecs (A.length + 1 + B.length)
          (serializeObjects codecs [] A ++ (o.serialize codecs [] ++
            ((u32Bytes MAGIC_NUMBER).set j b ++ serializeObjects codecs [] B))) s := by
    rw [hset]
    have hgood := deserialize_good_header codecs
      (u32Bytes MAGIC_NUMBER ++ (u32Bytes SERIALIZER_VERSION ++
        (u32Bytes ((A ++ o :: B).length % 2 ^ 32) ++
          (serializeObjects codecs [] A ++ (o.serialize codecs [] ++
            ((u32Bytes MAGIC_NUMBER).set j b ++ serializeObjects codecs [] B))))))
      _ _ s (readU32_u32Bytes _ _ hmagic) (readU32_u32Bytes _ _ hver)
    rw [hgood]
    unfold deserializeAnimationManagerExV1
    rw [hlen32, readU32_u32Bytes _ _ hlen', hcount]
  have hmain := deserializeObjects_changed_magic codecs htext hlatex o
    (hobjs o (by simp)) ((u32Bytes MAGIC_NUMBER).set j b ++ serializeObjects codecs [] B)
    (serializeObjects codecs [] B) v hread hv B.length A s
    (fun p hp => hobjs p (by simp [hp]))
  rw [hload, htake]
  exact ⟨hget, hmain⟩

/-- C17, concrete check: in the container of two objects the low byte of the
magic behind the first record is changed to 0; the load stops at the
assertion with only the first object in the registry. -/
theorem trailing_magic_detected_witness :
    (deserialize unitCodecs
        (some ((serialize unitCodecs [sampleTextObject 1 0 5 [sampleAnimation 0 1 0 5],
            sampleTextObject 2 0 5 []]).set
          (trailerOffset unitCodecs [sampleTextObject 1 0 5 [sampleAnimation 0 1 0 5],
            sampleTextObject 2 0 5 []] 0 + 0) (0 : Byte)))
        { mObjects := [], animObjectUidCounter := 0, animationUidCounter := 0 }).fault
      = some Fault.assertion ∧
    (deserialize unitCodecs
        (some ((serialize unitCodecs [sampleTextObject 1 0 5 [sampleAnimation 0 1 0 5],
            sampleTextObject 2 0 5 []]).set
          (trailerOffset unitCodecs [sampleTextObject 1 0 5 [sampleAnimation 0 1 0 5],
            sampleTextObject 2 0 5 []] 0 + 0) (0 : Byte)))
        { mObjects := [], animObjectUidCounter := 0, animationUidCounter := 0 }).state.mObjects
      = [] ++ persistentFields
          (List.take (0 + 1) [sampleTextObject 1 0 5 [sampleAnimation 0 1 0 5],
            sampleTextObject 2 0 5 []]) :=
  (trailing_magic_detected Unit Unit unitCodecs
    [sampleTextObject 1 0 5 [sampleAnimation 0 1 0 5], sampleTextObject 2 0 5 []] 0 0 (0 : Byte)
    { mObjects := [], animObjectUidCounter := 0, animationUidCounter := 0 }
    (fun _ _ => rfl) (fun _ _ => rfl)
    ⟨by decide, by
      intro o ho
      simp only [List.mem_cons, List.mem_singleton, List.not_mem_nil, or_false] at ho
      rcases ho with rfl | rfl
      · exact ⟨by decide, trivial⟩
      · exact ⟨by decide, trivial⟩⟩
    (by decide) (by decide) (by decide)).2.2.2
    (by decide)

end TrailerClaim

section StatelessLemmas

variable {T L : Type}

theorem objectKeys_append (l1 l2 : List (AnimObject T L)) :
    objectKeys (l1 ++ l2) = objectKeys l1 ++ objectKeys l2 := by
  simp [objectKeys]

theorem objectKeys_persistentFields (l : List (AnimObject T L)) :
    objectKeys (persistentFields l) = objectKeys l := by
  simp [objectKeys, persistentFields]

theorem objectKeys_of_persistentFields (l l' : List (AnimObject T L))
    (h : persistentFields l = persistentFields l') : objectKeys l = objectKeys l' := by
  rw [← objectKeys_persistentFields l, h, objectKeys_persistentFields]

theorem objectKeys_length (l : List (AnimObject T L)) : (objectKeys l).length = l.length := by
  simp [objectKeys]

theorem persistentFields_append (l1 l2 : List (AnimObject T L)) :
    persistentFields (l1 ++ l2) = persistentFields l1 ++ persistentFields l2 := by
  simp [persistentFields]

theorem renderAnimations_congr (frame : Int) (before after before' after' : List (AnimObject T L))
    (i : Nat) (anims : List AnimationEx) :
    ∀ (j : Nat) (cur : AnimObject T L),
      objectKeys (before ++ cur :: after) = objectKeys (before' ++ cur :: after') →
      renderAnimations frame before after i j cur anims
        = renderAnimations frame before' after' i j cur anims := by
  induction anims with
  | nil => intro j cur _; rfl
  | cons a rest ih =>
    intro j cur hkeys
    have hlook : (getMutableObject a.objectId (before ++ cur :: after)).map AnimObject.frameStart
        = (getMutableObject a.objectId (before' ++ cur :: after')).map AnimObject.frameStart := by
      rw [← lookupStart_objectKeys, ← lookupStart_objectKeys, hkeys]
    have hkeys' : objectKeys (before ++ { cur with isAnimating := true } :: after)
        = objectKeys (before' ++ { cur with isAnimating := true } :: after') := by
      simp only [objectKeys, List.map_append, List.map_cons] at hkeys ⊢
      exact hkeys
    unfold renderAnimations
    cases h1 : getMutableObject a.objectId (before ++ cur :: after) with
    | none =>
      cases h2 : getMutableObject a.objectId (before' ++ cur :: after') with
      | none => rfl
      | some p' => rw [h1, h2] at hlook; cases hlook
    | some p =>
      cases h2 : getMutableObject a.objectId (before' ++ cur :: after') with
      | none => rw [h1, h2] at hlook; cases hlook
      | some p' =>
        rw [h1, h2] at hlook
        simp only [Option.map_some', Option.some.injEq] at hlook
        simp only [hlook]
        cases animationStep frame p'.frameStart a with
        | none => exact ih (j + 1) cur hkeys
        | some t =>
          simp only
          rw [ih (j + 1) { cur with isAnimating := true } hkeys']

theorem renderAnimations_fields (frame : Int) (before after : List (AnimObject T L))
    (i : Nat) (anims : List AnimationEx) :
    ∀ (j : Nat) (cur : AnimObject T L),
      { (renderAnimations frame before after i j cur anims).1 with isAnimating := false }
        = { cur with isAnimating := false } := by
  induction anims with
  | nil => intro j cur; rfl
  | cons a rest ih =>
    intro j cur
    unfold renderAnimations
    split
    · rfl
    · split
      · simp only
        rw [ih (j + 1) { cur with isAnimating := true }]
      · exact ih (j + 1) cur

theorem objectKeys_of_fields (p q : AnimObject T L)
    (h : { p with isAnimating := false } = { q with isAnimating := false }) :
    (p.id, p.frameStart) = (q.id, q.frameStart) := by
  have h1 := congrArg AnimObject.id h
  have h2 := congrArg AnimObject.frameStart h
  simp only at h1 h2
  rw [h1, h2]

theorem renderObjects_fields (frame : Int) (todo : List (AnimObject T L)) :
    ∀ before : List (AnimObject T L),
      persistentFields (renderObjects frame before todo).mObjects
        = persistentFields (before ++ todo) := by
  induction todo with
  | nil => intro before; simp [renderObjects]
  | cons o after ih =>
    intro before
    have hf := renderAnimations_fields frame before after before.length o.animations 0
      { o with isAnimating := false }
    unfold renderObjects
    simp only
    split
    · simp only [persistentFields, List.map_append, List.map_cons] at hf ⊢
      rw [hf]
    · simp only
      rw [ih (before ++ [_])]
      simp only [persistentFields, List.map_append, List.map_cons, List.map_nil,
        List.append_assoc, List.singleton_append] at hf ⊢
      rw [hf]

theorem renderObjects_congr (frame : Int) (todo : List (AnimObject T L)) :
    ∀ (todo' before before' : List (AnimObject T L)),
      objectKeys before = objectKeys before' →
      persistentFields todo = persistentFields todo' →
      (renderObjects frame before todo).dispatches
          = (renderObjects frame before' todo').dispatches ∧
        (renderObjects frame before todo).fault = (renderObjects frame before' todo').fault ∧
        ((renderObjects frame before todo).fault = none →
          ∃ X, (renderObjects frame before todo).mObjects = before ++ X ∧
            (renderObjects frame before' todo').mObjects = before' ++ X) := by
  induction todo with
  | nil =>
    intro todo' before before' _ htodo
    cases todo' with
    | nil => exact ⟨rfl, rfl, fun _ => ⟨[], by simp [renderObjects], by simp [renderObjects]⟩⟩
    | cons _ _ => simp [persistentFields] at htodo
  | cons o after ih =>
    intro todo' before before' hbefore htodo
    cases todo' with
    | nil => simp [persistentFields] at htodo
    | cons o' after' =>
      simp only [persistentFields, List.map_cons, List.cons.injEq] at htodo
      obtain ⟨ho, hafter⟩ := htodo
      have hanims : o.animations = o'.animations := by
        have := congrArg AnimObject.animations ho
        simpa using this
      have hlen : before.length = before'.length := by
        rw [← objectKeys_length before, hbefore, objectKeys_length]
      have hkeys : objectKeys (before ++ { o with isAnimating := false } :: after)
          = objectKeys (before' ++ { o with isAnimating := false } :: after') := by
        rw [objectKeys_append, objectKeys_append, hbefore]
        congr 1
        have ha := objectKeys_of_persistentFields after after' hafter
        simp only [objectKeys, List.map_cons] at ha ⊢
        rw [ha]
      have hr := renderAnimations_congr frame before after before' after' before.length
        o.animations 0 { o with isAnimating := false } hkeys
      unfold renderObjects
      simp only
      rw [← ho, ← hanims, ← hlen, ← hr]
      generalize renderAnimations frame before after before.length 0
        { o with isAnimating := false } o.animations = r
      obtain ⟨cur, ds, fault⟩ := r
      cases fault with
      | some f =>
        simp only
        exact ⟨trivial, trivial, fun h => by cases h⟩
      | none =>
        simp only
        have hkeys1 : objectKeys (before ++ [cur]) = objectKeys (before' ++ [cur]) := by
          rw [objectKeys_append, objectKeys_append, hbefore]
        obtain ⟨h1, h2, h3⟩ := ih after' _ _ hkeys1 hafter
        refine ⟨by rw [h1], h2, ?_⟩
        intro hnone
        obtain ⟨X, hX, hX'⟩ := h3 hnone
        exact ⟨cur :: X, by rw [hX]; simp, by rw [hX']; simp⟩

theorem render_congr (frame : Int) (R R' : List (AnimObject T L))
    (h : persistentFields R = persistentFields R') :
    (render frame R).dispatches = (render frame R').dispatches ∧
      (render frame R).fault = (render frame R').fault ∧
      ((render frame R).fault = none → (render frame R).mObjects = (render frame R').mObjects) := by
  obtain ⟨h1, h2, h3⟩ := renderObjects_congr frame R R' [] [] rfl h
  refine ⟨h1, h2, ?_⟩
  intro hnone
  obtain ⟨X, hX, hX'⟩ := h3 hnone
  unfold render
  rw [hX, hX']

theorem render_fields (frame : Int) (R : List (AnimObject T L)) :
    persistentFields (render frame R).mObjects = persistentFields R := by
  unfold render
  rw [renderObjects_fields]
  rfl

end StatelessLemmas

section StatelessClaim

/-- C20 (playback is stateless and idempotent). For every registry `R` and
frame `F`: a registry `R2` that agrees with `R` in every field except the
flags `isAnimating` gets the same calls from `render(F)`, runs into the same
outcome, and, when `render(F)` returns, ends in the same state, flags
included; `render` changes no field other than `isAnimating`; hence
`render(F)` after `render(F)`, and `render(F)` after `render(G)` for any
frame `G`, make the calls that `render(F)` alone makes and, when
`render(F)` returns, leave the state that `render(F)` alone leaves. -/
theorem render_stateless (T L : Type) (R : List (AnimObject T L)) (frame other : Int) :
    (∀ R2 : List (AnimObject T L), persistentFields R = persistentFields R2 →
        (render frame R).dispatches = (render frame R2).dispatches ∧
          (render frame R).fault = (render frame R2).fault ∧
          ((render frame R).fault = none →
            (render frame R).mObjects = (render frame R2).mObjects)) ∧
      persistentFields (render frame R).mObjects = persistentFields R ∧
      (render frame (render frame R).mObjects).dispatches = (render frame R).dispatches ∧
      (render frame (render frame R).mObjects).fault = (render frame R).fault ∧
      ((render frame R).fault = none →
        (render frame (render frame R).mObjects).mObjects = (render frame R).mObjects) ∧
      (render frame (render other R).mObjects).dispatches = (render frame R).dispatches ∧
      (render frame (render other R).mObjects).fault = (render frame R).fault ∧
      ((render frame R).fault = none →
        (render frame (render other R).mObjects).mObjects = (render frame R).mObjects) := by
  have hsame := render_congr frame R (render frame R).mObjects (render_fields frame R).symm
  have hother := render_congr frame R (render other R).mObjects (render_fields other R).symm
  exact ⟨fun R2 h => render_congr frame R R2 h, render_fields frame R,
    hsame.1.symm, hsame.2.1.symm, fun h => (hsame.2.2 h).symm,
    hother.1.symm, hother.2.1.symm, fun h => (hother.2.2 h).symm⟩

/-- C20, concrete check: a registry of two objects, the first with an
animation that is active at frame 3 but not at frame 40, with a stale flag
set on the second; `render(3)` after `render(40)` leaves the state of
`render(3)` alone, and so does `render(3)` on the registry with the flags
reset. -/
theorem render_stateless_witness :
    (render 3 (render 40 [sampleObject 0 0 10 [sampleAnimation 0 0 2 4],
        { sampleObject 1 2 5 [] with isAnimating := true }]).mObjects).mObjects
      = (render 3 [sampleObject 0 0 10 [sampleAnimation 0 0 2 4],
          { sampleObject 1 2 5 [] with isAnimating := true }]).mObjects ∧
    (render 3 [sampleObject 0 0 10 [sampleAnimation 0 0 2 4],
        { sampleObject 1 2 5 [] with isAnimating := true }]).mObjects
      = (render 3 [sampleObject 0 0 10 [sampleAnimation 0 0 2 4],
          sampleObject 1 2 5 []]).mObjects :=
  ⟨(render_stateless Unit Unit [sampleObject 0 0 10 [sampleAnimation 0 0 2 4],
      { sampleObject 1 2 5 [] with isAnimating := true }] 3 40).2.2.2.2.2.2.2 (by decide),
    ((render_stateless Unit Unit [sampleObject 0 0 10 [sampleAnimation 0 0 2 4],
      { sampleObject 1 2 5 [] with isAnimating := true }] 3 40).1
      [sampleObject 0 0 10 [sampleAnimation 0 0 2 4], sampleObject 1 2 5 []] (by decide)).2.2
      (by decide)⟩

end StatelessClaim

section LayoutLemmas

variable {T L : Type}

theorem u32Bytes_mod (v : Nat) : u32Bytes (v % 2 ^ 32) = u32Bytes v := by
  simp only [u32Bytes, byteOf, List.cons.injEq, and_true]
  refine ⟨?_, ?_, ?_, ?_⟩ <;> apply Fin.ext <;> simp only <;> omega

theorem serializeAnimations_flatten (l : List AnimationEx) :
    serializeAnimations [] l = (l.map (fun a => a.serialize [])).flatten := by
  induction l with
  | nil => rfl
  | cons a rest ih =>
    simp only [serializeAnimations, List.map_cons, List.flatten_cons]
    rw [serializeAnimations_append, ih]

theorem serializeObjects_flatten (codecs : Codecs T L) (l : List (AnimObject T L)) :
    serializeObjects codecs [] l
      = (l.map (fun o => o.serialize codecs [] ++ u32Bytes MAGIC_NUMBER)).flatten := by
  induction l with
  | nil => rfl
  | cons o rest ih =>
    rw [serializeObjects_cons, ih]
    simp only [List.map_cons, List.flatten_cons, List.append_assoc]

theorem deserializeAnimationExV1_bad_tag (memory m1 : List Byte) (animType : Nat)
    (h : readU32 memory = Except.ok (animType, m1))
    (hk : AnimTypeEx.Length.toNat ≤ animType) :
    deserializeAnimationExV1 memory = Except.error Fault.assertion := by
  unfold deserializeAnimationExV1
  simp only [h, bind, Except.bind]
  rw [if_neg (by omega)]
  rfl

end LayoutLemmas

section LayoutClaims

/-- C22 (animation record round trip). `AnimationEx::serialize` appends
exactly 20 bytes to the buffer: the kind tag, `objectId`, `frameStart`,
`duration` and `id`, 4 bytes each, in that order. For an animation whose kind
tag is below `Length`, `AnimationEx::deserialize` with version 1 on those
bytes (whatever follows them) consumes exactly the 20 bytes and returns the
same animation; when the kind tag in the buffer is `Length` or more, as for
the record of an animation of kind `Length`, the decoder stops at its
assertion. The fields are 32 bit values, as `int32` fields are. -/
theorem animation_record_roundtrip (a : AnimationEx) (hr : a.InRange) :
    (∀ memory : List Byte,
        a.serialize memory
          = memory ++ (u32Bytes a.type.toNat ++ (u32Bytes (int32Bits a.objectId) ++
              (u32Bytes (int32Bits a.frameStart) ++ (u32Bytes (int32Bits a.duration) ++
                u32Bytes (int32Bits a.id))))) ∧
        (a.serialize memory).length = memory.length + 20) ∧
      (a.type.toNat < AnimTypeEx.Length.toNat →
        ∀ rest : List Byte,
          AnimationEx.deserialize (a.serialize [] ++ rest) 1 = Except.ok (a, rest)) ∧
      (AnimTypeEx.Length.toNat ≤ a.type.toNat →
        ∀ rest : List Byte,
          AnimationEx.deserialize (a.serialize [] ++ rest) 1 = Except.error Fault.assertion) ∧
      ∀ (memory m1 : List Byte) (animType : Nat),
        readU32 memory = Except.ok (animType, m1) → AnimTypeEx.Length.toNat ≤ animType →
        AnimationEx.deserialize memory 1 = Except.error Fault.assertion := by
  have hbytes : ∀ memory : List Byte, a.serialize memory
      = memory ++ (u32Bytes a.type.toNat ++ (u32Bytes (int32Bits a.objectId) ++
          (u32Bytes (int32Bits a.frameStart) ++ (u32Bytes (int32Bits a.duration) ++
            u32Bytes (int32Bits a.id))))) := by
    intro memory
    simp [AnimationEx.serialize, writeU32, writeI32, List.append_assoc]
  have htl : a.type.toNat < 2 ^ 32 := by
    cases a.type <;> simp [AnimTypeEx.toNat]
  refine ⟨fun memory => ⟨hbytes memory, ?_⟩, ?_, ?_, ?_⟩
  · rw [hbytes]
    simp only [List.length_append, u32Bytes_length]
  · intro hk rest
    have hne : a.type ≠ AnimTypeEx.Length := by
      intro h
      rw [h] at hk
      exact absurd hk (by decide)
    simp only [AnimationEx.deserialize, if_true]
    exact deserializeAnimationExV1_serialize a rest hne hr
  · intro hk rest
    simp only [AnimationEx.deserialize, if_true]
    have hform : a.serialize [] ++ rest
        = u32Bytes a.type.toNat ++ (u32Bytes (int32Bits a.objectId) ++
            (u32Bytes (int32Bits a.frameStart) ++ (u32Bytes (int32Bits a.duration) ++
              (u32Bytes (int32Bits a.id) ++ rest)))) := by
      rw [hbytes]
      simp only [List.nil_append, List.append_assoc]
    rw [hform]
    exact deserializeAnimationExV1_bad_tag _ _ _ (readU32_u32Bytes _ _ htl) hk
  · intro memory m1 animType h hk
    simp only [AnimationEx.deserialize, if_true]
    exact deserializeAnimationExV1_bad_tag memory m1 animType h hk

/-- C22, concrete check: the record of a `WriteInText` animation with a
negative start is 20 bytes long and is read back, with the byte behind it
left in the buffer. -/
theorem animation_record_roundtrip_witness :
    ((sampleAnimation 3 7 (-2) 5).serialize []).length = 0 + 20 ∧
      AnimationEx.deserialize ((sampleAnimation 3 7 (-2) 5).serialize [] ++ [(9 : Byte)]) 1
        = Except.ok (sampleAnimation 3 7 (-2) 5, [(9 : Byte)]) :=
  ⟨((animation_record_roundtrip (sampleAnimation 3 7 (-2) 5) (by decide)).1 []).2,
    (animation_record_roundtrip (sampleAnimation 3 7 (-2) 5) (by decide)).2.1 (by decide)
      [(9 : Byte)]⟩

/-- C21 (container layout and order on write). For every registry `R` the
bytes of `serialize` are the magic number `0xDEADBEEF`, the version 1 and the
count of objects, 4 bytes each, followed by one record per object in the
order of `R`, each record directly followed by the 4 bytes of the magic
number. The record of an object is its kind tag, the two position words, id,
`frameStart`, duration and track (4 bytes each), the payload of its kind, the
count of its animations (4 bytes) and the 20-byte records of its animations in
their order; the count holds the number of animations whenever that fits the
32 bit field. -/
theorem serialize_layout (T L : Type) (codecs : Codecs T L) (R : List (AnimObject T L)) :
    serialize codecs R
        = u32Bytes MAGIC_NUMBER ++ (u32Bytes SERIALIZER_VERSION ++ (u32Bytes R.length ++
            (R.map (fun o => o.serialize codecs [] ++ u32Bytes MAGIC_NUMBER)).flatten)) ∧
      u32Bytes MAGIC_NUMBER = [(0xEF : Byte), 0xBE, 0xAD, 0xDE] ∧
      u32Bytes SERIALIZER_VERSION = [(1 : Byte), 0, 0, 0] ∧
      ∀ o ∈ R, o.animations.length < 2 ^ 32 →
        o.serialize codecs []
          = u32Bytes o.objectType.toNat ++ (u32Bytes o.position.x ++ (u32Bytes o.position.y ++
              (u32Bytes (int32Bits o.id) ++ (u32Bytes (int32Bits o.frameStart) ++
                (u32Bytes (int32Bits o.duration) ++ (u32Bytes (int32Bits o.timelineTrack) ++
                  ((match o.objectType, o.as with
                    | AnimObjectType.TextObject, ObjectData.textObject t =>
                      codecs.textObject.serialize t
                    | AnimObjectType.LaTexObject, ObjectData.laTexObject l =>
                      codecs.laTexObject.serialize l
                    | _, _ => []) ++
                  (u32Bytes o.animations.length ++
                    (o.animations.map (fun a => a.serialize [])).flatten)))))))) := by
  refine ⟨?_, by decide, by decide, ?_⟩
  · rw [serialize_eq, u32Bytes_mod, serializeObjects_flatten]
  · intro o _ hlen
    have hlen32 : o.animations.length % 2 ^ 32 = o.animations.length := Nat.mod_eq_of_lt hlen
    unfold AnimObject.serialize
    simp only [hlen32, List.take_length]
    rw [serializeAnimations_append (writeU32 _ _), serializeAnimations_flatten]
    obtain ⟨objectType, position, id, frameStart, duration, timelineTrack, isAnimating, as,
      animations⟩ := o
    cases objectType <;> cases as <;>
      simp [writeU32, writeI32, List.append_assoc]

/-- C21, concrete check: the record of the second object of a two-object
registry has the stated layout, with the two animation records in the order
of the vector. -/
theorem serialize_layout_witness :
    (sampleTextObject 4 (-3) 20 [sampleAnimation 1 4 7 2, sampleAnimation 0 4 0 9]).serialize
        unitCodecs []
      = u32Bytes 1 ++ (u32Bytes 1065353216 ++ (u32Bytes 0 ++
          (u32Bytes (int32Bits 4) ++ (u32Bytes (int32Bits (-3)) ++
            (u32Bytes (int32Bits 20) ++ (u32Bytes (int32Bits 2) ++
              ([] ++ (u32Bytes 2 ++
                ((sampleAnimation 1 4 7 2).serialize [] ++
                  ((sampleAnimation 0 4 0 9).serialize [] ++ [])))))))))) :=
  (serialize_layout Unit Unit unitCodecs
    [sampleObject 2 5 1 [],
      sampleTextObject 4 (-3) 20 [sampleAnimation 1 4 7 2, sampleAnimation 0 4 0 9]]).2.2.2
    (sampleTextObject 4 (-3) 20 [sampleAnimation 1 4 7 2, sampleAnimation 0 4 0 9])
    (by decide) (by decide)

end LayoutClaims

section AppendLemmas

variable {T L : Type}

theorem deserializeObjects_onto (codecs : Codecs T L) :
    ∀ (n : Nat) (memory : List Byte) (s s' : Manager T L),
      s.animObjectUidCounter = s'.animObjectUidCounter →
      s.animationUidCounter = s'.animationUidCounter →
      (deserializeObjects codecs n memory s).fault = (deserializeObjects codecs n memory s').fault ∧
        ∃ decoded,
          (deserializeObjects codecs n memory s).state.mObjects = s.mObjects ++ decoded ∧
          (deserializeObjects codecs n memory s').state.mObjects = s'.mObjects ++ decoded := by
  intro n
  induction n with
  | zero => intro memory s s' _ _; exact ⟨rfl, [], by simp [deserializeObjects]⟩
  | succ n ih =>
    intro memory s s' h1 h2
    unfold deserializeObjects
    rw [← h1, ← h2]
    cases AnimObject.deserialize codecs memory 1 s.animObjectUidCounter
        s.animationUidCounter with
    | error f => exact ⟨rfl, [], by simp⟩
    | ok r =>
      obtain ⟨animObject, m1, objectCounter, animationCounter⟩ := r
      simp only
      cases readU32 m1 with
      | error f => exact ⟨rfl, [animObject], rfl, rfl⟩
      | ok r2 =>
        obtain ⟨magicNumber, m2⟩ := r2
        simp only
        split
        · obtain ⟨hf, decoded, hd, hd'⟩ := ih m2
            { mObjects := s.mObjects ++ [animObject], animObjectUidCounter := objectCounter,
              animationUidCounter := animationCounter }
            { mObjects := s'.mObjects ++ [animObject], animObjectUidCounter := objectCounter,
              animationUidCounter := animationCounter } rfl rfl
          refine ⟨hf, animObject :: decoded, ?_, ?_⟩
          · rw [hd]; simp
          · rw [hd']; simp
        · exact ⟨rfl, [animObject], rfl, rfl⟩

theorem deserialize_onto (codecs : Codecs T L) (memory : List Byte) (s : Manager T L) :
    (deserialize codecs (some memory) s).fault
        = (deserialize codecs (some memory) { s with mObjects := [] }).fault ∧
      (deserialize codecs (some memory) s).state.mObjects
        = s.mObjects ++
          (deserialize codecs (some memory) { s with mObjects := [] }).state.mObjects := by
  unfold deserialize
  simp only
  cases readU32 memory with
  | error f => exact ⟨rfl, by simp⟩
  | ok r =>
    obtain ⟨magicNumber, m1⟩ := r
    simp only
    cases readU32 m1 with
    | error f => exact ⟨rfl, by simp⟩
    | ok r2 =>
      obtain ⟨serializerVersion, m2⟩ := r2
      simp only
      split
      · exact ⟨rfl, by simp⟩
      · split
        · exact ⟨rfl, by simp⟩
        · split
          · unfold deserializeAnimationManagerExV1
            cases readU32 m2 with
            | error f => exact ⟨rfl, by simp⟩
            | ok r3 =>
              obtain ⟨numAnimations, m3⟩ := r3
              simp only
              obtain ⟨hf, decoded, hd, hd'⟩ := deserializeObjects_onto codecs numAnimations m3 s
                { s with mObjects := [] } rfl rfl
              refine ⟨hf, ?_⟩
              rw [hd, hd']
              simp
          · exact ⟨rfl, by simp⟩

theorem deserialize_serialize_append (codecs : Codecs T L) (R : List (AnimObject T L))
    (s : Manager T L)
    (htext : codecs.textObject.RoundTrips) (hlatex : codecs.laTexObject.RoundTrips)
    (hfit : Storable R) (hkinds : ∀ o ∈ R, o.ProperKinds) :
    (deserialize codecs (some (serialize codecs R)) s).fault = none ∧
      (deserialize codecs (some (serialize codecs R)) s).state.mObjects
        = s.mObjects ++ persistentFields R := by
  obtain ⟨hlen, hobjs⟩ := hfit
  have hmagic : MAGIC_NUMBER < 2 ^ 32 := by decide
  have hver : SERIALIZER_VERSION < 2 ^ 32 := by decide
  have hlen32 : R.length % 2 ^ 32 = R.length := by
    apply Nat.mod_eq_of_lt; omega
  have hlen' : R.length < 2 ^ 32 := by omega
  have hgood := deserialize_good_header codecs
    (u32Bytes MAGIC_NUMBER ++ (u32Bytes SERIALIZER_VERSION ++
      (u32Bytes (R.length % 2 ^ 32) ++ serializeObjects codecs [] R)))
    _ _ s (readU32_u32Bytes _ _ hmagic) (readU32_u32Bytes _ _ hver)
  rw [serialize_eq, hgood]
  unfold deserializeAnimationManagerExV1
  rw [hlen32, readU32_u32Bytes _ _ hlen']
  have h := deserializeObjects_serialize codecs htext hlatex R [] s hkinds hobjs
  rw [List.append_nil] at h
  exact h

theorem sortedDesc_persistentFields (l : List (AnimObject T L)) :
    SortedDesc AnimObject.frameStart (persistentFields l)
      ↔ SortedDesc AnimObject.frameStart l := by
  constructor
  · intro h
    exact sortedDesc_congr AnimObject.frameStart (persistentFields l) l
      (by simp [persistentFields]) h
  · intro h
    exact sortedDesc_congr AnimObject.frameStart l (persistentFields l)
      (by simp [persistentFields]) h

end AppendLemmas

section AppendClaim

/-- C25 (load appends in file order). For every state of the registry and
every buffer, the object list after `deserialize` is the list before the
load followed by what the same buffer decodes to on an empty registry, and
the load succeeds in the one case exactly when it does in the other: nothing
is cleared, reordered or inserted by start frame. For the container written
by `serialize` for a registry `R` that loads (kinds below `Length`, values
the container carries, payload codecs that read back what they write) the
load succeeds and the decoded objects are those of `R` in the order of the
file, each with its fields and its animations in file order (the flag
`isAnimating` is not stored). Hence the result is `R` if and only if the
registry was empty, and the result is sorted if and only if the old list
followed by `R` is. -/
theorem load_appends_in_file_order (T L : Type) (codecs : Codecs T L)
    (R : List (AnimObject T L)) (s : Manager T L)
    (htext : codecs.textObject.RoundTrips) (hlatex : codecs.laTexObject.RoundTrips)
    (hfit : Storable R) (hkinds : ∀ o ∈ R, o.ProperKinds) :
    (∀ memory : List Byte,
        (deserialize codecs (some memory) s).fault
            = (deserialize codecs (some memory) { s with mObjects := [] }).fault ∧
          (deserialize codecs (some memory) s).state.mObjects
            = s.mObjects ++
              (deserialize codecs (some memory) { s with mObjects := [] }).state.mObjects) ∧
      (deserialize codecs (some (serialize codecs R)) s).fault = none ∧
      (deserialize codecs (some (serialize codecs R)) s).state.mObjects
        = s.mObjects ++ persistentFields R ∧
      (∀ (k : Nat) (o : AnimObject T L), R[k]? = some o →
        (deserialize codecs (some (serialize codecs R)) s).state.mObjects[s.mObjects.length + k]?
          = some { o with isAnimating := false }) ∧
      (∀ (k : Nat), k < s.mObjects.length →
        (deserialize codecs (some (serialize codecs R)) s).state.mObjects[k]?
          = s.mObjects[k]?) ∧
      ((deserialize codecs (some (serialize codecs R)) s).state.mObjects = persistentFields R
        ↔ s.mObjects = []) ∧
      (SortedDesc AnimObject.frameStart
          (deserialize codecs (some (serialize codecs R)) s).state.mObjects
        ↔ SortedDesc AnimObject.frameStart (s.mObjects ++ R)) := by
  obtain ⟨h1, h2⟩ := deserialize_serialize_append codecs R s htext hlatex hfit hkinds
  rw [h2]
  refine ⟨fun memory => deserialize_onto codecs memory s, h1, rfl, ?_, ?_, ?_, ?_⟩
  · intro k o hk
    rw [List.getElem?_append_right (Nat.le_add_right _ _), Nat.add_sub_cancel_left]
    simp only [persistentFields, List.getElem?_map, hk, Option.map_some']
  · intro k hk
    rw [List.getElem?_append_left hk]
  · exact List.append_left_eq_self
  · rw [← sortedDesc_persistentFields (s.mObjects ++ R),
      ← sortedDesc_persistentFields (s.mObjects ++ persistentFields R)]
    have : persistentFields (s.mObjects ++ persistentFields R)
        = persistentFields (s.mObjects ++ R) := by
      simp [persistentFields]
    rw [this]

/-- C25, concrete check: a registry holding an object that starts at frame 1
loads the container of two objects that start at 5 and 9; the loaded objects
follow the old one in file order and the list is no longer sorted. -/
theorem load_appends_in_file_order_witness :
    (deserialize unitCodecs
        (some (serialize unitCodecs
          [sampleTextObject 4 9 20 [sampleAnimation 1 4 7 2, sampleAnimation 0 4 0 9],
            sampleObject 2 5 1 []]))
        { mObjects := [sampleObject 7 1 1 []], animObjectUidCounter := 8,
          animationUidCounter := 0 }).state.mObjects
      = [sampleObject 7 1 1 []] ++ persistentFields
          [sampleTextObject 4 9 20 [sampleAnimation 1 4 7 2, sampleAnimation 0 4 0 9],
            sampleObject 2 5 1 []] ∧
    ¬ SortedDesc AnimObject.frameStart
        (deserialize unitCodecs
          (some (serialize unitCodecs
            [sampleTextObject 4 9 20 [sampleAnimation 1 4 7 2, sampleAnimation 0 4 0 9],
              sampleObject 2 5 1 []]))
          { mObjects := [sampleObject 7 1 1 []], animObjectUidCounter := 8,
            animationUidCounter := 0 }).state.mObjects :=
  ⟨(load_appends_in_file_order Unit Unit unitCodecs
      [sampleTextObject 4 9 20 [sampleAnimation 1 4 7 2, sampleAnimation 0 4 0 9],
        sampleObject 2 5 1 []]
      { mObjects := [sampleObject 7 1 1 []], animObjectUidCounter := 8,
        animationUidCounter := 0 }
      (fun _ _ => rfl) (fun _ _ => rfl)
      ⟨by decide, by
        intro o ho
        simp only [List.mem_cons, List.mem_singleton, List.not_mem_nil, or_false] at ho
        rcases ho with rfl | rfl
        · exact ⟨by decide, trivial⟩
        · exact ⟨by decide, trivial⟩⟩
      (by
        intro o ho
        simp only [List.mem_cons, List.mem_singleton, List.not_mem_nil, or_false] at ho
        rcases ho with rfl | rfl <;> decide)).2.2.1,
    fun h => absurd
      ((load_appends_in_file_order Unit Unit unitCodecs
        [sampleTextObject 4 9 20 [sampleAnimation 1 4 7 2, sampleAnimation 0 4 0 9],
          sampleObject 2 5 1 []]
        { mObjects := [sampleObject 7 1 1 []], animObjectUidCounter := 8,
          animationUidCounter := 0 }
        (fun _ _ => rfl) (fun _ _ => rfl)
        ⟨by decide, by
          intro o ho
          simp only [List.mem_cons, List.mem_singleton, List.not_mem_nil, or_false] at ho
          rcases ho with rfl | rfl
          · exact ⟨by decide, trivial⟩
          · exact ⟨by decide, trivial⟩⟩
        (by
          intro o ho
          simp only [List.mem_cons, List.mem_singleton, List.not_mem_nil, or_false] at ho
          rcases ho with rfl | rfl <;> decide)).2.2.2.2.2.2.1 h) (by decide)⟩

end AppendClaim

section AssertionAccess

variable {T L : Type}

theorem removeAnimationFrom_at (animObjectId animationId : Int) (l : List (AnimObject T L)) :
    ∀ (start k : Nat) (o : AnimObject T L) (j : Nat) (a : AnimationEx),
      l[k]? = some o → o.id = animObjectId → (∀ p ∈ l.take k, p.id ≠ animObjectId) →
      findAnimation animationId o.animations = some (j, a) →
      (∀ b ∈ o.animations, b.objectId = animObjectId) →
      removeAnimationFrom animObjectId animationId start l
        = if start + k < o.animations.length then
            Except.ok (true, l.set k { o with animations := o.animations.eraseIdx j })
          else Except.error Fault.outOfBounds := by
  induction l with
  | nil => intro start k o j a h; simp at h
  | cons z rest ih =>
    intro start k o j a h hid hb hf hback
    cases k with
    | zero =>
      simp only [List.getElem?_cons_zero, Option.some.injEq] at h
      subst h
      unfold removeAnimationFrom
      simp only [hid, if_true, hf, Nat.add_zero, List.set_cons_zero]
      by_cases hlt : start < z.animations.length
      · rw [if_pos hlt]
        have hget : z.animations[start]? = some (z.animations[start]) :=
          List.getElem?_eq_getElem hlt
        simp only [hget]
        rw [if_pos (hback _ (List.getElem_mem _))]
      · rw [if_neg hlt]
        have hget : z.animations[start]? = none := List.getElem?_eq_none (by omega)
        simp only [hget]
    | succ n =>
      simp only [List.getElem?_cons_succ] at h
      have hz : z.id ≠ animObjectId := hb z (by simp)
      have hrest : ∀ p ∈ rest.take n, p.id ≠ animObjectId := fun p hp => hb p (by simp [hp])
      have ih' := ih (start + 1) n o j a h hid hrest hf hback
      have hidx : start + 1 + n = start + (n + 1) := by omega
      rw [hidx] at ih'
      unfold removeAnimationFrom
      simp only [hz, if_false, List.set_cons_succ]
      rw [ih']
      by_cases hlt : start + (n + 1) < o.animations.length
      · simp only [if_pos hlt]
      · simp only [if_neg hlt]

end AssertionAccess

section AssertionAccessClaim

/-- C23, the code at the failing input: three objects with unique ids whose
animations all point back to their owner. `removeAnimation(2, 31)` finds the
animation at position `j = 1` of the object at position `i = 2`; its assertion
reads `animations[i]`, the element at the object's position, which is one past
the end of the two-element vector. `removeAnimation(1, 20)` finds the
animation at `j = 0` of the object at `i = 1` and asserts on
`animations[1]`, another animation than the one found, which is in range
here; the call then erases position 0. -/
theorem removeAnimation_assertion_access :
    UniqueObjectIds
        [sampleObject 0 9 1 [sampleAnimation 10 0 0 1],
          sampleObject 1 5 1 [sampleAnimation 20 1 0 1, sampleAnimation 21 1 0 1],
          sampleObject 2 3 1 [sampleAnimation 30 2 0 1, sampleAnimation 31 2 0 1]] ∧
      BackReferences
        [sampleObject 0 9 1 [sampleAnimation 10 0 0 1],
          sampleObject 1 5 1 [sampleAnimation 20 1 0 1, sampleAnimation 21 1 0 1],
          sampleObject 2 3 1 [sampleAnimation 30 2 0 1, sampleAnimation 31 2 0 1]] ∧
      (animationIds
        [sampleObject 0 9 1 [sampleAnimation 10 0 0 1],
          sampleObject 1 5 1 [sampleAnimation 20 1 0 1, sampleAnimation 21 1 0 1],
          sampleObject 2 3 1 [sampleAnimation 30 2 0 1, sampleAnimation 31 2 0 1]]).Nodup ∧
      findAnimation 31 [sampleAnimation 30 2 0 1, sampleAnimation 31 2 0 1]
        = some (1, sampleAnimation 31 2 0 1) ∧
      [sampleAnimation 30 2 0 1, sampleAnimation 31 2 0 1][2]? = none ∧
      removeAnimation 2 31
          [sampleObject 0 9 1 [sampleAnimation 10 0 0 1],
            sampleObject 1 5 1 [sampleAnimation 20 1 0 1, sampleAnimation 21 1 0 1],
            sampleObject 2 3 1 [sampleAnimation 30 2 0 1, sampleAnimation 31 2 0 1]]
        = Except.error Fault.outOfBounds ∧
      removeAnimation 1 20
          [sampleObject 0 9 1 [sampleAnimation 10 0 0 1],
            sampleObject 1 5 1 [sampleAnimation 20 1 0 1, sampleAnimation 21 1 0 1],
            sampleObject 2 3 1 [sampleAnimation 30 2 0 1, sampleAnimation 31 2 0 1]]
        = Except.ok (true,
            [sampleObject 0 9 1 [sampleAnimation 10 0 0 1],
              sampleObject 1 5 1 [sampleAnimation 21 1 0 1],
              sampleObject 2 3 1 [sampleAnimation 30 2 0 1, sampleAnimation 31 2 0 1]]) :=
  ⟨by decide, by decide, by decide, rfl, rfl, rfl, rfl⟩

end AssertionAccessClaim

section ParentLemmas

variable {T L : Type}

theorem getMutableObject_of_first (l : List (AnimObject T L)) :
    ∀ (k : Nat) (p : AnimObject T L), l[k]? = some p → (∀ q ∈ l.take k, q.id ≠ p.id) →
      getMutableObject p.id l = some p := by
  induction l with
  | nil => intro k p h; simp at h
  | cons z rest ih =>
    intro k p h hb
    cases k with
    | zero =>
      simp only [List.getElem?_cons_zero, Option.some.injEq] at h
      subst h
      simp [getMutableObject]
    | succ n =>
      simp only [List.getElem?_cons_succ] at h
      have hz : z.id ≠ p.id := hb z (by simp)
      unfold getMutableObject
      rw [if_neg hz]
      exact ih n p h (fun q hq => hb q (by simp [hq]))

theorem uniqueObjectIds_of_persistentFields (l l' : List (AnimObject T L))
    (h : persistentFields l' = persistentFields l) (hu : UniqueObjectIds l) :
    UniqueObjectIds l' := by
  unfold UniqueObjectIds at *
  have hk := congrArg (List.map AnimObject.id) h
  simp only [persistentFields, List.map_map] at hk
  have e : (AnimObject.id ∘ fun o : AnimObject T L => { o with isAnimating := false })
      = AnimObject.id := by
    funext o; rfl
  rw [e] at hk
  rw [hk]
  exact hu

theorem getElem?_of_persistentFields (l l' : List (AnimObject T L))
    (h : persistentFields l' = persistentFields l) (k : Nat) (o : AnimObject T L)
    (ho : l[k]? = some o) :
    ∃ p, l'[k]? = some p ∧ { p with isAnimating := false } = { o with isAnimating := false } := by
  have hk := congrArg (fun x => x[k]?) h
  simp only [persistentFields, List.getElem?_map, ho, Option.map_some'] at hk
  cases hp : l'[k]? with
  | none => rw [hp] at hk; cases hk
  | some p =>
    rw [hp] at hk
    simp only [Option.map_some', Option.some.injEq] at hk
    exact ⟨p, rfl, hk⟩

end ParentLemmas

section ParentClaim

/-- C24 (parent resolution in playback never fails). In a registry with unique
object ids in which every animation's `objectId` is the id of its containing
object, for every frame `F`: `render(F)` does not stop at the `getParent`
assertion; in the registry as it is at any time during the sweep (the same
objects, whatever their flags `isAnimating`) the lookup by the `objectId` of
an animation of the object at position `k` finds the object at position `k`,
which is the containing object up to its flag; and the animation at position
`j` of the object `o` at position `i` is dispatched with the value `t` exactly
when the activation test with the parent start `o.frameStart` passes and
yields `t`. -/
theorem render_parent_resolution (T L : Type) (R : List (AnimObject T L)) (frame : Int)
    (huniq : UniqueObjectIds R) (hback : BackReferences R) :
    (render frame R).fault = none ∧
      (∀ R2 : List (AnimObject T L), persistentFields R2 = persistentFields R →
        ∀ (k : Nat) (o : AnimObject T L), R[k]? = some o → ∀ a ∈ o.animations,
          ∃ p, getMutableObject a.objectId R2 = some p ∧ R2[k]? = some p ∧
            { p with isAnimating := false } = { o with isAnimating := false }) ∧
      ∀ (i j : Nat) (t : F32),
        Dispatch.animation i j t ∈ (render frame R).dispatches ↔
          ∃ o a, R[i]? = some o ∧ o.animations[j]? = some a ∧
            animationStep frame o.frameStart a = some t := by
  have hres := parentsResolve_of_backReferences R hback
  have hlk : ∀ o ∈ R, ∀ a ∈ o.animations,
      animResult (objectKeys R) frame a = animationStep frame o.frameStart a := by
    intro o ho a ha
    simp only [animResult]
    rw [hback o ho a ha, lookupStart_of_unique R o ho huniq]
  refine ⟨?_, ?_, ?_⟩
  · exact (renderObjects_spec (objectKeys R) frame R [] rfl (parentsResolve_keys R hres)).2.1
  · intro R2 hR2 k o ho a ha
    obtain ⟨p, hp, hfields⟩ := getElem?_of_persistentFields R R2 hR2 k o ho
    have hu2 := uniqueObjectIds_of_persistentFields R R2 hR2 huniq
    have hid : p.id = o.id := by
      have := congrArg AnimObject.id hfields
      simpa using this
    refine ⟨p, ?_, hp, hfields⟩
    rw [hback o (List.getElem?_mem ho) a ha, ← hid]
    exact getMutableObject_of_first R2 k p hp (take_ne_of_nodup_map AnimObject.id R2 k p hu2 hp)
  · intro i j t
    rw [render_dispatches_of_resolve R frame hres]
    constructor
    · intro h
      obtain ⟨_, o, ho, a, ha, hr⟩ := (mem_objectDispatches_animation _ _ _ _ _ _ 0).1 h
      rw [Nat.sub_zero] at ho
      refine ⟨o, a, ho, ha, ?_⟩
      rw [← hlk o (List.getElem?_mem ho) a (List.getElem?_mem ha)]
      exact hr
    · rintro ⟨o, a, ho, ha, hr⟩
      refine (mem_objectDispatches_animation _ _ _ _ _ _ 0).2
        ⟨Nat.zero_le _, o, by rw [Nat.sub_zero]; exact ho, a, ha, ?_⟩
      rw [hlk o (List.getElem?_mem ho) a (List.getElem?_mem ha)]
      exact hr

/-- C24, concrete check: two objects, the second starting at frame 4 with an
animation at relative start 6; `render(10)` returns, and the lookup for that
animation in the registry with the flag of the second object set finds the
second object. -/
theorem render_parent_resolution_witness :
    (render 10 [sampleObject 0 20 5 [], sampleObject 1 4 20 [sampleAnimation 0 1 6 5]]).fault
        = none ∧
      ∃ p, getMutableObject (sampleAnimation 0 1 6 5).objectId
            [sampleObject 0 20 5 [],
              { sampleObject 1 4 20 [sampleAnimation 0 1 6 5] with isAnimating := true }]
          = some p ∧
        [sampleObject 0 20 5 [],
            { sampleObject 1 4 20 [sampleAnimation 0 1 6 5] with isAnimating := true }][1]?
          = some p ∧
        { p with isAnimating := false }
          = { sampleObject 1 4 20 [sampleAnimation 0 1 6 5] with isAnimating := false } :=
  ⟨(render_parent_resolution Unit Unit
      [sampleObject 0 20 5 [], sampleObject 1 4 20 [sampleAnimation 0 1 6 5]] 10
      (by decide) (by decide)).1,
    (render_parent_resolution Unit Unit
      [sampleObject 0 20 5 [], sampleObject 1 4 20 [sampleAnimation 0 1 6 5]] 10
      (by decide) (by decide)).2.1
      [sampleObject 0 20 5 [],
        { sampleObject 1 4 20 [sampleAnimation 0 1 6 5] with isAnimating := true }]
      (by decide) 1 (sampleObject 1 4 20 [sampleAnimation 0 1 6 5]) rfl
      (sampleAnimation 0 1 6 5) (by decide)⟩

end ParentClaim

section UnhandledLemmas

variable {T L : Type}

theorem animDispatches_append (keys : List (Int × Int)) (frame : Int) (i : Nat)
    (A B : List AnimationEx) :
    ∀ j : Nat, animDispatches keys frame i j (A ++ B)
      = animDispatches keys frame i j A ++ animDispatches keys frame i (j + A.length) B := by
  induction A with
  | nil => intro j; simp [animDispatches]
  | cons a rest ih =>
    intro j
    have e : j + (a :: rest).length = j + 1 + rest.length := by
      simp only [List.length_cons]; omega
    rw [e]
    rw [List.cons_append]
    simp only [animDispatches]
    split
    · rw [ih (j + 1)]; rfl
    · exact ih (j + 1)

theorem animDispatches_succ (keys : List (Int × Int)) (frame : Int) (i : Nat)
    (B : List AnimationEx) :
    ∀ j : Nat, animDispatches keys frame i (j + 1) B
      = (animDispatches keys frame i j B).map Dispatch.bump := by
  induction B with
  | nil => intro j; rfl
  | cons b rest ih =>
    intro j
    simp only [animDispatches]
    split
    · rw [ih (j + 1)]; rfl
    · exact ih (j + 1)

theorem objectDispatches_append (keys : List (Int × Int)) (frame : Int)
    (l1 l2 : List (AnimObject T L)) :
    ∀ i : Nat, objectDispatches keys frame i (l1 ++ l2)
      = objectDispatches keys frame i l1 ++ objectDispatches keys frame (i + l1.length) l2 := by
  induction l1 with
  | nil => intro i; simp [objectDispatches]
  | cons o rest ih =>
    intro i
    have e : i + (o :: rest).length = i + 1 + rest.length := by
      simp only [List.length_cons]; omega
    rw [e]
    rw [List.cons_append]
    simp only [objectDispatches, ih (i + 1), List.append_assoc]

theorem split_at_index {α : Type} (l : List α) (k : Nat) (x : α) (h : l[k]? = some x) :
    l = l.take k ++ x :: l.drop (k + 1) ∧ (l.take k).length = k ∧
      ∀ y, l.set k y = l.take k ++ y :: l.drop (k + 1) := by
  induction l generalizing k with
  | nil => simp at h
  | cons z rest ih =>
    cases k with
    | zero =>
      simp only [List.getElem?_cons_zero, Option.some.injEq] at h
      subst h
      simp
    | succ n =>
      simp only [List.getElem?_cons_succ] at h
      obtain ⟨h1, h2, h3⟩ := ih n h
      refine ⟨?_, ?_, ?_⟩
      · simp only [List.take_succ_cons, List.drop_succ_cons, List.cons_append]
        rw [← h1]
      · simp only [List.take_succ_cons, List.length_cons, h2]
      · intro y
        simp only [List.set_cons_succ, List.take_succ_cons, List.drop_succ_cons,
          List.cons_append, h3 y]

theorem eraseIdx_of_split {α : Type} (A B : List α) (x : α) :
    (A ++ x :: B).eraseIdx A.length = A ++ B := by
  induction A with
  | nil => rfl
  | cons z rest ih => simp only [List.cons_append, List.length_cons, List.eraseIdx_cons_succ, ih]

theorem objectKeys_set_animations (l : List (AnimObject T L)) (k : Nat) (o : AnimObject T L)
    (anims : List AnimationEx) (h : l[k]? = some o) :
    objectKeys (l.set k { o with animations := anims }) = objectKeys l := by
  obtain ⟨h1, _, h3⟩ := split_at_index l k o h
  rw [h3]
  nth_rewrite 3 [h1]
  simp [objectKeys]

theorem parentsResolve_set_eraseIdx (l : List (AnimObject T L)) (k j : Nat) (o : AnimObject T L)
    (h : l[k]? = some o) (hres : ParentsResolve l) :
    ParentsResolve (l.set k { o with animations := o.animations.eraseIdx j }) := by
  have hkeys := objectKeys_set_animations l k o (o.animations.eraseIdx j) h
  have hold : ∀ p ∈ l, ∀ a ∈ p.animations, ∃ q,
      getMutableObject a.objectId (l.set k { o with animations := o.animations.eraseIdx j })
        = some q := by
    intro p hp a ha
    have h1 := parentsResolve_keys l hres p hp a ha
    rw [← hkeys, lookupStart_objectKeys] at h1
    cases hq : getMutableObject a.objectId
        (l.set k { o with animations := o.animations.eraseIdx j }) with
    | none => rw [hq] at h1; cases h1
    | some q => exact ⟨q, rfl⟩
  intro p hp a ha
  rcases List.mem_or_eq_of_mem_set hp with hp | rfl
  · exact hold p hp a ha
  · exact hold o (List.getElem?_mem h) a (List.mem_of_mem_eraseIdx ha)

/-- The sweep around an animation of an unhandled kind, for a registry in
which every parent lookup succeeds and an animation `a` for which the
activation test of `render` passes with the value `t`. -/
theorem unhandled_kind_of_resolved (R : List (AnimObject T L))
    (frame : Int) (i j : Nat) (o : AnimObject T L) (a : AnimationEx) (t : F32)
    (hres : ParentsResolve R) (ho : R[i]? = some o) (ha : o.animations[j]? = some a)
    (hkind : a.type ≠ AnimTypeEx.WriteInText)
    (hact : animResult (objectKeys R) frame a = some t) :
    a.render t = AnimationEffect.logUnknown a.type ∧
      (render frame R).fault = none ∧
      (∃ o2, (render frame R).mObjects[i]? = some o2 ∧ o2.isAnimating = true) ∧
      Dispatch.object i ∉ (render frame R).dispatches ∧
      ∃ pre before after post own,
        (render frame R).dispatches
          = pre ++ (before ++ (Dispatch.animation i j t :: (after.map Dispatch.bump ++ post))) ∧
        (render frame (R.set i { o with animations := o.animations.eraseIdx j })).dispatches
          = pre ++ (before ++ (after ++ (own ++ post))) ∧
        (own = [] ∨ own = [Dispatch.object i]) ∧
        (o.frameStart ≤ frame ∧ frame ≤ wrapInt32 (o.frameStart + o.duration) →
          (∀ b ∈ o.animations.eraseIdx j, animResult (objectKeys R) frame b = none) →
          own = [Dispatch.object i]) := by
  have hspec := renderObjects_spec (objectKeys R) frame R [] rfl (parentsResolve_keys R hres)
  have hany : (o.animations.any fun b => (animResult (objectKeys R) frame b).isSome) = true := by
    rw [List.any_eq_true]
    exact ⟨a, List.getElem?_mem ha, by rw [hact]; rfl⟩
  have hres2 := parentsResolve_set_eraseIdx R i j o ho hres
  have hkeys2 := objectKeys_set_animations R i o (o.animations.eraseIdx j) ho
  refine ⟨?_, hspec.2.1, ?_, ?_, ?_⟩
  · unfold AnimationEx.render
    split
    · rename_i h; exact absurd h hkind
    · rfl
  · refine ⟨renderedObject (objectKeys R) frame o, ?_, hany⟩
    show (renderObjects frame [] R).mObjects[i]? = _
    rw [hspec.2.2, List.nil_append, List.getElem?_map, ho]
    rfl
  · rw [render_dispatches_of_resolve R frame hres]
    have hcount := count_object_objectDispatches (objectKeys R) frame i R 0 o
      (Nat.zero_le _) (by rw [Nat.sub_zero]; exact ho)
    have hnot : ¬ ((∀ b ∈ o.animations, animResult (objectKeys R) frame b = none) ∧
        o.frameStart ≤ frame ∧ frame ≤ wrapInt32 (o.frameStart + o.duration)) := by
      intro h
      have := h.1 a (List.getElem?_mem ha)
      rw [hact] at this
      cases this
    rw [if_neg hnot] at hcount
    exact List.count_eq_zero.1 hcount
  · rw [render_dispatches_of_resolve R frame hres, render_dispatches_of_resolve _ frame hres2,
      hkeys2]
    obtain ⟨hR, hPlen, hset⟩ := split_at_index R i o ho
    obtain ⟨hA, hAlen, _⟩ := split_at_index o.animations j a ha
    have herase : o.animations.eraseIdx j
        = o.animations.take j ++ o.animations.drop (j + 1) := by
      have h := eraseIdx_of_split (o.animations.take j) (o.animations.drop (j + 1)) a
      rw [← hA, hAlen] at h
      exact h
    rw [hset]
    nth_rewrite 2 [hR]
    generalize objectKeys R = keys at hact hany ⊢
    rw [objectDispatches_append, objectDispatches_append, hPlen, Nat.zero_add]
    simp only [objectDispatches]
    rw [if_neg (by rw [hany]; simp), herase, animDispatches_append, hAlen, Nat.zero_add]
    nth_rewrite 1 [hA]
    rw [animDispatches_append, hAlen, Nat.zero_add]
    simp only [animDispatches, hact, animDispatches_succ]
    refine ⟨objectDispatches keys frame 0 (R.take i),
      animDispatches keys frame i 0 (o.animations.take j),
      animDispatches keys frame i j (o.animations.drop (j + 1)),
      objectDispatches keys frame (i + 1) (R.drop (i + 1)),
      (if ((o.animations.take j ++ o.animations.drop (j + 1)).any
            fun b => (animResult keys frame b).isSome) = false ∧
          o.frameStart ≤ frame ∧ frame ≤ wrapInt32 (o.frameStart + o.duration) then
        [Dispatch.object i] else []), ?_, ?_, ?_, ?_⟩
    · simp only [List.append_assoc, List.nil_append, List.cons_append]
    · simp only [List.append_assoc]
    · split
      · exact Or.inr rfl
      · exact Or.inl rfl
    · intro hwin hnone
      rw [if_pos]
      refine ⟨?_, hwin⟩
      rw [List.any_eq_false]
      intro b hb
      rw [hnone b hb]
      simp

end UnhandledLemmas

section UnhandledClaim

/-- C26 as stated fails in two ways. (a) The first object owns an animation
whose `objectId` 77 names no object; the second object `o` has the window
`[0, 10]` and owns an animation of kind `None` for which the activation test
passes at frame 3. `render(3)` stops at the `getParent` assertion in the
first object: no call is made and the flag of `o` is not set. (b) One object
starting at 16777217 owns an animation of kind `None` with relative start 0
and duration 1; frame 16777217 lies in the window `[16777217, 16777218]` of
the animation and in the window of the object, but the `float` test fails, the
flag stays false and the static render of the object is dispatched. -/
theorem unhandled_kind_counterexample :
    (animationStep 3 (sampleObject 0 0 10 []).frameStart
          { sampleAnimation 0 0 2 4 with type := AnimTypeEx.None } = some (f32Div 1 4) ∧
        (render 3 [sampleObject 5 0 10 [sampleAnimation 9 77 0 1],
          sampleObject 0 0 10 [{ sampleAnimation 0 0 2 4 with type := AnimTypeEx.None }]]).fault
          = some Fault.assertion ∧
        (render 3 [sampleObject 5 0 10 [sampleAnimation 9 77 0 1],
          sampleObject 0 0 10
            [{ sampleAnimation 0 0 2 4 with type := AnimTypeEx.None }]]).dispatches = [] ∧
        (render 3 [sampleObject 5 0 10 [sampleAnimation 9 77 0 1],
          sampleObject 0 0 10
            [{ sampleAnimation 0 0 2 4 with type := AnimTypeEx.None }]]).mObjects.map
            AnimObject.isAnimating = [false, false]) ∧
      (UniqueObjectIds [sampleObject 0 16777217 10
          [{ sampleAnimation 0 0 0 1 with type := AnimTypeEx.None }]] ∧
        BackReferences [sampleObject 0 16777217 10
          [{ sampleAnimation 0 0 0 1 with type := AnimTypeEx.None }]] ∧
        ((sampleObject 0 16777217 10 []).frameStart + (sampleAnimation 0 0 0 1).frameStart
            ≤ 16777217 ∧
          16777217 ≤ (sampleObject 0 16777217 10 []).frameStart
            + (sampleAnimation 0 0 0 1).frameStart + (sampleAnimation 0 0 0 1).duration) ∧
        (render 16777217 [sampleObject 0 16777217 10
          [{ sampleAnimation 0 0 0 1 with type := AnimTypeEx.None }]]).fault = none ∧
        (render 16777217 [sampleObject 0 16777217 10
          [{ sampleAnimation 0 0 0 1 with type := AnimTypeEx.None }]]).dispatches
          = [Dispatch.object 0] ∧
        (render 16777217 [sampleObject 0 16777217 10
          [{ sampleAnimation 0 0 0 1 with type := AnimTypeEx.None }]]).mObjects.map
            AnimObject.isAnimating = [false]) :=
  ⟨⟨by decide, by decide, by decide, by decide⟩,
    ⟨by decide, by decide, by decide, by decide, by decide, by decide⟩⟩

/-- C26 (an unhandled animation kind still counts as animating), amended. In
a registry with unique object ids in which every animation's `objectId` is
the id of its containing object, let `a` be the animation at position `j` of
the object `o` at position `i`, of a kind other than `WriteInText`, with
`o.frameStart + a.frameStart <= F <= o.frameStart + a.frameStart +
a.duration`, where `o.frameStart`, `a.frameStart`, their sum, `a.duration`,
the end of that window and `F` are below `2^24` in magnitude. Then
`render(F)` returns, the call `a.render(vg, t)` is made with the progress `t`
and only logs; `o.isAnimating` is true afterwards and the static render of
`o` is not dispatched. The other calls are those of `render(F)` on the
registry without `a`: the same calls before it, the same calls for the later
animations of `o` (each one position further down in `R`), the same calls for
the later objects; without `a` the static render of `o` is the only call that
can be added, and it is added when `F` is inside `o`'s own window (its end
within the `int` range) and no animation of `o` is dispatched. -/
theorem unhandled_kind_counts_as_animating (T L : Type) (R : List (AnimObject T L))
    (frame : Int) (i j : Nat) (o : AnimObject T L) (a : AnimationEx)
    (huniq : UniqueObjectIds R) (hback : BackReferences R)
    (ho : R[i]? = some o) (ha : o.animations[j]? = some a)
    (hkind : a.type ≠ AnimTypeEx.WriteInText)
    (h1 : fitsF32 o.frameStart) (h2 : fitsF32 a.frameStart)
    (h3 : fitsF32 (o.frameStart + a.frameStart)) (h4 : fitsF32 a.duration)
    (h5 : fitsF32 (o.frameStart + a.frameStart + a.duration)) (h6 : fitsF32 frame)
    (hwin : o.frameStart + a.frameStart ≤ frame ∧
      frame ≤ o.frameStart + a.frameStart + a.duration) :
    a.render (f32Div (frame - (o.frameStart + a.frameStart)) a.duration)
        = AnimationEffect.logUnknown a.type ∧
      (render frame R).fault = none ∧
      (∃ o2, (render frame R).mObjects[i]? = some o2 ∧ o2.isAnimating = true) ∧
      Dispatch.object i ∉ (render frame R).dispatches ∧
      ∃ pre before after post own,
        (render frame R).dispatches
          = pre ++ (before ++
              (Dispatch.animation i j (f32Div (frame - (o.frameStart + a.frameStart)) a.duration)
                :: (after.map Dispatch.bump ++ post))) ∧
        (render frame (R.set i { o with animations := o.animations.eraseIdx j })).dispatches
          = pre ++ (before ++ (after ++ (own ++ post))) ∧
        (own = [] ∨ own = [Dispatch.object i]) ∧
        (isInt32 (o.frameStart + o.duration) →
          o.frameStart ≤ frame ∧ frame ≤ o.frameStart + o.duration →
          (∀ j2 t2, Dispatch.animation i j2 t2 ∉
            (render frame (R.set i { o with animations := o.animations.eraseIdx j })).dispatches) →
          own = [Dispatch.object i]) := by
  have hres := parentsResolve_of_backReferences R hback
  have hmem : o ∈ R := List.getElem?_mem ho
  have hamem : a ∈ o.animations := List.getElem?_mem ha
  have hlk : lookupStart a.objectId (objectKeys R) = some o.frameStart := by
    rw [hback o hmem a hamem]
    exact lookupStart_of_unique R o hmem huniq
  have hact : animResult (objectKeys R) frame a
      = some (f32Div (frame - (o.frameStart + a.frameStart)) a.duration) := by
    simp only [animResult, hlk]
    rw [animationStep_of_fits frame o.frameStart a h1 h2 h3 h4 h5 h6, if_pos hwin]
  obtain ⟨hlog, hfault, hflag, hstatic, pre, before, after, post, own, hd, hd2, hown, hadd⟩ :=
    unhandled_kind_of_resolved R frame i j o a _ hres ho ha hkind hact
  refine ⟨hlog, hfault, hflag, hstatic, pre, before, after, post, own, hd, hd2, hown, ?_⟩
  intro hov hwindow hnone
  apply hadd
  · rw [wrapInt32_of_isInt32 _ hov]
    exact hwindow
  · intro b hb
    obtain ⟨j2, hj2⟩ := List.mem_iff_getElem?.1 hb
    cases hr : animResult (objectKeys R) frame b with
    | none => rfl
    | some t2 =>
      exfalso
      apply hnone j2 t2
      have hres2 := parentsResolve_set_eraseIdx R i j o ho hres
      rw [render_dispatches_of_resolve _ frame hres2,
        objectKeys_set_animations R i o (o.animations.eraseIdx j) ho]
      refine (mem_objectDispatches_animation _ _ _ _ _ _ 0).2
        ⟨Nat.zero_le _, { o with animations := o.animations.eraseIdx j }, ?_, b, hj2, hr⟩
      rw [Nat.sub_zero, List.getElem?_set]
      have hi : i < R.length := by
        rcases Nat.lt_or_ge i R.length with h | h
        · exact h
        · rw [List.getElem?_eq_none h] at ho; cases ho
      simp [hi]

/-- C26, concrete check: an object with window `[0, 10]` owns a `WriteInText`
animation that starts at frame 8 and an animation of kind `None` with the
window `[2, 6]`; at frame 3 the flag of the object is set and its static
render is not among the calls. -/
theorem unhandled_kind_counts_as_animating_witness :
    (∃ o2, (render 3 [sampleObject 0 0 10
          [sampleAnimation 1 0 8 1, { sampleAnimation 0 0 2 4 with type := AnimTypeEx.None }],
        sampleObject 1 0 10 []]).mObjects[0]? = some o2 ∧ o2.isAnimating = true) ∧
      Dispatch.object 0 ∉ (render 3 [sampleObject 0 0 10
          [sampleAnimation 1 0 8 1, { sampleAnimation 0 0 2 4 with type := AnimTypeEx.None }],
        sampleObject 1 0 10 []]).dispatches :=
  ⟨(unhandled_kind_counts_as_animating Unit Unit
      [sampleObject 0 0 10
          [sampleAnimation 1 0 8 1, { sampleAnimation 0 0 2 4 with type := AnimTypeEx.None }],
        sampleObject 1 0 10 []] 3 0 1
      (sampleObject 0 0 10
          [sampleAnimation 1 0 8 1, { sampleAnimation 0 0 2 4 with type := AnimTypeEx.None }])
      { sampleAnimation 0 0 2 4 with type := AnimTypeEx.None }
      (by decide) (by decide) rfl rfl (by decide) (by decide) (by decide) (by decide)
      (by decide) (by decide) (by decide) (by decide)).2.2.1,
    (unhandled_kind_counts_as_animating Unit Unit
      [sampleObject 0 0 10
          [sampleAnimation 1 0 8 1, { sampleAnimation 0 0 2 4 with type := AnimTypeEx.None }],
        sampleObject 1 0 10 []] 3 0 1
      (sampleObject 0 0 10
          [sampleAnimation 1 0 8 1, { sampleAnimation 0 0 2 4 with type := AnimTypeEx.None }])
      { sampleAnimation 0 0 2 4 with type := AnimTypeEx.None }
      (by decide) (by decide) rfl rfl (by decide) (by decide) (by decide) (by decide)
      (by decide) (by decide) (by decide) (by decide)).2.2.2.1⟩

end UnhandledClaim

end MathAnim
